import Mathlib

/-!
# TinyPG: binary codec, Bind builder and inbound framer

A shallow embedding of `src/TinyPG.cpp`.  Byte buffers (`QByteArray`, `char *`) are lists of
natural numbers below 256; a `char *` that walks a buffer is the suffix of the buffer that
starts at the pointer.  Machine integers are `Nat`/`Int` with explicit wrap-around.
Definitions come first, theorems follow.
-/

namespace TinyPG

/-! ## Machine integers and raw memory -/

/-- The `w` bytes that hold the unsigned integer `x` (taken modulo `256 ^ w`) in memory after
`qToBigEndian`, most significant byte first. -/
def toBigEndian : Nat → Nat → List Nat
  | 0, _ => []
  | w + 1, x => x / 256 ^ w % 256 :: toBigEndian w x

/-- The unsigned integer that `qFromBigEndian` assembles from the given bytes. -/
def fromBigEndian (bs : List Nat) : Nat :=
  bs.foldl (fun acc b => acc * 256 + b) 0

/-- Two's-complement bit pattern of a signed integer in `bits` bits. -/
def toUnsigned (bits : Nat) (i : Int) : Nat :=
  (i % 2 ^ bits).toNat

/-- Signed value of a two's-complement bit pattern of `bits` bits. -/
def toSigned (bits : Nat) (n : Nat) : Int :=
  if n % 2 ^ bits < 2 ^ (bits - 1) then ((n % 2 ^ bits : Nat) : Int)
  else ((n % 2 ^ bits : Nat) : Int) - 2 ^ bits

/-- Conversion of an integer to the signed type of `bits` bits, as a C++ narrowing cast or a
wrapping signed operation produces it. -/
def wrapSigned (bits : Nat) (i : Int) : Int :=
  toSigned bits (toUnsigned bits i)

/-- Read `n` bytes at a pointer.  `none` stands for a read past the end of the buffer, which is
undefined behaviour in the source. -/
def readBytes (data : List Nat) (n : Nat) : Option (List Nat) :=
  if n ≤ data.length then some (data.take n) else none

/-! ## Qt value types

Only what the codec touches is modelled.  A `QDate` is its Julian day number, a `QTime` its
milliseconds since the start of the day, a `QDateTime` the local date and time together with the
offset of its zone from UTC in seconds (east positive). -/

/-- Julian day of `QDate(2000, 1, 1)`. -/
def jd2000 : Int := 2451545

/-- Julian day of the Unix epoch, 1970-01-01. -/
def jdUnixEpoch : Int := 2440588

/-- Milliseconds per day. -/
def msecsPerDay : Int := 86400000

/-- A `QDateTime`: local date (Julian day), local time of day (ms) and `offsetFromUtc` (s). -/
structure QDateTime where
  date : Int
  time : Int
  offsetFromUtc : Int
  deriving DecidableEq

/-- What `QDateTime::toMSecsSinceEpoch` returns. -/
def QDateTime.toMSecsSinceEpoch (dt : QDateTime) : Int :=
  (dt.date - jdUnixEpoch) * msecsPerDay + dt.time - dt.offsetFromUtc * 1000

/-- What `QDateTime::fromMSecsSinceEpoch` builds: the local date and time of the instant in the
system zone, whose offset from UTC at that instant is `sysOffset msecs`. -/
def QDateTime.fromMSecsSinceEpoch (sysOffset : Int → Int) (msecs : Int) : QDateTime :=
  { date := jdUnixEpoch + (msecs + sysOffset msecs * 1000) / msecsPerDay
    time := (msecs + sysOffset msecs * 1000) % msecsPerDay
    offsetFromUtc := sysOffset msecs }

/-- The value kinds a `QVariant` carries in this library.  Floating-point values are kept as
their IEEE-754 bit patterns. -/
inductive QVariant where
  | invalid
  | bool (v : Bool)
  | short (v : Int)
  | int (v : Int)
  | longLong (v : Int)
  | float (bits : Nat)
  | double (bits : Nat)
  | date (jd : Int)
  | time (msecs : Int)
  | dateTime (dt : QDateTime)
  | byteArray (bytes : List Nat)
  | string (s : String)
  | uuid (rfc4122 : List Nat)
  deriving DecidableEq

/-- UTF-8 bytes of one Unicode scalar value. -/
def utf8EncodeChar (c : Nat) : List Nat :=
  if c < 0x80 then [c]
  else if c < 0x800 then [0xC0 + c / 64, 0x80 + c % 64]
  else if c < 0x10000 then [0xE0 + c / 4096, 0x80 + c / 64 % 64, 0x80 + c % 64]
  else [0xF0 + c / 262144, 0x80 + c / 4096 % 64, 0x80 + c / 64 % 64, 0x80 + c % 64]

/-- What `QString::toUtf8` returns. -/
def toUtf8 (s : String) : List Nat :=
  s.data.flatMap (fun c => utf8EncodeChar c.toNat)

/-- What `QString(QLatin1String(data, size))` builds: every byte becomes the character with
that code point. -/
def fromLatin1 (bytes : List Nat) : String :=
  String.mk (bytes.map Char.ofNat)

/-- Model of `QVariant::toBool` on the kinds above (conversions from text are not modelled). -/
def QVariant.toBool : QVariant → Bool
  | .bool v => v
  | .short v => v ≠ 0
  | .int v => v ≠ 0
  | .longLong v => v ≠ 0
  | _ => false

/-- Model of `QVariant::toInt`: the value as a 32-bit `int` (conversions from text are not
modelled). -/
def QVariant.toInt : QVariant → Int
  | .bool v => if v then 1 else 0
  | .short v => v
  | .int v => v
  | .longLong v => wrapSigned 32 v
  | _ => 0

/-- Model of `QVariant::toLongLong` (conversions from text are not modelled). -/
def QVariant.toLongLong : QVariant → Int
  | .bool v => if v then 1 else 0
  | .short v => v
  | .int v => v
  | .longLong v => v
  | _ => 0

/-- Bit pattern of `QVariant::toFloat()`; numeric conversion between kinds is not modelled. -/
def QVariant.toFloat : QVariant → Nat
  | .float bits => bits
  | _ => 0

/-- Bit pattern of `QVariant::toDouble()`; numeric conversion between kinds is not modelled. -/
def QVariant.toDouble : QVariant → Nat
  | .double bits => bits
  | _ => 0

/-- Model of `QVariant::toDate`: `none` is the invalid date. -/
def QVariant.toDate : QVariant → Option Int
  | .date jd => some jd
  | .dateTime dt => some dt.date
  | _ => none

/-- The result of `QDate(2000, 1, 1).daysTo(d)`; an invalid date gives 0. -/
def daysTo2000 : Option Int → Int
  | some jd => jd - jd2000
  | none => 0

/-- Model of `QVariant::toTime().msecsSinceStartOfDay()`; an invalid time gives 0. -/
def QVariant.toTimeMSecs : QVariant → Int
  | .time msecs => msecs
  | .dateTime dt => dt.time
  | _ => 0

/-- Model of `QVariant::toDateTime`: `none` is the invalid date-time. -/
def QVariant.toDateTime : QVariant → Option QDateTime
  | .dateTime dt => some dt
  | _ => none

/-- Model of `QVariant::toByteArray`: a byte array is itself, a string its UTF-8 bytes
(conversions from the other kinds are not modelled). -/
def QVariant.toByteArray : QVariant → List Nat
  | .byteArray bytes => bytes
  | .string s => toUtf8 s
  | _ => []

/-- The 16 bytes of `QVariant::toUuid().toRfc4122()`; the null UUID for any other kind. -/
def QVariant.toUuidRfc4122 : QVariant → List Nat
  | .uuid bytes => (bytes ++ List.replicate 16 0).take 16
  | _ => List.replicate 16 0

/-! ## The OID catalogue (`TinyPG.cpp`, lines 50-123) -/

def _BOOLOID : Nat := 16
def _INT8OID : Nat := 20
def _INT2OID : Nat := 21
def _INT4OID : Nat := 23
def _FLOAT4OID : Nat := 700
def _FLOAT8OID : Nat := 701
def _DATEOID : Nat := 1082
def _TIMEOID : Nat := 1083
def _TIMETZOID : Nat := 1266
def _TIMESTAMPOID : Nat := 1114
def _TIMESTAMPTZOID : Nat := 1184
def _OIDOID : Nat := 2278
def _BYTEAOID : Nat := 17
def _REGPROCOID : Nat := 24
def _XIDOID : Nat := 28
def _CIDOID : Nat := 29
def _CHAROID : Nat := 18
def _VARCHAROID : Nat := 1043
def _TEXTOID : Nat := 25
def _UUIDOID : Nat := 2950

def BOOL : List Nat := [_BOOLOID]
def INT2 : List Nat := [_INT2OID]
def INT4 : List Nat := [_INT4OID, _OIDOID, _REGPROCOID, _XIDOID, _CIDOID]
def INT8 : List Nat := [_INT8OID]
def FLOAT4 : List Nat := [_FLOAT4OID]
def FLOAT8 : List Nat := [_FLOAT8OID]
def DATE : List Nat := [_DATEOID]
def TIME : List Nat := [_TIMEOID]
def TIMETZ : List Nat := [_TIMETZOID]
def TIMESTAMP : List Nat := [_TIMESTAMPOID, _TIMESTAMPTZOID]
def BYTEA : List Nat := [_BYTEAOID]
def TEXT : List Nat := [_CHAROID, _VARCHAROID, _TEXTOID]
def UUID : List Nat := [_UUIDOID]

def TYPES : List (List Nat) :=
  [BOOL, INT2, INT4, INT8, FLOAT4, FLOAT8, DATE, TIME, TIMETZ, TIMESTAMP, BYTEA, TEXT, UUID]

/-- The largest OID of the catalogue. -/
def TypeMax : Nat :=
  TYPES.foldl (fun m v => max m (v.foldl max 0)) 0

/-- The jump targets of the two OID dispatch tables. -/
inductive Label where
  | _BOOL | _INT2 | _INT4 | _INT8 | _FLOAT4 | _FLOAT8 | _DATE | _TIME | _TIMETZ | _TIMESTAMP
  | _BYTEA | _TEXT | _UUID | _default
  deriving DecidableEq

/-- Entry `pointers[idx]` of a `GotoPointers` table: every slot starts as the default target and
each listed index is then overwritten, in list order. -/
def GotoPointers {L : Type} (dflt : L) (list : List (List Nat × L)) (idx : Nat) : L :=
  list.foldl (fun cur entry => if idx ∈ entry.1 then entry.2 else cur) dflt

/-- Entry `values[idx]` of a `VariantValues` table: zero-initialised, then every listed index is
overwritten, in list order. -/
def VariantValues (list : List (List Nat × Nat)) (idx : Nat) : Nat :=
  list.foldl (fun cur entry => if idx ∈ entry.1 then entry.2 else cur) 0

/-- The label list shared by the `types` tables of `runBindQuery` and `Query::value`. -/
def typeLabels : List (List Nat × Label) :=
  [(BOOL, ._BOOL), (INT2, ._INT2), (INT4, ._INT4), (INT8, ._INT8), (FLOAT4, ._FLOAT4),
   (FLOAT8, ._FLOAT8), (DATE, ._DATE), (TIME, ._TIME), (TIMETZ, ._TIMETZ),
   (TIMESTAMP, ._TIMESTAMP), (BYTEA, ._BYTEA), (TEXT, ._TEXT), (UUID, ._UUID)]

/-! ## Data model (`TinyPG.h`) -/

/-- A `Message`: severity, SQLSTATE-like code and text. -/
structure Message where
  _importance : String
  _code : String
  _message : String
  deriving DecidableEq

/-- A `Field` descriptor of a result column (the derived `QMetaType` is left out). -/
structure Field where
  _name : String
  _tableOID : Nat
  _columnIndex : Nat
  _typeOID : Nat
  _typeSize : Int
  _typeModifier : Int
  _formatType : Nat
  deriving DecidableEq

/-- The data members of a `Query`. -/
structure Query where
  _prepare : Bool
  _prepareFinished : Bool
  _stmtName : List Nat
  _lastQuery : String
  _fields : List Field
  _preparedParametrs : List Nat
  _bindValues : List QVariant
  _dataRows : List (List Nat)
  deriving DecidableEq

/-! ## `Connection::runBindQuery` (`TinyPG.cpp`, lines 298-554) -/

def Bind : Nat := 0x42

def ES_msgs : List Nat :=
  [0x45, 0x00, 0x00, 0x00, 0x09, 0x00, 0x00, 0x00, 0x00, 0x00, 0x53, 0x00, 0x00, 0x00, 0x04]

def bin_format : List Nat := [0x00, 0x01, 0x00, 0x01]

def msg : String := "The binding does not support the type OID: "

/-- The `sizes` table of `runBindQuery` before the conversion to big endian. -/
def sizes : List (List Nat × Nat) :=
  [(BOOL, 1), (INT2, 2), (INT4, 4), (INT8, 8), (FLOAT4, 4), (FLOAT8, 8), (DATE, 4), (TIME, 8),
   (TIMETZ, 12), (TIMESTAMP, 8), (BYTEA, 0), (TEXT, 0), (UUID, 16)]

/-- The four bytes appended from `&sizes.values[oid]`. -/
def sizeBytes (oid : Nat) : List Nat :=
  toBigEndian 4 (VariantValues sizes oid)

/-- Constant subtracted from `toMSecsSinceEpoch()` by the `_TIMESTAMP` bodies. -/
def timestampBase : Int := 946674000000

/-- One pass of the parameter loop after the jump to `label`: the bytes appended to `_bufferOut`
and the amount added to `size`; `none` for `_default`.  An invalid `QDateTime` is taken to have
time 0, offset 0 and 0 ms since the epoch (Qt leaves these unspecified). -/
def bindStep (label : Label) (oid : Nat) (value : QVariant) : Option (List Nat × Nat) :=
  match label with
  | ._BOOL => some (sizeBytes oid ++ [if value.toBool then 1 else 0], 1)
  | ._INT2 => some (sizeBytes oid ++ toBigEndian 2 (toUnsigned 16 value.toInt), 2)
  | ._INT4 => some (sizeBytes oid ++ toBigEndian 4 (toUnsigned 32 value.toInt), 4)
  | ._INT8 => some (sizeBytes oid ++ toBigEndian 8 (toUnsigned 64 value.toLongLong), 8)
  | ._FLOAT4 => some (sizeBytes oid ++ toBigEndian 4 value.toFloat, 4)
  | ._FLOAT8 => some (sizeBytes oid ++ toBigEndian 8 value.toDouble, 8)
  | ._DATE =>
    some (sizeBytes oid ++ toBigEndian 4 (toUnsigned 32 (daysTo2000 value.toDate)), 4)
  | ._TIME => some (sizeBytes oid ++ toBigEndian 8 (toUnsigned 64 (value.toTimeMSecs * 1000)), 8)
  | ._TIMETZ =>
    let dt := value.toDateTime.getD ⟨0, 0, 0⟩
    some (sizeBytes oid ++ toBigEndian 8 (toUnsigned 64 (dt.time * 1000))
            ++ toBigEndian 4 (toUnsigned 32 (-dt.offsetFromUtc)), 12)
  | ._TIMESTAMP =>
    let msecs := match value.toDateTime with
      | some dt => dt.toMSecsSinceEpoch
      | none => 0
    some (sizeBytes oid ++ toBigEndian 8 (toUnsigned 64 ((msecs - timestampBase) * 1000)), 8)
  | ._BYTEA =>
    let data := value.toByteArray
    some (toBigEndian 4 data.length ++ data, data.length % 2 ^ 32)
  | ._TEXT =>
    let data := value.toByteArray
    some (toBigEndian 4 data.length ++ data, data.length % 2 ^ 32)
  | ._UUID => some (sizeBytes oid ++ value.toUuidRfc4122, 16)
  | ._default => none

/-- State of `runBindQuery` when the parameter loop is left: `_bufferOut`, `size`, and the
message emitted through `query->error` when the loop returned early. -/
structure BindLoop where
  _bufferOut : List Nat
  size : Nat
  error : Option Message
  deriving DecidableEq

/-- The parameter loop `for(int i = 0; i < query->_bindValues.size(); i++)`, entered at index
`i` with the bound values from `i` on still to do.  An index past the end of
`_preparedParametrs` (out of contract) reads OID 0. -/
def bindLoop (params : List Nat) : List QVariant → Nat → List Nat → Nat → BindLoop
  | [], _, bufferOut, size => ⟨bufferOut, size, none⟩
  | value :: rest, i, bufferOut, size =>
    let oid := params.getD i 0
    if TypeMax < oid then ⟨bufferOut, size, some ⟨"", "", msg ++ toString oid⟩⟩
    else
      match bindStep (GotoPointers Label._default typeLabels oid) oid value with
      | some (bytes, n) => bindLoop params rest (i + 1) (bufferOut ++ bytes) ((size + n) % 2 ^ 32)
      | none => ⟨bufferOut, size, some ⟨"", "", msg ++ toString oid⟩⟩

/-- What one call of `runBindQuery` leaves behind: `_bufferOut`, the messages emitted through
`query->error`, and the arguments of the `_socket.write` calls. -/
structure BindOutcome where
  _bufferOut : List Nat
  error : List Message
  written : List (List Nat)
  deriving DecidableEq

/-- The function `Connection::runBindQuery`, started with the given content of `_bufferOut`
(`taskFromQueue` truncates it to empty before the call). -/
def runBindQuery (bufferOut : List Nat) (query : Query) : BindOutcome :=
  let size := (14 + query._stmtName.length) % 2 ^ 32
  let buf := bufferOut ++ [Bind] ++ toBigEndian 4 size ++ [0] ++ query._stmtName ++ [0]
  let values := query._bindValues.length % 2 ^ 16
  if values ≠ query._preparedParametrs.length then
    ⟨buf, [⟨"", "", "Incorrect value binding size: " ++ toString values ++ " != "
                      ++ toString query._preparedParametrs.length⟩], []⟩
  else if 0 < values then
    let size := (size + (values * 2 + values * 4)) % 2 ^ 32
    let buf := buf ++ toBigEndian 2 values
      ++ (List.replicate query._bindValues.length (toBigEndian 2 1)).flatten
      ++ toBigEndian 2 values
    let r := bindLoop query._preparedParametrs query._bindValues 0 buf size
    match r.error with
    | some e => ⟨r._bufferOut, [e], []⟩
    | none =>
      let buf := r._bufferOut.take 1 ++ toBigEndian 4 r.size ++ r._bufferOut.drop 5
      let buf := buf ++ bin_format ++ ES_msgs
      ⟨buf, [], [buf]⟩
  else
    let buf := buf ++ List.replicate 4 0 ++ bin_format ++ ES_msgs
    ⟨buf, [], [buf]⟩

/-! ## `Query::value` (`TinyPG.cpp`, lines 990-1072) -/

/-- The code at the jump target `label` inside `Query::value`, with `data` pointing at the first
byte after the length field and `size` the value of the length field.  `none` is a read past the
end of the row. -/
def decodeColumn (sysOffset : Int → Int) (label : Label) (data : List Nat) (size : Nat) :
    Option QVariant :=
  match label with
  | ._BOOL => (readBytes data 1).map fun b => .bool (decide (b.getD 0 0 ≠ 0))
  | ._INT2 => (readBytes data 2).map fun b => .short (toSigned 16 (fromBigEndian b))
  | ._INT4 => (readBytes data 4).map fun b => .int (toSigned 32 (fromBigEndian b))
  | ._INT8 => (readBytes data 8).map fun b => .longLong (toSigned 64 (fromBigEndian b))
  | ._FLOAT4 => (readBytes data 4).map fun b => .float (fromBigEndian b)
  | ._FLOAT8 => (readBytes data 8).map fun b => .double (fromBigEndian b)
  | ._DATE => (readBytes data 4).map fun b => .date (jd2000 + toSigned 32 (fromBigEndian b))
  | ._TIME =>
    (readBytes data 8).map fun b =>
      .time (wrapSigned 32 (Int.tdiv (toSigned 64 (fromBigEndian b)) 1000))
  | ._TIMETZ =>
    (readBytes data 12).map fun b =>
      .dateTime
        { date := 0
          time := wrapSigned 32 (Int.tdiv (toSigned 64 (fromBigEndian (b.take 8))) 1000)
          offsetFromUtc := wrapSigned 32 (-toSigned 32 (fromBigEndian (b.drop 8))) }
  | ._TIMESTAMP =>
    (readBytes data 8).map fun b =>
      .dateTime (QDateTime.fromMSecsSinceEpoch sysOffset
        (timestampBase + Int.tdiv (toSigned 64 (fromBigEndian b)) 1000))
  | ._BYTEA => (readBytes data size).map fun b => .byteArray b
  | ._TEXT => (readBytes data size).map fun b => .string (fromLatin1 b)
  | ._UUID => (readBytes data 16).map fun b => .uuid b
  | ._default => none

/-- The loop `for(int i = 0; i <= _fields.count(); i++)` of `Query::value`, entered at index `i`
with `n` iterations left and `data` the pointer into the row.  `none` is undefined behaviour in
the source: a read past the end of the row or `_fields[i]` past the end of the field list. -/
def Query.valueLoop (sysOffset : Int → Int) (fields : List Field) (column : Int) :
    Nat → Nat → List Nat → Option QVariant
  | 0, _, _ => some .invalid
  | n + 1, i, data =>
    match readBytes data 4 with
    | none => none
    | some b =>
      let size := fromBigEndian b
      let data := data.drop 4
      if (i : Int) = column then
        if size = 0xFFFFFFFF then some .invalid
        else
          match fields[i]? with
          | none => none
          | some f =>
            if TypeMax < f._typeOID then decodeColumn sysOffset ._BYTEA data size
            else decodeColumn sysOffset (GotoPointers Label._BYTEA typeLabels f._typeOID) data size
      else if size ≠ 0xFFFFFFFF then Query.valueLoop sysOffset fields column n (i + 1) (data.drop size)
      else Query.valueLoop sysOffset fields column n (i + 1) data

/-- The function `Query::value(row, column)`.  Here `sysOffset` gives the offset of the system time zone from UTC
at an instant, which `QDateTime::fromMSecsSinceEpoch` consults.  `none` is undefined behaviour in
the source (`_dataRows[row]` past the end, or see `Query.valueLoop`). -/
def Query.value (sysOffset : Int → Int) (query : Query) (row : Nat) (column : Int) :
    Option QVariant :=
  match query._dataRows[row]? with
  | none => none
  | some data => Query.valueLoop sysOffset query._fields column (query._fields.length + 1) 0 data

/-! ## `Connection::analyzePacket` (`TinyPG.cpp`, lines 781-919)

The handlers called from the dispatch table touch neither `data`, `pos`, `complete` nor
`_bufferIn`, and only the return value of `authentication` feeds back into the control flow.  The
function is therefore embedded as a pure function from the spill buffer and the bytes read to the
list of frames it takes through the dispatch table and connection-level events it raises, plus
the new spill buffer. -/

def NegotiateProtocolVersion : Nat := 0x76
def ErrorResponse : Nat := 0x45
def NoticeResponse : Nat := 0x4e
def AuthenticationRequest : Nat := 0x52
def AuthenticationSucces : Nat := 0x00
def ParameterStatus : Nat := 0x53
def BackendKeyData : Nat := 0x4b
def ReadyForQuery : Nat := 0x5a
def MD5password : Nat := 0x05
def ParseComplite : Nat := 0x31
def BindCompletion : Nat := 0x32
def RowDescription : Nat := 0x54
def DataRow : Nat := 0x44
def NoData : Nat := 0x6e
def CommandCompletion : Nat := 0x43
def EmptyQueryResponse : Nat := 0x49
def ParameterDescription : Nat := 0x74

def MinimumPackageSize : Nat := 5

/-- The jump targets of the `proto` table. -/
inductive ProtoLabel where
  | _DataRow | _ParameterDescription | _RowDescription | _ReadyForQuery | _CommandCompletion
  | _ErrorResponse | _NoticeResponse | _ParameterStatus | _AuthenticationRequest
  | _BackendKeyData | _NegotiateProtocolVersion | _default | _next
  deriving DecidableEq

/-- Entry `proto.pointers[tag]` of the 256-slot table of `analyzePacket`, the tag byte taken as
an unsigned index.  This is the slot the source reads for a tag byte below 0x80, and for every
byte where `char` is an unsigned type; `charValue` and `protoSlot` below give the index that
the expression `data[pos]` yields where `char` is signed. -/
def proto (tag : Nat) : ProtoLabel :=
  GotoPointers ProtoLabel._default
    [([DataRow], ._DataRow), ([NoData], ._next), ([ParameterDescription], ._ParameterDescription),
     ([RowDescription], ._RowDescription), ([ReadyForQuery], ._ReadyForQuery),
     ([CommandCompletion], ._CommandCompletion), ([EmptyQueryResponse], ._next),
     ([ParseComplite], ._next), ([BindCompletion], ._next), ([ErrorResponse], ._ErrorResponse),
     ([NoticeResponse], ._NoticeResponse), ([ParameterStatus], ._ParameterStatus),
     ([AuthenticationRequest], ._AuthenticationRequest), ([BackendKeyData], ._BackendKeyData),
     ([NegotiateProtocolVersion], ._NegotiateProtocolVersion)] tag

/-- What `analyzePacket` does that is visible outside it. -/
inductive Event where
  /-- The frame with this tag was taken through the dispatch table; `data` is the pointer
  `data.data() + pos + MinimumPackageSize` and `size` the value `size - sizeof(quint32)` that
  the handlers receive. -/
  | frame (tag : Nat) (data : List Nat) (size : Nat)
  /-- The statement `emit error(e)` on the Connection. -/
  | error (e : Message)
  /-- The call `close()`. -/
  | close
  deriving DecidableEq

/-- The payload a frame event hands over: the `size` bytes at the pointer. -/
def Event.observed : Event → Event
  | .frame tag data size => .frame tag (data.take size) size
  | e => e

/-- The return value of `Connection::authentication(data)`: true exactly for the types
`MD5password` and `AuthenticationSucces`. -/
def authenticationAccepts (data : List Nat) : Bool :=
  let type := fromBigEndian (data.take 4)
  type = MD5password || type = AuthenticationSucces

/-- The `do ... while` loop of `analyzePacket` together with the code after it.  `check` says
whether the loop condition is tested before the body runs (false only on entry), `fuel` bounds
the number of iterations, and `none` means the fuel ran out.  The result is the list of events
and the final `_bufferIn`. -/
def analyzeLoop : Nat → Bool → List Nat → Nat → Bool → Option (List Event × List Nat)
  | 0, _, _, _, _ => none
  | fuel + 1, check, data, pos, complete =>
    if check && !decide ((pos + MinimumPackageSize) % 2 ^ 32 ≤ data.length % 2 ^ 32) then
      if pos ≠ data.length % 2 ^ 32 then
        if complete then
          some ([.error ⟨"", "", "Data segmentation error"⟩, .close], data.drop pos)
        else some ([], data.drop pos)
      else some ([], [])
    else
      let size := fromBigEndian ((data.drop (pos + 1)).take 4)
      if data.length % 2 ^ 32 ≤ (pos + size) % 2 ^ 32 then
        if complete then some ([.error ⟨"", "", "Protocol message size error"⟩, .close], [])
        else some ([], data.drop pos)
      else
        let tag := data.getD pos 0
        let here := Event.frame tag (data.drop (pos + MinimumPackageSize)) ((size + 2 ^ 32 - 4) % 2 ^ 32)
        let next := fun (complete : Bool) =>
          (analyzeLoop fuel true data ((pos + size + 1) % 2 ^ 32) complete).map
            fun r => (here :: r.1, r.2)
        match proto tag with
        | ._NegotiateProtocolVersion =>
          some ([.error ⟨"", "", "Protocol version 3.0 is not supported"⟩, .close], [])
        | ._default =>
          some ([.error ⟨"", "", "Does not support the type of message in the protocol: "
                                  ++ String.singleton (Char.ofNat tag)⟩, .close], [])
        | ._AuthenticationRequest =>
          if authenticationAccepts (data.drop (pos + MinimumPackageSize)) then next complete
          else some ([here, .error ⟨"", "", "Authorization error"⟩, .close], [])
        | ._CommandCompletion => next true
        | _ => next complete

/-- The function `Connection::analyzePacket`, with `bufferIn` the content of `_bufferIn` on entry and `input`
the bytes returned by `_socket.readAll()`. -/
def analyzePacket (fuel : Nat) (bufferIn input : List Nat) : Option (List Event × List Nat) :=
  let data := bufferIn ++ input
  if data.length < MinimumPackageSize then
    some ([.error ⟨"", "", "Minimum data packet size error"⟩, .close], [])
  else analyzeLoop fuel false data 0 false

/-- The socket delivering `reads` one after the other, each through one `readyRead` signal and so
one call of `analyzePacket`; once `close()` has run the socket is closed and no further read is
delivered.  The result is the list of all events and the final `_bufferIn`. -/
def analyzePackets (fuel : Nat) : List Nat → List (List Nat) → Option (List Event × List Nat)
  | bufferIn, [] => some ([], bufferIn)
  | bufferIn, input :: reads =>
    match analyzePacket fuel bufferIn input with
    | none => none
    | some (events, bufferIn) =>
      if Event.close ∈ events then some (events, bufferIn)
      else (analyzePackets fuel bufferIn reads).map fun r => (events ++ r.1, r.2)

/-! ### Frames and segmentations, as the specification describes them -/

/-- A server frame: type tag and payload. -/
structure Frame where
  tag : Nat
  payload : List Nat
  deriving DecidableEq

/-- Wire layout of a frame: tag, four-byte big-endian length `4 + payload size`, payload. -/
def Frame.encode (f : Frame) : List Nat :=
  f.tag :: (toBigEndian 4 (4 + f.payload.length) ++ f.payload)

/-- The byte stream made of the given frames. -/
def encodeFrames (frames : List Frame) : List Nat :=
  frames.flatMap Frame.encode

/-- A frame the framer can be handed: the tag is a 7-bit character, the length fits the
four-byte field, and an authentication request carries its four-byte type. -/
def Frame.valid (f : Frame) : Prop :=
  f.tag < 128 ∧ 4 + f.payload.length < 2 ^ 32 ∧
    (f.tag = AuthenticationRequest → 4 ≤ f.payload.length)

instance decidableFrameValid (f : Frame) : Decidable f.valid := by
  unfold Frame.valid; exact inferInstance

/-- The whole-buffer parser of the specification: the frames of a stream in order, as
`(tag, payload)` pairs, up to the first frame that is fatal (unknown tag, protocol negotiation,
rejected authentication type). -/
def expectedTrace : List Frame → List Event
  | [] => []
  | f :: fs =>
    match proto f.tag with
    | ._NegotiateProtocolVersion =>
      [.error ⟨"", "", "Protocol version 3.0 is not supported"⟩, .close]
    | ._default =>
      [.error ⟨"", "", "Does not support the type of message in the protocol: "
                        ++ String.singleton (Char.ofNat f.tag)⟩, .close]
    | ._AuthenticationRequest =>
      if authenticationAccepts f.payload then
        .frame f.tag f.payload f.payload.length :: expectedTrace fs
      else [.frame f.tag f.payload f.payload.length, .error ⟨"", "", "Authorization error"⟩,
            .close]
    | _ => .frame f.tag f.payload f.payload.length :: expectedTrace fs

/-- The frames of `frames` that are complete once `avail` bytes of their stream are there: the
frames still to come, the number of bytes of the first of them already there, and whether one
of the completed frames is a `CommandCompletion`. -/
def advance : List Frame → Nat → List Frame × Nat × Bool
  | [], avail => ([], avail, false)
  | f :: fs, avail =>
    if f.encode.length ≤ avail then
      let r := advance fs (avail - f.encode.length)
      (r.1, r.2.1, r.2.2 || decide (f.tag = CommandCompletion))
    else (f :: fs, avail, false)

/-- A segmentation on which none of the framing guards of `analyzePacket` fires.  With `frames`
still to come, of which `spill` bytes are already in the spill buffer, every read finds at least
`MinimumPackageSize` bytes (spill and fragment together), and a read that completes a
`CommandCompletion` frame ends on a frame boundary. -/
def GoodCuts : List Frame → Nat → List (List Nat) → Prop
  | _, _, [] => True
  | frames, spill, fragment :: more =>
    MinimumPackageSize ≤ spill + fragment.length ∧
    ((advance frames (spill + fragment.length)).2.2 = true →
        (advance frames (spill + fragment.length)).2.1 = 0) ∧
    GoodCuts (advance frames (spill + fragment.length)).1
      (advance frames (spill + fragment.length)).2.1 more

instance decidableGoodCuts : (frames : List Frame) → (spill : Nat) →
    (fragments : List (List Nat)) → Decidable (GoodCuts frames spill fragments)
  | _, _, [] => isTrue trivial
  | frames, spill, fragment :: more =>
    have := decidableGoodCuts (advance frames (spill + fragment.length)).1
      (advance frames (spill + fragment.length)).2.1 more
    by unfold GoodCuts; exact inferInstance

/-- What one call of `analyzePacket` does on a buffer made of the whole frames `frames` followed
by the leftover `tail`, entered with the given `complete` flag: the events, with the payload of
every frame, and the new spill buffer.  A leftover after a `CommandCompletion` frame raises a
framing error, "Protocol message size error" when it holds a frame header and "Data segmentation
error" otherwise; any other leftover is kept. -/
def expectedRead : List Frame → List Nat → Bool → List Event × List Nat
  | [], tail, complete =>
    if tail = [] then ([], [])
    else if complete then
      if MinimumPackageSize ≤ tail.length then
        ([.error ⟨"", "", "Protocol message size error"⟩, .close], [])
      else ([.error ⟨"", "", "Data segmentation error"⟩, .close], tail)
    else ([], tail)
  | f :: fs, tail, complete =>
    match proto f.tag with
    | ._NegotiateProtocolVersion =>
      ([.error ⟨"", "", "Protocol version 3.0 is not supported"⟩, .close], [])
    | ._default =>
      ([.error ⟨"", "", "Does not support the type of message in the protocol: "
                         ++ String.singleton (Char.ofNat f.tag)⟩, .close], [])
    | ._AuthenticationRequest =>
      if authenticationAccepts f.payload then
        (.frame f.tag f.payload f.payload.length :: (expectedRead fs tail complete).1,
          (expectedRead fs tail complete).2)
      else ([.frame f.tag f.payload f.payload.length, .error ⟨"", "", "Authorization error"⟩,
             .close], [])
    | ._CommandCompletion =>
      (.frame f.tag f.payload f.payload.length :: (expectedRead fs tail true).1,
        (expectedRead fs tail true).2)
    | _ =>
      (.frame f.tag f.payload f.payload.length :: (expectedRead fs tail complete).1,
        (expectedRead fs tail complete).2)

/-- The events of a run with the payload of every frame, and the final spill buffer. -/
def observedRun (r : Option (List Event × List Nat)) : Option (List Event × List Nat) :=
  r.map fun r => (r.1.map Event.observed, r.2)

/-! ### Round trips and rows, as the specification describes them -/

/-- Largest offset from UTC, in seconds, that a `QTimeZone` carries in every Qt version the
source builds with (`QTimeZone::MaxUtcOffsetSecs`, 14 hours in Qt 5; the smallest is its
negative).  Validity of a `QTimeZone` is not modelled; the theorems on zones stay within this
range. -/
def MaxUtcOffsetSecs : Int := 14 * 3600

/-- The OIDs of the catalogue. -/
def catalogue : List Nat := TYPES.flatten

/-- Round trip of one value through the codec.  Bound as the only parameter, of type OID `oid`,
of any prepared query, `runBindQuery` emits no error and writes one Bind frame
`head ++ bytes ++ bin_format ++ ES_msgs`, in which `head` is the frame header up to the
parameter count; at any position of the parameter loop of any query the same `bytes` are
appended for this OID and value; the parameter bytes `bytes` satisfy `wire`; and `Query::value`,
applied to any stored row made of `bytes` whose only field has type OID `oid`, returns a value
that satisfies `decoded`. -/
def RoundTrip (sysOffset : Int → Int) (oid : Nat) (value : QVariant) (wire : List Nat → Prop)
    (decoded : QVariant → Prop) : Prop :=
  ∀ query : Query, query._preparedParametrs = [oid] → query._bindValues = [value] →
    ∃ head bytes,
      head.take 1 = [Bind] ∧ head.drop 5 = 0 :: (query._stmtName ++ [0, 0, 1, 0, 1, 0, 1]) ∧
      runBindQuery [] query
        = ⟨head ++ bytes ++ bin_format ++ ES_msgs, [], [head ++ bytes ++ bin_format ++ ES_msgs]⟩ ∧
      (∀ (params : List Nat) (values : List QVariant) (i : Nat) (bufferOut : List Nat)
          (size : Nat), params.getD i 0 = oid →
        ∃ n, bindLoop params (value :: values) i bufferOut size
          = bindLoop params values (i + 1) (bufferOut ++ bytes) ((size + n) % 2 ^ 32)) ∧
      wire bytes ∧
      ∀ (result : Query) (field : Field) (row : Nat),
        result._fields = [field] → field._typeOID = oid → result._dataRows[row]? = some bytes →
        ∃ v, Query.value sysOffset result row 0 = some v ∧ decoded v

/-- One column of a stored row: the length `-1` for NULL, else the length and the bytes. -/
def encodeColumn : Option (List Nat) → List Nat
  | none => [0xFF, 0xFF, 0xFF, 0xFF]
  | some bytes => toBigEndian 4 bytes.length ++ bytes

/-- A stored row payload made of the given columns. -/
def encodeColumns (columns : List (Option (List Nat))) : List Nat :=
  columns.flatMap encodeColumn

/-- A column whose length fits the four-byte field without colliding with the NULL marker. -/
def columnFits : Option (List Nat) → Prop
  | none => True
  | some bytes => bytes.length < 0xFFFFFFFF

instance decidableColumnFits (column : Option (List Nat)) : Decidable (columnFits column) := by
  cases column <;> unfold columnFits <;> exact inferInstance

/-- Offset of the first value byte of column `col` in a row: every earlier column takes its
four-byte length field and its bytes (none for NULL), and the own length field is skipped. -/
def columnOffset (columns : List (Option (List Nat))) (col : Nat) : Nat :=
  ((columns.take col).map fun c => 4 + (c.getD []).length).sum + 4

/-- Number of bytes the code at `label` in `Query::value` reads at the pointer when the length
field holds `size`. -/
def bytesRead (label : Label) (size : Nat) : Nat :=
  match label with
  | ._BOOL => 1
  | ._INT2 => 2
  | ._INT4 => 4
  | ._INT8 => 8
  | ._FLOAT4 => 4
  | ._FLOAT8 => 8
  | ._DATE => 4
  | ._TIME => 8
  | ._TIMETZ => 12
  | ._TIMESTAMP => 8
  | ._BYTEA => size
  | ._TEXT => size
  | ._UUID => 16
  | ._default => 0

/-! ## The Connection and its task queue (`TinyPG.cpp`, lines 211-296 and 556-684)

A `Query *` is the index of the object in `Connection.queries`.  Signals are recorded in the
order in which they are emitted; the slots that user code attaches to them are outside the
model. -/

def Idle : Nat := 0x49
def Transaction : Nat := 0x54
def Exit : Nat := 0x45
def ErrorOrNoticeType : Nat := 0x56
def ErrorOrNoticeCode : Nat := 0x43
def ErrorOrNoticeMessage : Nat := 0x4D
def Parse : Nat := 0x50
def Describe : Nat := 0x44
def Statement : Nat := 0x53

/-- The signals of a `Connection` (the first four) and of its `Query` objects. -/
inductive Signal where
  | connected
  | disconnected
  | error (e : Message)
  | notice (n : Message)
  | executeFinished (query : Nat)
  | prepareFinished (query : Nat)
  | queryError (query : Nat) (e : Message)
  | queryNotice (query : Nat) (n : Message)
  deriving DecidableEq

/-- The data members of a `Connection`, the `Query` objects its queue points to, the static
counter `Query::_stmt_number`, and what the object has done so far: the arguments of the
`_socket.write` calls and the signals emitted, both in order.  The field `connected` stands for
`_socket.state() == QAbstractSocket::ConnectedState`. -/
structure Connection where
  _bufferIn : List Nat
  _bufferOut : List Nat
  connected : Bool
  written : List (List Nat)
  _user : List Nat
  _password : List Nat
  _database : List Nat
  _parametersStatus : List (String × String)
  _pid : Nat
  _key : Nat
  _auth_success : Bool
  _tasks : List Nat
  queries : Nat → Query
  _stmt_number : Nat
  emitted : List Signal

/-- A `Query` as its constructor leaves it. -/
def Query.fresh : Query :=
  ⟨false, false, [], "", [], [], [], []⟩

/-- A `Connection` as its constructor leaves it, with freshly constructed `Query` objects. -/
def Connection.fresh : Connection :=
  { _bufferIn := [], _bufferOut := [], connected := false, written := [], _user := [],
    _password := [], _database := [], _parametersStatus := [], _pid := 0, _key := 0,
    _auth_success := false, _tasks := [], queries := fun _ => Query.fresh, _stmt_number := 0,
    emitted := [] }

def BDES_msgs : List Nat :=
  [0x42, 0x00, 0x00, 0x00, 0x0e, 0x00, 0x00, 0x00, 0x00, 0x00, 0x00, 0x00, 0x01, 0x00, 0x01, 0x44,
   0x00, 0x00, 0x00, 0x06, 0x50, 0x00, 0x45, 0x00, 0x00, 0x00, 0x09, 0x00, 0x00, 0x00, 0x00, 0x00,
   0x53, 0x00, 0x00, 0x00, 0x04]

def sync : List Nat := [0x53, 0x00, 0x00, 0x00, 0x04]

def Termination : List Nat := [0x58, 0x00, 0x00, 0x00, 0x04]

/-- The function `Connection::runQuery`. -/
def runQuery (c : Connection) (query : Nat) : Connection :=
  let data := toUtf8 (c.queries query)._lastQuery
  let size := (8 + data.length) % 2 ^ 32
  let buf := c._bufferOut ++ [Parse] ++ toBigEndian 4 size ++ [0] ++ data ++ List.replicate 3 0
    ++ BDES_msgs
  { c with _bufferOut := buf, written := c.written ++ [buf] }

/-- The function `Connection::runPrepareQuery`. -/
def runPrepareQuery (c : Connection) (query : Nat) : Connection :=
  let stmtName := (c.queries query)._stmtName
  let data := toUtf8 (c.queries query)._lastQuery
  let size := (8 + stmtName.length + data.length) % 2 ^ 32
  let buf := c._bufferOut ++ [Parse] ++ toBigEndian 4 size ++ stmtName ++ [0] ++ data
    ++ List.replicate 3 0
  let size := (4 + stmtName.length + 2) % 2 ^ 32
  let buf := buf ++ [Describe] ++ toBigEndian 4 size ++ [Statement] ++ stmtName ++ [0] ++ sync
  { c with _bufferOut := buf, written := c.written ++ [buf] }

/-- The function `Connection::taskFromQueue`.  Its two callers reach it with a non-empty queue;
on an empty one `_tasks.head()` has no value and the model leaves the state alone. -/
def taskFromQueue (c : Connection) : Connection :=
  match c._tasks with
  | [] => c
  | query :: _ =>
    let c := { c with _bufferOut := [] }
    if (c.queries query)._prepare then
      if (c.queries query)._prepareFinished then
        let r := runBindQuery c._bufferOut (c.queries query)
        { c with
          _bufferOut := r._bufferOut
          written := c.written ++ r.written
          emitted := c.emitted ++ r.error.map (Signal.queryError query) }
      else runPrepareQuery c query
    else runQuery c query

/-- The function `Connection::endTask`. -/
def endTask (c : Connection) : Connection :=
  match c._tasks with
  | [] => c
  | query :: tasks =>
    let c := { c with _tasks := tasks }
    let c :=
      if (c.queries query)._prepare && (c.queries query)._bindValues.isEmpty then
        { c with
          queries := Function.update c.queries query
            { c.queries query with _prepareFinished := true }
          emitted := c.emitted ++ [.prepareFinished query] }
      else { c with emitted := c.emitted ++ [.executeFinished query] }
    if 0 < c._tasks.length then taskFromQueue c else c

/-- The function `Connection::addQuery`. -/
def addQuery (c : Connection) (query : Nat) : Connection :=
  let c := { c with _tasks := c._tasks ++ [query] }
  if c._tasks.head? = some query then taskFromQueue c else c

/-- The function `Connection::readyForQuery`, with `data` the pointer to the payload. -/
def readyForQuery (c : Connection) (data : List Nat) : Connection :=
  let status := data.getD 0 0
  if status = Idle then endTask c
  else if status = Transaction then endTask c
  else if status = Exit then c
  else c

/-- The function `Connection::close`.  The signal `QTcpSocket::disconnected` that `_socket.close()` raises
runs `close` once more, which then finds the socket no longer connected and only zeroes `_pid`
and `_key` again. -/
def close (c : Connection) : Connection :=
  let c := { c with _pid := 0, _key := 0 }
  if c.connected then
    let c :=
      if c._auth_success then
        { c with emitted := c.emitted ++ [.disconnected], written := c.written ++ [Termination] }
      else c
    { c with connected := false }
  else c

/-- The function `Query::preparation` of the object `query`, whose `_db` is this Connection. -/
def Query.preparation (c : Connection) (query : Nat) (sql : String) : Connection :=
  let c := { c with
    queries := Function.update c.queries query
      { c.queries query with
        _fields := [], _preparedParametrs := [], _bindValues := [], _dataRows := [],
        _lastQuery := sql, _prepareFinished := false } }
  addQuery c query

/-- The function `Query::exec()` of the object `query`, whose `_db` is this Connection. -/
def Query.exec (c : Connection) (query : Nat) : Connection :=
  if (c.queries query)._prepare then
    if (c.queries query)._prepareFinished then addQuery c query else c
  else if !(c.queries query)._lastQuery.isEmpty then addQuery c query
  else c

/-- The function `Query::exec(const QString &)` of the object `query`, whose `_db` is this
Connection. -/
def Query.execSql (c : Connection) (query : Nat) (sql : String) : Connection :=
  let c := { c with
    queries := Function.update c.queries query { c.queries query with _prepare := false } }
  Query.preparation c query sql

/-- The function `Query::prepare` of the object `query`, whose `_db` is this Connection. -/
def Query.prepare (c : Connection) (query : Nat) (sql : String) : Connection :=
  let n := (c._stmt_number + 1) % 2 ^ 64
  let c := { c with
    _stmt_number := n
    queries := Function.update c.queries query
      { c.queries query with
        _prepare := true
        _stmtName := ("stmt_" ++ toString n).data.map Char.toNat } }
  Query.preparation c query sql

/-! ### `Connection::errorOrNoticeResponse` (`TinyPG.cpp`, lines 575-621) -/

/-- What `QLatin1String temp(data)` holds: the bytes before the first NUL.  The NUL that ends
every `QByteArray` stops the scan at the end of the buffer at the latest. -/
def cString (data : List Nat) : List Nat :=
  data.takeWhile (fun b => b ≠ 0)

/-- The selector of `errorOrNoticeResponse`. -/
inductive ErrorOrNotice where
  | Error
  | Notice
  deriving DecidableEq

/-- The `do ... while` loop of `errorOrNoticeResponse`, entered at offset `pos` with the current
values of `v`, `c` and `m`; `data` is the pointer into the inbound buffer, so it ends where the
buffer ends.  The result is `none` when the fuel runs out, or when the loop reads past the NUL
that ends the buffer, which is undefined behaviour in the source. -/
def errorOrNoticeLoop :
    Nat → List Nat → Nat → Nat → List Nat → List Nat → List Nat →
      Option (List Nat × List Nat × List Nat)
  | 0, _, _, _, _, _, _ => none
  | fuel + 1, data, size, pos, v, c, m =>
    if data.length < pos + 1 then none
    else
      let type := data.getD pos 0
      let pos := (pos + 1) % 2 ^ 32
      let temp := cString (data.drop pos)
      let pos := (pos + temp.length) % 2 ^ 32
      let pos := (pos + 1) % 2 ^ 32
      let v := if type = ErrorOrNoticeType then temp else v
      let c := if type = ErrorOrNoticeCode then temp else c
      let m := if type = ErrorOrNoticeMessage then temp else m
      if pos < size ∨ (v.length = 0 ∨ c.length = 0 ∨ m.length = 0) then
        errorOrNoticeLoop fuel data size pos v c m
      else some (v, c, m)

/-- The function `Connection::errorOrNoticeResponse`; `none` as for `errorOrNoticeLoop`. -/
def errorOrNoticeResponse (fuel : Nat) (c : Connection) (data : List Nat) (size : Nat)
    (type : ErrorOrNotice) : Option Connection :=
  (errorOrNoticeLoop fuel data size 0 [] [] []).map fun r =>
    let e : Message := ⟨fromLatin1 r.1, fromLatin1 r.2.1, fromLatin1 r.2.2⟩
    match type, c._tasks with
    | .Error, query :: _ => { c with emitted := c.emitted ++ [.queryError query e] }
    | .Error, [] => { c with emitted := c.emitted ++ [.error e] }
    | .Notice, query :: _ => { c with emitted := c.emitted ++ [.queryNotice query e] }
    | .Notice, [] => { c with emitted := c.emitted ++ [.notice e] }

/-! ### The index into the `proto` table (`TinyPG.cpp`, line 840) -/

/-- The value of the expression `data[pos]`, of type `char`, for a byte of the buffer: the byte
itself where `char` is an unsigned type, and the byte read as a two's complement 8-bit number
where `char` is a signed type (x86, x86-64 and Apple's arm64 ABI). -/
def charValue (charIsSigned : Bool) (byte : Nat) : Int :=
  if charIsSigned then toSigned 8 byte else ((byte % 2 ^ 8 : Nat) : Int)

/-- The jump target `proto.pointers[index]`.  The array `pointers` has the slots 0 to 255, and
`none` is an index outside it. -/
def protoSlot (index : Int) : Option ProtoLabel :=
  if 0 ≤ index ∧ index ≤ 255 then some (proto index.toNat) else none

/-! ### Queue runs, payloads and frames, as the specification describes them -/

/-- The queries for which a completion signal (`executeFinished` or `prepareFinished`) was
emitted, in the order of the signals. -/
def completions (signals : List Signal) : List Nat :=
  signals.filterMap fun s =>
    match s with
    | .executeFinished query => some query
    | .prepareFinished query => some query
    | _ => none

/-- The Connection right after the head `query` of its queue is completed, `tasks` being the
rest of the queue: the head is off the queue and its completion signal is emitted, which is
`prepareFinished` together with the prepare-complete flag for a prepared query without bound
values, and `executeFinished` otherwise. -/
def completeHead (c : Connection) (query : Nat) (tasks : List Nat) : Connection :=
  if (c.queries query)._prepare = true ∧ (c.queries query)._bindValues = [] then
    { c with
      _tasks := tasks
      queries := Function.update c.queries query { c.queries query with _prepareFinished := true }
      emitted := c.emitted ++ [.prepareFinished query] }
  else { c with _tasks := tasks, emitted := c.emitted ++ [.executeFinished query] }

/-- One thing that happens to a Connection: a query is submitted, a ReadyForQuery frame is
handled, or anything else (another handler, a call by the owner of a query). -/
inductive Step where
  | addQuery (query : Nat)
  | readyForQuery (data : List Nat)
  | other (f : Connection → Connection)

def Step.apply (c : Connection) : Step → Connection
  | .addQuery query => TinyPG.addQuery c query
  | .readyForQuery data => TinyPG.readyForQuery c data
  | .other f => f c

/-- The Connection after the given steps, in order. -/
def run (c : Connection) (steps : List Step) : Connection :=
  steps.foldl Step.apply c

/-- The queries submitted by the steps, in order. -/
def submitted (steps : List Step) : List Nat :=
  steps.filterMap fun s =>
    match s with
    | .addQuery query => some query
    | _ => none

/-- The number of ReadyForQuery frames with status `I` or `T` among the steps. -/
def readyCount (steps : List Step) : Nat :=
  (steps.filter fun s =>
    match s with
    | .readyForQuery data => decide (data.getD 0 0 = Idle ∨ data.getD 0 0 = Transaction)
    | _ => false).length

/-- A step that is neither a submission nor a ReadyForQuery frame leaves the queue alone and
fires no completion signal. -/
def Step.keepsQueue : Step → Prop
  | .other f => ∀ c, (f c)._tasks = c._tasks ∧ completions (f c).emitted = completions c.emitted
  | _ => True

/-- One field of an ErrorResponse or NoticeResponse payload: the type byte, the value and the
NUL that ends it. -/
def encodeField (field : Nat × List Nat) : List Nat :=
  field.1 :: (field.2 ++ [0])

/-- The payload of an ErrorResponse or NoticeResponse frame: the fields and the zero byte that
ends the list. -/
def encodeFields (fields : List (Nat × List Nat)) : List Nat :=
  fields.flatMap encodeField ++ [0]

/-- The event of a frame that went through the dispatch table, with its payload. -/
def Frame.event (f : Frame) : Event :=
  .frame f.tag f.payload f.payload.length

/-- A frame on which `analyzePacket` raises an error and closes: its tag has no handler, it is
a NegotiateProtocolVersion, or it is an authentication request of a type that `authentication`
turns down. -/
def Frame.fatal (f : Frame) : Bool :=
  match proto f.tag with
  | ._NegotiateProtocolVersion => true
  | ._default => true
  | ._AuthenticationRequest => !authenticationAccepts f.payload
  | _ => false

/-- A Connection after a successful handshake: socket connected, authenticated, nothing queued. -/
def Connection.ready : Connection :=
  { Connection.fresh with connected := true, _auth_success := true }

/-- The payload has a field of the given type, and `value` is what every field of that type in
it holds. -/
def fieldIs (fields : List (Nat × List Nat)) (type : Nat) (value : List Nat) : Prop :=
  (∃ f ∈ fields, f.1 = type) ∧ ∀ f ∈ fields, f.1 = type → f.2 = value

/-- The number of value bytes of a parameter, as the specification lists it for the kinds of the
catalogue: fixed for every kind except BYTEA and TEXT, which take the byte length of the data. -/
def parameterSize (oid : Nat) (value : QVariant) : Nat :=
  if oid ∈ BOOL then 1
  else if oid ∈ INT2 then 2
  else if oid ∈ INT4 ∨ oid ∈ FLOAT4 ∨ oid ∈ DATE then 4
  else if oid ∈ INT8 ∨ oid ∈ FLOAT8 ∨ oid ∈ TIME ∨ oid ∈ TIMESTAMP then 8
  else if oid ∈ TIMETZ then 12
  else if oid ∈ UUID then 16
  else if oid ∈ BYTEA ∨ oid ∈ TEXT then value.toByteArray.length
  else 0

/-- The sum of the value sizes of the parameters of a statement. -/
def parameterSizes (params : List Nat) (values : List QVariant) : Nat :=
  ((params.zip values).map fun p => parameterSize p.1 p.2).sum

/-! ## The handshake and the frame handlers (`TinyPG.cpp`, lines 623-671 and 686-779)

The pointer `data` that a handler receives is the suffix of the inbound buffer that starts at
the payload.  A string read (`QLatin1String(data)`) stops at the first NUL, at the latest at the
NUL that follows every `QByteArray`; a read of a fixed number of bytes that runs past the last
byte of the buffer, and a call of `_tasks.head()` on an empty queue, have no defined result and
are `none`. -/

def PasswordMessage : Nat := 0x70

/-- One digit of `QByteArray::toHex`. -/
def hexDigit (d : Nat) : Nat :=
  if d < 10 then 0x30 + d else 0x61 + (d - 10)

/-- What `QByteArray::toHex` returns: two lowercase hexadecimal digits for every byte. -/
def toHex (bytes : List Nat) : List Nat :=
  bytes.flatMap fun b => [hexDigit (b / 16 % 16), hexDigit (b % 16)]

/-- The function `Connection::makeStarupMessage`. -/
def makeStarupMessage (c : Connection) : Connection :=
  let ProtocolVersion := toBigEndian 2 0x03 ++ [0, 0]
  let user := [0x75, 0x73, 0x65, 0x72, 0]
  let database := [0x64, 0x61, 0x74, 0x61, 0x62, 0x61, 0x73, 0x65, 0]
  let sz := 4 + ProtocolVersion.length + user.length + 2
  let size := (sz + c._user.length) % 2 ^ 32
  let size :=
    if 0 < c._database.length then ((size + (database.length + c._database.length)) % 2 ^ 32 + 1)
      % 2 ^ 32
    else size
  let buf := c._bufferOut ++ toBigEndian 4 size ++ ProtocolVersion ++ user ++ c._user ++ [0]
  let buf := if 0 < c._database.length then buf ++ database ++ c._database ++ [0] else buf
  let buf := buf ++ [0]
  { c with _bufferOut := [], written := c.written ++ [buf] }

/-- The function `Connection::authentication`, with `md5` standing for
`QCryptographicHash::hash(..., QCryptographicHash::Md5)`: the return value and the new state. -/
def authentication (md5 : List Nat → List Nat) (c : Connection) (data : List Nat) :
    Option (Bool × Connection) :=
  match readBytes data 4 with
  | none => none
  | some b =>
    let type := fromBigEndian b
    if type = MD5password then
      match readBytes (data.drop 4) 4 with
      | none => none
      | some salt =>
        let hash := [0x6d, 0x64, 0x35]
          ++ toHex (md5 (toHex (md5 (c._password ++ c._user)) ++ salt))
        let size := ((4 + hash.length) % 2 ^ 32 + 1) % 2 ^ 32
        let buf := c._bufferOut ++ [PasswordMessage] ++ toBigEndian 4 size ++ hash ++ [0]
        some (true, { c with _bufferOut := [], written := c.written ++ [buf] })
    else if type = AuthenticationSucces then
      some (true, { c with _auth_success := true, emitted := c.emitted ++ [.connected] })
    else some (false, c)

/-- The function `Connection::parameterStatus`.  The `QMap` is kept as a list of pairs with one pair for
every key, in the order of first arrival rather than in key order. -/
def parameterStatus (c : Connection) (data : List Nat) : Option Connection :=
  let key := cString data
  if data.length ≤ key.length then none
  else
    let value := cString (data.drop (1 + key.length))
    some { c with
      _parametersStatus :=
        if (c._parametersStatus.map Prod.fst).contains (fromLatin1 key) then
          c._parametersStatus.map fun p =>
            if p.1 = fromLatin1 key then (p.1, fromLatin1 value) else p
        else c._parametersStatus ++ [(fromLatin1 key, fromLatin1 value)] }

/-- The function `Connection::backendKeyData`. -/
def backendKeyData (c : Connection) (data : List Nat) : Option Connection :=
  (readBytes data 8).map fun b =>
    { c with _pid := fromBigEndian (b.take 4), _key := fromBigEndian (b.drop 4) }

/-- The loop of `Connection::rowDescription` with `n` field entries still to read, `pos` the
offset of the next one and `fields` the field list of the query so far. -/
def rowDescriptionLoop : Nat → List Nat → Nat → List Field → Option (List Field)
  | 0, _, _, fields => some fields
  | n + 1, data, pos, fields =>
    if data.length < pos then none
    else
      let name := cString (data.drop pos)
      let pos := ((pos + name.length) % 2 ^ 32 + 1) % 2 ^ 32
      match readBytes (data.drop pos) 18 with
      | none => none
      | some b =>
        let field : Field :=
          { _name := fromLatin1 name
            _tableOID := fromBigEndian (b.take 4)
            _columnIndex := fromBigEndian ((b.drop 4).take 2)
            _typeOID := fromBigEndian ((b.drop 6).take 4)
            _typeSize := toSigned 16 (fromBigEndian ((b.drop 10).take 2))
            _typeModifier := toSigned 32 (fromBigEndian ((b.drop 12).take 4))
            _formatType := fromBigEndian ((b.drop 16).take 2) }
        rowDescriptionLoop n data ((pos + 18) % 2 ^ 32) (fields ++ [field])

/-- The function `Connection::rowDescription`. -/
def rowDescription (c : Connection) (data : List Nat) : Option Connection :=
  match c._tasks with
  | [] => none
  | query :: _ =>
    match readBytes data 2 with
    | none => none
    | some b =>
      (rowDescriptionLoop (fromBigEndian b) data 2 (c.queries query)._fields).map fun fields =>
        { c with
          queries := Function.update c.queries query { c.queries query with _fields := fields } }

/-- The OIDs that `Connection::preparedParametrs` reads: `n` of them, four bytes each. -/
def parameterOids : Nat → List Nat → Option (List Nat)
  | 0, _ => some []
  | n + 1, data =>
    match readBytes data 4 with
    | none => none
    | some b => (parameterOids n (data.drop 4)).map fun oids => fromBigEndian b :: oids

/-- The function `Connection::preparedParametrs`; `_tasks.head()` is called once for every OID, so not at
all when the count is zero. -/
def preparedParametrs (c : Connection) (data : List Nat) (_size : Nat) : Option Connection :=
  match readBytes data 2 with
  | none => none
  | some b =>
    if fromBigEndian b = 0 then some c
    else
      match c._tasks with
      | [] => none
      | query :: _ =>
        (parameterOids (fromBigEndian b) (data.drop 2)).map fun oids =>
          { c with
            queries := Function.update c.queries query
              { c.queries query with
                _preparedParametrs := (c.queries query)._preparedParametrs ++ oids } }

/-- The function `Connection::dataRow` with `Query::addDataRow`: the row stored is a copy of
`size - sizeof(quint16)` bytes, in 32-bit arithmetic, that follow the column count. -/
def dataRow (c : Connection) (data : List Nat) (size : Nat) : Option Connection :=
  match c._tasks with
  | [] => none
  | query :: _ =>
    (readBytes (data.drop 2) ((size + 2 ^ 32 - 2) % 2 ^ 32)).map fun row =>
      { c with
        queries := Function.update c.queries query
          { c.queries query with _dataRows := (c.queries query)._dataRows ++ [row] } }

/-- What `analyzePacket` does to the Connection at one event: the handler that the jump target
of the tag calls, `emit error(e)`, or `close()`. -/
def dispatch (md5 : List Nat → List Nat) (fuel : Nat) (c : Connection) : Event → Option Connection
  | .frame tag data size =>
    match proto tag with
    | ._DataRow => dataRow c data size
    | ._ParameterDescription => preparedParametrs c data size
    | ._RowDescription => rowDescription c data
    | ._ReadyForQuery => some (readyForQuery c data)
    | ._ErrorResponse => errorOrNoticeResponse fuel c data size .Error
    | ._NoticeResponse => errorOrNoticeResponse fuel c data size .Notice
    | ._ParameterStatus => parameterStatus c data
    | ._AuthenticationRequest => (authentication md5 c data).map Prod.snd
    | ._BackendKeyData => backendKeyData c data
    | _ => some c
  | .error e => some { c with emitted := c.emitted ++ [.error e] }
  | .close => some (close c)

/-- The events of one call of `analyzePacket`, applied in order. -/
def dispatchAll (md5 : List Nat → List Nat) (fuel : Nat) :
    Connection → List Event → Option Connection
  | c, [] => some c
  | c, e :: es =>
    match dispatch md5 fuel c e with
    | none => none
    | some c => dispatchAll md5 fuel c es

/-- The slot `Connection::analyzePacket` on the whole state, with `input` the bytes that
`_socket.readAll()` returns: `_bufferIn` is cleared, the handlers run in the order of the
frames, and the leftover is stored.  `fuel` bounds the frame loop and the loop of
`errorOrNoticeResponse`. -/
def Connection.analyzePacket (md5 : List Nat → List Nat) (fuel : Nat) (c : Connection)
    (input : List Nat) : Option Connection :=
  match TinyPG.analyzePacket fuel c._bufferIn input with
  | none => none
  | some (events, bufferIn) =>
    (dispatchAll md5 fuel { c with _bufferIn := [] } events).map fun c =>
      { c with _bufferIn := bufferIn }

/-! ### Handshake messages and sessions, as the specification describes them -/

/-- The startup message of the specification: the self-inclusive length, the protocol version
3.0, `user` NUL name NUL, `database` NUL name NUL when a database name is given, and a final
NUL. -/
def startupMessage (userName databaseName : List Nat) : List Nat :=
  let body := [0, 3, 0, 0] ++ [0x75, 0x73, 0x65, 0x72, 0] ++ userName ++ [0]
    ++ (if databaseName = [] then []
        else [0x64, 0x61, 0x74, 0x61, 0x62, 0x61, 0x73, 0x65, 0] ++ databaseName ++ [0])
    ++ [0]
  toBigEndian 4 (4 + body.length) ++ body

/-- The password message of the specification: tag `p`, the length, `md5`, the hexadecimal
digits of `md5(hex(md5(password ++ user)) ++ salt)`, and a final NUL. -/
def passwordMessage (md5 : List Nat → List Nat) (userName password salt : List Nat) : List Nat :=
  let body := [0x6d, 0x64, 0x35] ++ toHex (md5 (toHex (md5 (password ++ userName)) ++ salt))
    ++ [0]
  [0x70] ++ toBigEndian 4 (4 + body.length) ++ body

/-- A lowercase hexadecimal digit: `0` to `9` or `a` to `f`. -/
def isLowerHex (d : Nat) : Prop :=
  (0x30 ≤ d ∧ d ≤ 0x39) ∨ (0x61 ≤ d ∧ d ≤ 0x66)

/-- What the frames and `close` calls seen so far say about the session: whether an
AuthenticationOk frame came, whether a ParameterStatus frame came, and the process id and
secret key of the last BackendKeyData frame that no `close` has followed (zero otherwise). -/
structure Session where
  authenticated : Bool
  parameters : Bool
  identity : Nat × Nat
  deriving DecidableEq

def Session.step (s : Session) : Event → Session
  | .frame tag data _ =>
    match proto tag with
    | ._AuthenticationRequest =>
      if fromBigEndian (data.take 4) = AuthenticationSucces then { s with authenticated := true }
      else s
    | ._ParameterStatus => { s with parameters := true }
    | ._BackendKeyData =>
      { s with identity := (fromBigEndian (data.take 4), fromBigEndian ((data.drop 4).take 4)) }
    | _ => s
  | .error _ => s
  | .close => { s with identity := (0, 0) }

/-- The session after the given events, none of the three having happened at the start. -/
def sessionOf (events : List Event) : Session :=
  events.foldl Session.step ⟨false, false, (0, 0)⟩

/-- The state of the Connection agrees with the session: the authenticated flag is set only
if an AuthenticationOk frame came, the session-parameter map holds an entry exactly if a
ParameterStatus frame came, and the backend identity is the one of the session. -/
def Connection.agrees (c : Connection) (s : Session) : Prop :=
  (c._auth_success = true → s.authenticated = true) ∧
    (c._parametersStatus ≠ [] ↔ s.parameters = true) ∧ (c._pid, c._key) = s.identity

/-- The two states have the same authenticated flag, session parameters and backend
identity. -/
def Connection.sameSession (c d : Connection) : Prop :=
  d._auth_success = c._auth_success ∧ d._parametersStatus = c._parametersStatus ∧
    d._pid = c._pid ∧ d._key = c._key

/-- Something that happens to a Connection from outside: the socket delivers bytes, or `close`
is called. -/
inductive Act where
  | read (input : List Nat)
  | close

/-- One act on a Connection, with the events dispatched so far: the new state and the events,
`Event.close` standing for a call of `close`.  It is `none` where the source has no defined
result or does not return. -/
def Connection.act (md5 : List Nat → List Nat) (fuel : Nat) (s : Connection × List Event) :
    Act → Option (Connection × List Event)
  | .read input =>
    match TinyPG.analyzePacket fuel s.1._bufferIn input with
    | none => none
    | some (events, bufferIn) =>
      (dispatchAll md5 fuel { s.1 with _bufferIn := [] } events).map fun c =>
        ({ c with _bufferIn := bufferIn }, s.2 ++ events)
  | .close => some (TinyPG.close s.1, s.2 ++ [Event.close])

/-- The acts in order. -/
def Connection.acts (md5 : List Nat → List Nat) (fuel : Nat) :
    Connection × List Event → List Act → Option (Connection × List Event)
  | s, [] => some s
  | s, a :: as =>
    match Connection.act md5 fuel s a with
    | none => none
    | some s => Connection.acts md5 fuel s as

/-! ## Bound values, stored rows and `isConnect` (`TinyPG.cpp`, lines 195-198 and 964-983) -/

/-- The function `Connection::isConnect`. -/
def isConnect (c : Connection) : Bool :=
  c._auth_success

/-- The function `Query::rowCount`. -/
def Query.rowCount (query : Query) : Nat :=
  query._dataRows.length

/-- The function `Query::columnCount`. -/
def Query.columnCount (query : Query) : Nat :=
  query._fields.length

/-- The parameter type `std::variant<qint16, qint32, QVariant>` of `Query::bindValue`. -/
inductive StdVariant where
  | qint16 (v : Int)
  | qint32 (v : Int)
  | variant (v : QVariant)
  deriving DecidableEq

/-- What `QVariant::fromStdVariant` returns: a QVariant of the alternative that the argument
holds, and the QVariant itself when that is what it holds. -/
def QVariant.fromStdVariant : StdVariant → QVariant
  | .qint16 v => .short v
  | .qint32 v => .int v
  | .variant v => v

/-- The function `QVector::insert(i, value)`: the value is put in front of the element at
index `i`, at the end when `i` is the size.  An index outside `0 .. size` is outside the
domain of the function (it asserts `i >= 0 && i <= size`), which gives `none`. -/
def QVector.insert {α : Type} (vector : List α) (i : Int) (value : α) : Option (List α) :=
  if 0 ≤ i ∧ i ≤ vector.length then some (vector.insertIdx i.toNat value) else none

/-- The function `Query::bindValue` of an object whose member `_db` is the given pointer, `none`
for the null pointer.  The result is `none` where `QVector::insert` has none. -/
def Query.bindValue (_db : Option Connection) (query : Query) (index : Int)
    (value : StdVariant) : Option Query :=
  if _db.isNone || !query._prepareFinished then some query
  else
    (QVector.insert query._bindValues index (QVariant.fromStdVariant value)).map fun values =>
      { query with _bindValues := values }

/-- Calls of `bindValue` on one object, one after the other, each with its index and value. -/
def Query.bindAll (_db : Option Connection) :
    Query → List (Int × StdVariant) → Option Query
  | query, [] => some query
  | query, call :: calls =>
    match Query.bindValue _db query call.1 call.2 with
    | none => none
    | some query => Query.bindAll _db query calls

/-! ### Runs of a prepared query, as the specification describes them -/

/-- The values paired with the indices `first`, `first + 1`, ... in ascending order. -/
def ascending (first : Nat) (values : List StdVariant) : List (Int × StdVariant) :=
  (values.enumFrom first).map fun p => ((p.1 : Int), p.2)

/-- A frame between the Bind request of a run and its ReadyForQuery: a DataRow frame whose
payload of `size` bytes, two at least, lies in the buffer, or a frame that the dispatch table
takes to `_next` or to `_CommandCompletion` (BindComplete, CommandComplete, NoData, ...). -/
def Event.inRun : Event → Prop
  | .frame tag data size =>
    (proto tag = ._DataRow ∧ 2 ≤ size ∧ size < 2 ^ 32 ∧ size ≤ data.length) ∨
      proto tag = ._next ∨ proto tag = ._CommandCompletion
  | _ => False

/-- The rows that the DataRow frames among the events carry: the payload without the two bytes
of the column count. -/
def sentRows (events : List Event) : List (List Nat) :=
  events.filterMap fun e =>
    match e with
    | .frame tag data size =>
      if proto tag = ._DataRow then some ((data.drop 2).take (size - 2)) else none
    | _ => none

/-- The second query holds at least what the first holds: fields, parameter OIDs and rows of
the first come first in the second, and the bound values are the same. -/
def Query.keeps (q r : Query) : Prop :=
  q._fields <+: r._fields ∧ q._preparedParametrs <+: r._preparedParametrs ∧
    r._bindValues = q._bindValues ∧ q._dataRows <+: r._dataRows

/-! ## Dialling (`TinyPG.cpp`, lines 199-208) -/

/-- The function `Connection::connection`, up to its call of `connectToHost`, to which alone
the address and the port go.  Once the socket has connected, which sets `connected`, its
signal runs `makeStarupMessage`. -/
def connection (c : Connection) (user password database : String) : Connection :=
  let c := close c
  { c with _user := toUtf8 user, _password := toUtf8 password, _database := toUtf8 database }

/-! ### Payloads that hold what their handler reads, and reads on the whole Connection -/

/-- The value of the last field of the given type in an ErrorResponse or NoticeResponse
payload, empty when there is none. -/
def lastField (fields : List (Nat × List Nat)) (type : Nat) : List Nat :=
  fields.foldl (fun acc f => if f.1 = type then f.2 else acc) []

/-- The bytes hold `n` field descriptors of a RowDescription payload one after the other: a name
that ends with a NUL, followed by 18 bytes. -/
def descriptorsFit : Nat → List Nat → Prop
  | 0, _ => True
  | n + 1, bytes =>
    (cString bytes).length + 19 ≤ bytes.length ∧
      descriptorsFit n (bytes.drop ((cString bytes).length + 19))

/-- The payload of the frame holds everything that the handler of its tag reads: a DataRow its
column count; a ParameterDescription its count and as many OIDs; a RowDescription its count
and as many descriptors; a ReadyForQuery its status byte; an ErrorResponse or NoticeResponse
its fields (type byte, value without NUL, NUL) and the closing zero byte, with a value that is
not empty for each of `V`, `C` and `M`; a ParameterStatus its two strings with their NULs; an
AuthenticationMD5Password its salt; a BackendKeyData its two numbers. -/
def Frame.selfContained (f : Frame) : Prop :=
  match proto f.tag with
  | ._DataRow => 2 ≤ f.payload.length
  | ._ParameterDescription => 2 + 4 * fromBigEndian (f.payload.take 2) ≤ f.payload.length
  | ._RowDescription =>
    2 ≤ f.payload.length ∧
      descriptorsFit (fromBigEndian (f.payload.take 2)) (f.payload.drop 2)
  | ._ReadyForQuery => 1 ≤ f.payload.length
  | ._ErrorResponse | ._NoticeResponse =>
    ∃ fields : List (Nat × List Nat), f.payload = encodeFields fields ∧
      (∀ x ∈ fields, 0 ∉ x.2) ∧ lastField fields ErrorOrNoticeType ≠ [] ∧
      lastField fields ErrorOrNoticeCode ≠ [] ∧ lastField fields ErrorOrNoticeMessage ≠ []
  | ._ParameterStatus =>
    (cString f.payload).length < f.payload.length ∧
      (cString f.payload).length + 1
          + (cString (f.payload.drop ((cString f.payload).length + 1))).length
        < f.payload.length
  | ._AuthenticationRequest =>
    fromBigEndian (f.payload.take 4) = MD5password → 8 ≤ f.payload.length
  | ._BackendKeyData => 8 ≤ f.payload.length
  | _ => True

/-- The socket delivering `reads` one after the other to the slot `analyzePacket` of the
Connection, each read through one `readyRead` signal; once `close()` has run the socket is
closed and no further read is delivered.  It is `none` where `analyzePacket` or a handler has
no result. -/
def Connection.analyzePackets (md5 : List Nat → List Nat) (fuel : Nat) :
    Connection → List (List Nat) → Option Connection
  | c, [] => some c
  | c, input :: reads =>
    match TinyPG.analyzePacket fuel c._bufferIn input with
    | none => none
    | some (events, bufferIn) =>
      match dispatchAll md5 fuel { c with _bufferIn := [] } events with
      | none => none
      | some d =>
        if Event.close ∈ events then some { d with _bufferIn := bufferIn }
        else Connection.analyzePackets md5 fuel { d with _bufferIn := bufferIn } reads

/-! # Theorems -/

/-! ## Bytes and the single-parameter, single-column setting -/

theorem foldl_toBigEndian (w x acc : Nat) :
    (toBigEndian w x).foldl (fun a b => a * 256 + b) acc = acc * 256 ^ w + x % 256 ^ w := by
  induction w generalizing acc with
  | zero => simp [toBigEndian, Nat.mod_one]
  | succ w ih =>
    simp only [toBigEndian, List.foldl_cons, ih]
    rw [Nat.mod_pow_succ (b := 256) (k := w)]
    ring

theorem fromBigEndian_toBigEndian (w x : Nat) :
    fromBigEndian (toBigEndian w x) = x % 256 ^ w := by
  simp [fromBigEndian, foldl_toBigEndian]

theorem length_toBigEndian (w x : Nat) : (toBigEndian w x).length = w := by
  induction w with
  | zero => rfl
  | succ w ih => simp [toBigEndian, ih]

theorem readBytes_self (data : List Nat) : readBytes data data.length = some data := by
  simp [readBytes]

theorem readBytes_append (a b : List Nat) : readBytes (a ++ b) a.length = some a := by
  simp [readBytes]

/-- The frame `runBindQuery` writes for a query with one parameter whose label body produces
`bytes`. -/
theorem runBindQuery_single (query : Query) (oid : Nat) (value : QVariant) (bytes : List Nat)
    (n : Nat) (hp : query._preparedParametrs = [oid]) (hv : query._bindValues = [value])
    (hoid : oid ≤ TypeMax)
    (hstep : bindStep (GotoPointers Label._default typeLabels oid) oid value = some (bytes, n)) :
    ∃ head, head.take 1 = [Bind] ∧
      head.drop 5 = 0 :: (query._stmtName ++ [0, 0, 1, 0, 1, 0, 1]) ∧
      runBindQuery [] query
        = ⟨head ++ bytes ++ bin_format ++ ES_msgs, [], [head ++ bytes ++ bin_format ++ ES_msgs]⟩ := by
  refine ⟨Bind :: (toBigEndian 4 ((((14 + query._stmtName.length) % 2 ^ 32 + 6) % 2 ^ 32 + n) % 2 ^ 32)
            ++ 0 :: (query._stmtName ++ [0, 0, 1, 0, 1, 0, 1])), ?_, ?_, ?_⟩
  · simp
  · simp [toBigEndian]
  · have h : ¬ TypeMax < oid := by omega
    simp [runBindQuery, hp, hv, bindLoop, h, hstep, toBigEndian]

/-- What `Query::value` does on a one-column row that starts with a non-NULL length field. -/
theorem value_single (sysOffset : Int → Int) (result : Query) (field : Field) (row k : Nat)
    (payload : List Nat) (hf : result._fields = [field])
    (hrow : result._dataRows[row]? = some (toBigEndian 4 k ++ payload)) (hk : k < 0xFFFFFFFF) :
    Query.value sysOffset result row 0 =
      if TypeMax < field._typeOID then decodeColumn sysOffset ._BYTEA payload k
      else decodeColumn sysOffset (GotoPointers Label._BYTEA typeLabels field._typeOID) payload k := by
  have h4 : readBytes (toBigEndian 4 k ++ payload) 4 = some (toBigEndian 4 k) := by
    have := readBytes_append (toBigEndian 4 k) payload
    rwa [length_toBigEndian] at this
  have hd : (toBigEndian 4 k ++ payload).drop 4 = payload := by
    have := List.drop_left (toBigEndian 4 k) payload
    rwa [length_toBigEndian] at this
  have hk' : k % 256 ^ 4 = k := Nat.mod_eq_of_lt (by norm_num; omega)
  have hne : k ≠ 4294967295 := by omega
  simp only [Query.value, hrow, hf, List.length_singleton, Query.valueLoop, h4, hd,
    fromBigEndian_toBigEndian, hk']
  simp [hne]

theorem toSigned_toUnsigned_16 (i : Int) (h1 : -2 ^ 15 ≤ i) (h2 : i < 2 ^ 15) :
    toSigned 16 (toUnsigned 16 i % 256 ^ 2) = i := by
  unfold toSigned toUnsigned
  norm_num at *
  split <;> omega

theorem toSigned_toUnsigned_32 (i : Int) (h1 : -2 ^ 31 ≤ i) (h2 : i < 2 ^ 31) :
    toSigned 32 (toUnsigned 32 i % 256 ^ 4) = i := by
  unfold toSigned toUnsigned
  norm_num at *
  split <;> omega

theorem toSigned_toUnsigned_64 (i : Int) (h1 : -2 ^ 63 ≤ i) (h2 : i < 2 ^ 63) :
    toSigned 64 (toUnsigned 64 i % 256 ^ 8) = i := by
  unfold toSigned toUnsigned
  norm_num at *
  split <;> omega

/-- A round trip follows from the label body of `runBindQuery` and the label body of
`Query::value` for the same OID. -/
theorem roundTrip_intro (sysOffset : Int → Int) (oid : Nat) (value : QVariant)
    (wire : List Nat → Prop) (decoded : QVariant → Prop) (k n : Nat) (payload : List Nat)
    (hoid : oid ≤ TypeMax)
    (hstep : bindStep (GotoPointers Label._default typeLabels oid) oid value
      = some (toBigEndian 4 k ++ payload, n))
    (hk : k < 0xFFFFFFFF) (hwire : wire (toBigEndian 4 k ++ payload))
    (hdec : ∃ v, decodeColumn sysOffset (GotoPointers Label._BYTEA typeLabels oid) payload k
      = some v ∧ decoded v) :
    RoundTrip sysOffset oid value wire decoded := by
  intro query hp hv
  obtain ⟨head, h1, h2, h3⟩ := runBindQuery_single query oid value _ n hp hv hoid hstep
  refine ⟨head, _, h1, h2, h3, ?_, hwire, ?_⟩
  · intro params values i bufferOut size hget
    exact ⟨n, by simp only [bindLoop, hget, if_neg (Nat.not_lt.mpr hoid), hstep]⟩
  intro result field row hf hty hrow
  rw [value_single sysOffset result field row k payload hf hrow hk, hty,
    if_neg (by omega)]
  exact hdec

theorem readBytes_toBigEndian (w x : Nat) :
    readBytes (toBigEndian w x) w = some (toBigEndian w x) := by
  have := readBytes_self (toBigEndian w x)
  rwa [length_toBigEndian] at this

theorem int4_labels (oid : Nat) (h : oid ∈ INT4) :
    oid ≤ TypeMax ∧ GotoPointers Label._default typeLabels oid = ._INT4 ∧
      GotoPointers Label._BYTEA typeLabels oid = ._INT4 ∧ sizeBytes oid = toBigEndian 4 4 := by
  simp only [INT4, List.mem_cons, List.mem_singleton, List.not_mem_nil, or_false] at h
  rcases h with rfl | rfl | rfl | rfl | rfl <;> decide

theorem timestamp_labels (oid : Nat) (h : oid ∈ TIMESTAMP) :
    oid ≤ TypeMax ∧ GotoPointers Label._default typeLabels oid = ._TIMESTAMP ∧
      GotoPointers Label._BYTEA typeLabels oid = ._TIMESTAMP ∧ sizeBytes oid = toBigEndian 4 8 := by
  simp only [TIMESTAMP, List.mem_cons, List.mem_singleton, List.not_mem_nil, or_false] at h
  rcases h with rfl | rfl <;> decide

/-- C2. Codec round trip of the integer-like kinds: for BOOL (OID 16), INT2 (21), INT4 (23, 2278,
24, 28, 29), INT8 (20) and DATE (1082) and every value of the kind's range, `runBindQuery` emits
the four-byte length followed by the big-endian value, and `Query::value` decodes these bytes
back to the value. -/
theorem codec_round_trip_integer_kinds (sysOffset : Int → Int) :
    (∀ b : Bool, RoundTrip sysOffset _BOOLOID (.bool b)
        (fun bytes => bytes = toBigEndian 4 1 ++ [if b then 1 else 0]) (fun v => v = .bool b)) ∧
    (∀ v : Int, -2 ^ 15 ≤ v → v < 2 ^ 15 → RoundTrip sysOffset _INT2OID (.short v)
        (fun bytes => bytes = toBigEndian 4 2 ++ toBigEndian 2 (toUnsigned 16 v))
        (fun d => d = .short v)) ∧
    (∀ oid ∈ INT4, ∀ v : Int, -2 ^ 31 ≤ v → v < 2 ^ 31 → RoundTrip sysOffset oid (.int v)
        (fun bytes => bytes = toBigEndian 4 4 ++ toBigEndian 4 (toUnsigned 32 v))
        (fun d => d = .int v)) ∧
    (∀ v : Int, -2 ^ 63 ≤ v → v < 2 ^ 63 → RoundTrip sysOffset _INT8OID (.longLong v)
        (fun bytes => bytes = toBigEndian 4 8 ++ toBigEndian 8 (toUnsigned 64 v))
        (fun d => d = .longLong v)) ∧
    (∀ jd : Int, -2 ^ 31 ≤ jd - jd2000 → jd - jd2000 < 2 ^ 31 →
      RoundTrip sysOffset _DATEOID (.date jd)
        (fun bytes => bytes = toBigEndian 4 4 ++ toBigEndian 4 (toUnsigned 32 (jd - jd2000)))
        (fun d => d = .date jd)) := by
  refine ⟨?_, ?_, ?_, ?_, ?_⟩
  · intro b
    refine roundTrip_intro sysOffset _ _ _ _ 1 1 [if b then 1 else 0] (by decide) ?_ (by decide)
      rfl ?_
    · have h : GotoPointers Label._default typeLabels _BOOLOID = ._BOOL := by decide
      have hs : sizeBytes _BOOLOID = toBigEndian 4 1 := by decide
      simp [h, bindStep, hs, QVariant.toBool]
    · have h : GotoPointers Label._BYTEA typeLabels _BOOLOID = ._BOOL := by decide
      cases b <;> simp [h, decodeColumn, readBytes]
  · intro v h1 h2
    refine roundTrip_intro sysOffset _ _ _ _ 2 2 (toBigEndian 2 (toUnsigned 16 v)) (by decide) ?_
      (by decide) rfl ?_
    · have h : GotoPointers Label._default typeLabels _INT2OID = ._INT2 := by decide
      have hs : sizeBytes _INT2OID = toBigEndian 4 2 := by decide
      simp [h, bindStep, hs, QVariant.toInt]
    · have h : GotoPointers Label._BYTEA typeLabels _INT2OID = ._INT2 := by decide
      simp only [h, decodeColumn, readBytes_toBigEndian, Option.map_some',
        fromBigEndian_toBigEndian, toSigned_toUnsigned_16 v h1 h2]
      exact ⟨_, rfl, rfl⟩
  · intro oid hoid v h1 h2
    obtain ⟨hmax, hb, hd, hs⟩ := int4_labels oid hoid
    refine roundTrip_intro sysOffset _ _ _ _ 4 4 (toBigEndian 4 (toUnsigned 32 v)) hmax ?_
      (by decide) rfl ?_
    · simp [hb, bindStep, hs, QVariant.toInt]
    · simp only [hd, decodeColumn, readBytes_toBigEndian, Option.map_some',
        fromBigEndian_toBigEndian, toSigned_toUnsigned_32 v h1 h2]
      exact ⟨_, rfl, rfl⟩
  · intro v h1 h2
    refine roundTrip_intro sysOffset _ _ _ _ 8 8 (toBigEndian 8 (toUnsigned 64 v)) (by decide) ?_
      (by decide) rfl ?_
    · have h : GotoPointers Label._default typeLabels _INT8OID = ._INT8 := by decide
      have hs : sizeBytes _INT8OID = toBigEndian 4 8 := by decide
      simp [h, bindStep, hs, QVariant.toLongLong]
    · have h : GotoPointers Label._BYTEA typeLabels _INT8OID = ._INT8 := by decide
      simp only [h, decodeColumn, readBytes_toBigEndian, Option.map_some',
        fromBigEndian_toBigEndian, toSigned_toUnsigned_64 v h1 h2]
      exact ⟨_, rfl, rfl⟩
  · intro jd h1 h2
    refine roundTrip_intro sysOffset _ _ _ _ 4 4 (toBigEndian 4 (toUnsigned 32 (jd - jd2000)))
      (by decide) ?_ (by decide) rfl ?_
    · have h : GotoPointers Label._default typeLabels _DATEOID = ._DATE := by decide
      have hs : sizeBytes _DATEOID = toBigEndian 4 4 := by decide
      simp [h, bindStep, hs, QVariant.toDate, daysTo2000]
    · have h : GotoPointers Label._BYTEA typeLabels _DATEOID = ._DATE := by decide
      simp only [h, decodeColumn, readBytes_toBigEndian, Option.map_some',
        fromBigEndian_toBigEndian, toSigned_toUnsigned_32 _ h1 h2]
      exact ⟨_, rfl, by simp⟩

theorem wrapSigned_32 (i : Int) (h1 : -2 ^ 31 ≤ i) (h2 : i < 2 ^ 31) : wrapSigned 32 i = i := by
  unfold wrapSigned toSigned toUnsigned
  norm_num at *
  split <;> omega

theorem toMSecsSinceEpoch_fromMSecsSinceEpoch (sysOffset : Int → Int) (msecs : Int) :
    (QDateTime.fromMSecsSinceEpoch sysOffset msecs).toMSecsSinceEpoch = msecs := by
  simp only [QDateTime.fromMSecsSinceEpoch, QDateTime.toMSecsSinceEpoch]
  have := Int.ediv_add_emod (msecs + sysOffset msecs * 1000) msecsPerDay
  linarith

theorem readBytes_toBigEndian_append (w x : Nat) (rest : List Nat) :
    readBytes (toBigEndian w x ++ rest) (w + rest.length) = some (toBigEndian w x ++ rest) := by
  have := readBytes_self (toBigEndian w x ++ rest)
  rwa [List.length_append, length_toBigEndian] at this

theorem take_toBigEndian_append (w x : Nat) (rest : List Nat) :
    (toBigEndian w x ++ rest).take w = toBigEndian w x := by
  have := List.take_left (toBigEndian w x) rest
  rwa [length_toBigEndian] at this

theorem drop_toBigEndian_append (w x : Nat) (rest : List Nat) :
    (toBigEndian w x ++ rest).drop w = rest := by
  have := List.drop_left (toBigEndian w x) rest
  rwa [length_toBigEndian] at this

theorem timetz_round_trip (sysOffset : Int → Int) (dt : QDateTime)
    (ht1 : 0 ≤ dt.time) (ht2 : dt.time < msecsPerDay)
    (ho1 : -MaxUtcOffsetSecs ≤ dt.offsetFromUtc) (ho2 : dt.offsetFromUtc ≤ MaxUtcOffsetSecs) :
    RoundTrip sysOffset _TIMETZOID (.dateTime dt)
      (fun bytes => bytes = toBigEndian 4 12 ++ (toBigEndian 8 (toUnsigned 64 (dt.time * 1000))
        ++ toBigEndian 4 (toUnsigned 32 (-dt.offsetFromUtc))))
      (fun d => d = .dateTime ⟨0, dt.time, dt.offsetFromUtc⟩) := by
  simp only [msecsPerDay, MaxUtcOffsetSecs] at ht2 ho1 ho2
  refine roundTrip_intro sysOffset _ _ _ _ 12 12 _ (by decide) ?_ (by decide) rfl ?_
  · have h : GotoPointers Label._default typeLabels _TIMETZOID = ._TIMETZ := by decide
    have hs : sizeBytes _TIMETZOID = toBigEndian 4 12 := by decide
    simp [h, bindStep, hs, QVariant.toDateTime]
  · have h : GotoPointers Label._BYTEA typeLabels _TIMETZOID = ._TIMETZ := by decide
    have hr := readBytes_toBigEndian_append 8 (toUnsigned 64 (dt.time * 1000))
      (toBigEndian 4 (toUnsigned 32 (-dt.offsetFromUtc)))
    rw [length_toBigEndian] at hr
    simp only [h, decodeColumn, hr, Option.map_some', take_toBigEndian_append,
      drop_toBigEndian_append, fromBigEndian_toBigEndian]
    rw [toSigned_toUnsigned_64 _ (by omega) (by omega),
      toSigned_toUnsigned_32 _ (by omega) (by omega),
      Int.mul_tdiv_cancel _ (by norm_num), neg_neg,
      wrapSigned_32 _ (by omega) (by omega), wrapSigned_32 _ (by omega) (by omega)]
    exact ⟨_, rfl, rfl⟩

/-- C3. Codec round trip of the time kinds at millisecond granularity: a TIME value (OID 1083)
with `0 <= t < 86400000` comes back as the same time; a TIMESTAMP value (OIDs 1114, 1184) whose
milliseconds since the Unix epoch `m` keep `(m - 946674000000) * 1000` within a signed 64-bit
integer comes back as a date-time with the same `m`; a TIMETZ value (OID 1266) comes back with
the same time of day and the same offset from UTC. -/
theorem codec_round_trip_time_kinds (sysOffset : Int → Int) :
    (∀ t : Int, 0 ≤ t → t < msecsPerDay → RoundTrip sysOffset _TIMEOID (.time t)
        (fun bytes => bytes = toBigEndian 4 8 ++ toBigEndian 8 (toUnsigned 64 (t * 1000)))
        (fun d => d = .time t)) ∧
    (∀ oid ∈ TIMESTAMP, ∀ dt : QDateTime,
      -2 ^ 63 ≤ (dt.toMSecsSinceEpoch - 946674000000) * 1000 →
      (dt.toMSecsSinceEpoch - 946674000000) * 1000 < 2 ^ 63 →
      RoundTrip sysOffset oid (.dateTime dt)
        (fun bytes => bytes = toBigEndian 4 8
          ++ toBigEndian 8 (toUnsigned 64 ((dt.toMSecsSinceEpoch - 946674000000) * 1000)))
        (fun d => ∃ back : QDateTime, d = .dateTime back ∧
          back.toMSecsSinceEpoch = dt.toMSecsSinceEpoch)) ∧
    (∀ dt : QDateTime, 0 ≤ dt.time → dt.time < msecsPerDay →
      -MaxUtcOffsetSecs ≤ dt.offsetFromUtc → dt.offsetFromUtc ≤ MaxUtcOffsetSecs →
      RoundTrip sysOffset _TIMETZOID (.dateTime dt)
        (fun bytes => bytes = toBigEndian 4 12 ++ (toBigEndian 8 (toUnsigned 64 (dt.time * 1000))
          ++ toBigEndian 4 (toUnsigned 32 (-dt.offsetFromUtc))))
        (fun d => ∃ back : QDateTime, d = .dateTime back ∧ back.time = dt.time ∧
          back.offsetFromUtc = dt.offsetFromUtc)) := by
  refine ⟨?_, ?_, ?_⟩
  · intro t h1 h2
    simp only [msecsPerDay] at h2
    refine roundTrip_intro sysOffset _ _ _ _ 8 8 (toBigEndian 8 (toUnsigned 64 (t * 1000)))
      (by decide) ?_ (by decide) rfl ?_
    · have h : GotoPointers Label._default typeLabels _TIMEOID = ._TIME := by decide
      have hs : sizeBytes _TIMEOID = toBigEndian 4 8 := by decide
      simp [h, bindStep, hs, QVariant.toTimeMSecs]
    · have h : GotoPointers Label._BYTEA typeLabels _TIMEOID = ._TIME := by decide
      simp only [h, decodeColumn, readBytes_toBigEndian, Option.map_some',
        fromBigEndian_toBigEndian]
      rw [toSigned_toUnsigned_64 _ (by omega) (by omega), Int.mul_tdiv_cancel _ (by norm_num),
        wrapSigned_32 _ (by omega) (by omega)]
      exact ⟨_, rfl, rfl⟩
  · intro oid hoid dt h1 h2
    obtain ⟨hmax, hb, hd, hs⟩ := timestamp_labels oid hoid
    refine roundTrip_intro sysOffset _ _ _ _ 8 8
      (toBigEndian 8 (toUnsigned 64 ((dt.toMSecsSinceEpoch - 946674000000) * 1000))) hmax ?_
      (by decide) rfl ?_
    · simp [hb, bindStep, hs, QVariant.toDateTime, timestampBase]
    · simp only [hd, decodeColumn, readBytes_toBigEndian, Option.map_some',
        fromBigEndian_toBigEndian]
      rw [toSigned_toUnsigned_64 _ h1 h2, Int.mul_tdiv_cancel _ (by norm_num)]
      refine ⟨_, rfl, _, rfl, ?_⟩
      rw [toMSecsSinceEpoch_fromMSecsSinceEpoch]
      simp [timestampBase]
  · intro dt h1 h2 h3 h4
    have := timetz_round_trip sysOffset dt h1 h2 h3 h4
    intro query hp hv
    obtain ⟨head, bytes, a, b, c, l, d, e⟩ := this query hp hv
    refine ⟨head, bytes, a, b, c, l, d, ?_⟩
    intro result field row hf hty hrow
    obtain ⟨v, hv1, hv2⟩ := e result field row hf hty hrow
    exact ⟨v, hv1, _, hv2, rfl, rfl⟩

/-- C8. TIMETZ sign: for every TIMETZ value whose zone lies `offset` seconds east of UTC, the
last four of the twelve value bytes `runBindQuery` emits are the big-endian two's-complement
32-bit pattern of `-offset`, and `Query::value` negates the field back, returning a date-time
whose offset from UTC is `offset` again. -/
theorem timetz_offset_negated_both_ways (sysOffset : Int → Int) (dt : QDateTime)
    (ht1 : 0 ≤ dt.time) (ht2 : dt.time < msecsPerDay)
    (ho1 : -MaxUtcOffsetSecs ≤ dt.offsetFromUtc) (ho2 : dt.offsetFromUtc ≤ MaxUtcOffsetSecs) :
    RoundTrip sysOffset _TIMETZOID (.dateTime dt)
      (fun bytes => bytes.length = 16 ∧
        bytes.drop 12 = toBigEndian 4 (toUnsigned 32 (-dt.offsetFromUtc)) ∧
        toSigned 32 (fromBigEndian (bytes.drop 12)) = -dt.offsetFromUtc)
      (fun d => ∃ back : QDateTime, d = .dateTime back ∧
        back.offsetFromUtc = dt.offsetFromUtc) := by
  have := timetz_round_trip sysOffset dt ht1 ht2 ho1 ho2
  simp only [msecsPerDay, MaxUtcOffsetSecs] at ht2 ho1 ho2
  intro query hp hv
  obtain ⟨head, bytes, a, b, c, l, d, e⟩ := this query hp hv
  refine ⟨head, bytes, a, b, c, l, ?_, ?_⟩
  · subst d
    have hd : (toBigEndian 4 12 ++ (toBigEndian 8 (toUnsigned 64 (dt.time * 1000))
        ++ toBigEndian 4 (toUnsigned 32 (-dt.offsetFromUtc)))).drop 12
        = toBigEndian 4 (toUnsigned 32 (-dt.offsetFromUtc)) := by
      rw [← List.append_assoc]
      have := List.drop_left (toBigEndian 4 12 ++ toBigEndian 8 (toUnsigned 64 (dt.time * 1000)))
        (toBigEndian 4 (toUnsigned 32 (-dt.offsetFromUtc)))
      simpa [length_toBigEndian] using this
    refine ⟨by simp [length_toBigEndian], hd, ?_⟩
    rw [hd, fromBigEndian_toBigEndian, toSigned_toUnsigned_32 _ (by omega) (by omega)]
  · intro result field row hf hty hrow
    obtain ⟨v, hv1, hv2⟩ := e result field row hf hty hrow
    exact ⟨v, hv1, _, hv2, rfl⟩

/-- C7, the code at the failing input. The TIMESTAMP value 2000-01-01T00:00:00Z, which is
946684800000 ms after the Unix epoch, bound to a parameter of OID 1114 or 1184, is written as
the length 8 followed by `00 00 00 02 83 BA EC 00` (10 800 000 000 microseconds), not by eight
zero bytes. -/
theorem timestamp_epoch_bytes :
    (QDateTime.mk jd2000 0 0).toMSecsSinceEpoch = 946684800000 ∧
    (runBindQuery [] ⟨true, true, [], "", [], [_TIMESTAMPOID], [.dateTime ⟨jd2000, 0, 0⟩], []⟩).written
      = [[0x42, 0, 0, 0, 28, 0, 0, 0, 1, 0, 1, 0, 1,
          0, 0, 0, 8, 0x00, 0x00, 0x00, 0x02, 0x83, 0xBA, 0xEC, 0x00,
          0, 1, 0, 1, 0x45, 0, 0, 0, 9, 0, 0, 0, 0, 0, 0x53, 0, 0, 0, 4]] ∧
    (runBindQuery [] ⟨true, true, [], "", [], [_TIMESTAMPTZOID], [.dateTime ⟨jd2000, 0, 0⟩], []⟩).written
      = [[0x42, 0, 0, 0, 28, 0, 0, 0, 1, 0, 1, 0, 1,
          0, 0, 0, 8, 0x00, 0x00, 0x00, 0x02, 0x83, 0xBA, 0xEC, 0x00,
          0, 1, 0, 1, 0x45, 0, 0, 0, 9, 0, 0, 0, 0, 0, 0x53, 0, 0, 0, 4]] := by
  decide

/-- C4, the code at the failing input. The text "é" (U+00E9) bound to a TEXT parameter is
written as its two UTF-8 bytes `C3 A9` behind the length 2, and `Query::value` decodes these two
bytes one character per byte, to the two-character string "Ã©", not to the text bound. -/
theorem text_round_trip_outside_ascii :
    (runBindQuery [] ⟨true, true, [], "", [], [_TEXTOID], [.string "é"], []⟩).written
      = [[0x42, 0, 0, 0, 22, 0, 0, 0, 1, 0, 1, 0, 1, 0, 0, 0, 2, 0xC3, 0xA9,
          0, 1, 0, 1, 0x45, 0, 0, 0, 9, 0, 0, 0, 0, 0, 0x53, 0, 0, 0, 4]] ∧
    Query.value (fun _ => 0)
        ⟨true, true, [], "", [⟨"txt", 0, 0, _TEXTOID, -1, -1, 1⟩], [], [], [[0, 0, 0, 2, 0xC3, 0xA9]]⟩
        0 0
      = some (.string "Ã©") ∧
    QVariant.string "Ã©" ≠ QVariant.string "é" := by
  decide

/-- C9, counterexample. For the TIMETZ value 13:26:44.517 at UTC+03 the
sixteen parameter bytes that follow the thirteen header bytes of the Bind frame are
`00 00 00 0C 00 00 00 0B 45 22 50 88 FF FF D5 D0`, which differ from the bytes of the scenario,
`00 00 00 0C 00 00 2B 8B 26 1F 12 40 FF FF D5 D0`. -/
theorem timetz_scenario_bytes_differ :
    (runBindQuery []
        ⟨true, true, [], "", [], [_TIMETZOID], [.dateTime ⟨2415021, 48404517, 10800⟩], []⟩).written
      = [[0x42, 0, 0, 0, 32, 0, 0, 0, 1, 0, 1, 0, 1,
          0x00, 0x00, 0x00, 0x0C, 0x00, 0x00, 0x00, 0x0B, 0x45, 0x22, 0x50, 0x88,
          0xFF, 0xFF, 0xD5, 0xD0,
          0, 1, 0, 1, 0x45, 0, 0, 0, 9, 0, 0, 0, 0, 0, 0x53, 0, 0, 0, 4]] ∧
    [0x00, 0x00, 0x00, 0x0C, 0x00, 0x00, 0x00, 0x0B, 0x45, 0x22, 0x50, 0x88, 0xFF, 0xFF, 0xD5, 0xD0]
      ≠ [0x00, 0x00, 0x00, 0x0C, 0x00, 0x00, 0x2B, 0x8B, 0x26, 0x1F, 0x12, 0x40, 0xFF, 0xFF, 0xD5, 0xD0] := by
  decide

/-- C9, as amended. Binding the TIMETZ value 13:26:44.517 at UTC+03 (48404517 ms after midnight,
offset +10800 s, on any date) makes `runBindQuery` emit for that parameter exactly the sixteen
bytes `00 00 00 0C 00 00 00 0B 45 22 50 88 FF FF D5 D0`: length 12, 48 404 517 000 microseconds
since midnight, negated offset -10800. -/
theorem timetz_scenario_bytes (sysOffset : Int → Int) (date : Int) :
    RoundTrip sysOffset _TIMETZOID (.dateTime ⟨date, 48404517, 10800⟩)
      (fun bytes => bytes = [0x00, 0x00, 0x00, 0x0C, 0x00, 0x00, 0x00, 0x0B, 0x45, 0x22, 0x50,
        0x88, 0xFF, 0xFF, 0xD5, 0xD0])
      (fun d => d = .dateTime ⟨0, 48404517, 10800⟩) := by
  have h := timetz_round_trip sysOffset ⟨date, 48404517, 10800⟩ (by norm_num)
    (by norm_num [msecsPerDay]) (by norm_num [MaxUtcOffsetSecs]) (by norm_num [MaxUtcOffsetSecs])
  have e : toBigEndian 4 12 ++ (toBigEndian 8 (toUnsigned 64 ((48404517 : Int) * 1000))
      ++ toBigEndian 4 (toUnsigned 32 (-(10800 : Int))))
      = [0x00, 0x00, 0x00, 0x0C, 0x00, 0x00, 0x00, 0x0B, 0x45, 0x22, 0x50, 0x88, 0xFF, 0xFF,
         0xD5, 0xD0] := by decide
  simpa only [e] using h

theorem encodeColumns_cons (c : Option (List Nat)) (cs : List (Option (List Nat))) :
    encodeColumns (c :: cs) = encodeColumn c ++ encodeColumns cs := by
  simp [encodeColumns]

theorem encodeColumns_append (a b : List (Option (List Nat))) :
    encodeColumns (a ++ b) = encodeColumns a ++ encodeColumns b := by
  simp [encodeColumns]

/-- One pass of the loop of `Query::value` over a column other than the requested one. -/
theorem valueLoop_step (sysOffset : Int → Int) (fields : List Field) (column : Int)
    (c : Option (List Nat)) (n i : Nat) (rest : List Nat) (hc : columnFits c)
    (hi : (i : Int) ≠ column) :
    Query.valueLoop sysOffset fields column (n + 1) i (encodeColumn c ++ rest)
      = Query.valueLoop sysOffset fields column n (i + 1) rest := by
  cases c with
  | none =>
    have h4 : readBytes (encodeColumn none ++ rest) 4 = some [0xFF, 0xFF, 0xFF, 0xFF] := by
      simp [readBytes, encodeColumn]
    have hv : fromBigEndian [0xFF, 0xFF, 0xFF, 0xFF] = 4294967295 := by decide
    simp only [Query.valueLoop, h4, hv, if_neg hi]
    simp [encodeColumn]
  | some b =>
    have hb : b.length < 0xFFFFFFFF := hc
    have h4 : readBytes (encodeColumn (some b) ++ rest) 4 = some (toBigEndian 4 b.length) := by
      have := readBytes_append (toBigEndian 4 b.length) (b ++ rest)
      rw [length_toBigEndian] at this
      simpa [encodeColumn] using this
    have hk : b.length % 256 ^ 4 = b.length := Nat.mod_eq_of_lt (by norm_num; omega)
    have hne : b.length ≠ 4294967295 := by omega
    have hd : (encodeColumn (some b) ++ rest).drop 4 = b ++ rest := by
      have := drop_toBigEndian_append 4 b.length (b ++ rest)
      simpa [encodeColumn] using this
    simp only [Query.valueLoop, h4, fromBigEndian_toBigEndian, hk, if_neg hi, hd]
    simp [hne]

/-- The loop of `Query::value` walks over the columns before the requested one. -/
theorem valueLoop_skip (sysOffset : Int → Int) (fields : List Field) (column : Int) :
    ∀ (before : List (Option (List Nat))) (n i : Nat) (rest : List Nat),
      (∀ c ∈ before, columnFits c) →
      (∀ j, j < before.length → ((i + j : Nat) : Int) ≠ column) →
      Query.valueLoop sysOffset fields column (n + before.length) i (encodeColumns before ++ rest)
        = Query.valueLoop sysOffset fields column n (i + before.length) rest := by
  intro before
  induction before with
  | nil => intro n i rest _ _; simp [encodeColumns]
  | cons c cs ih =>
    intro n i rest hfit hne
    have h0 : (i : Int) ≠ column := by simpa using hne 0 (by simp)
    rw [encodeColumns_cons, List.append_assoc, List.length_cons, ← Nat.add_assoc,
      valueLoop_step sysOffset fields column c _ i _ (hfit c (by simp)) h0,
      ih n (i + 1) rest (fun c hc => hfit c (by simp [hc]))]
    · congr 1; omega
    · intro j hj
      have := hne (j + 1) (by simp; omega)
      rwa [show i + 1 + j = i + (j + 1) by omega]

/-- A length field that holds `0xFFFFFFFF` at the requested column gives the invalid value. -/
theorem value_null_column (sysOffset : Int → Int) (query : Query) (row : Nat)
    (before : List (Option (List Nat))) (rest : List Nat)
    (hrow : query._dataRows[row]? = some (encodeColumns before ++ [0xFF, 0xFF, 0xFF, 0xFF] ++ rest))
    (hfit : ∀ c ∈ before, columnFits c) (hcol : before.length < query._fields.length) :
    Query.value sysOffset query row before.length = some .invalid := by
  have hn : query._fields.length + 1
      = (query._fields.length - before.length) + 1 + before.length := by omega
  simp only [Query.value, hrow]
  rw [hn, List.append_assoc, valueLoop_skip sysOffset _ _ before _ 0 _ hfit
    (by intro j hj; simp; omega)]
  have h4 : readBytes (0xFF :: 0xFF :: 0xFF :: 0xFF :: rest) 4 = some [0xFF, 0xFF, 0xFF, 0xFF] := by
    simp [readBytes]
  have hv : fromBigEndian [0xFF, 0xFF, 0xFF, 0xFF] = 4294967295 := by decide
  simp [Query.valueLoop, h4, hv]

/-- C5. NULL preservation: for every row payload in which the columns before `col` are followed
by a length field that holds `0xFFFFFFFF`, and every field list with more than `col` fields,
`Query::value(row, col)` returns the invalid (absent) `QVariant`, whatever the type OID of the
field of column `col` is. -/
theorem null_column_is_absent (sysOffset : Int → Int) (query : Query) (row : Nat)
    (before : List (Option (List Nat))) (rest : List Nat)
    (hrow : query._dataRows[row]? = some (encodeColumns before ++ [0xFF, 0xFF, 0xFF, 0xFF] ++ rest))
    (hfit : ∀ c ∈ before, columnFits c) (hcol : before.length < query._fields.length) :
    Query.value sysOffset query row before.length = some .invalid :=
  value_null_column sysOffset query row before rest hrow hfit hcol

/-- The code at a label of `Query::value` gives the same result on the bytes of the column alone
as on the row from the column on, when the column holds all the bytes the code reads. -/
theorem decodeColumn_local (sysOffset : Int → Int) (label : Label) (b rest : List Nat)
    (h : bytesRead label b.length ≤ b.length) :
    decodeColumn sysOffset label (b ++ rest) b.length = decodeColumn sysOffset label b b.length := by
  have key : ∀ w, w ≤ b.length → readBytes (b ++ rest) w = readBytes b w := by
    intro w hw
    simp [readBytes, hw, List.take_append_of_le_length hw]
    omega
  cases label <;> simp only [bytesRead] at h <;> simp only [decodeColumn, key _ h]

theorem length_encodeColumns (cols : List (Option (List Nat))) :
    (encodeColumns cols).length = (cols.map fun c => 4 + (c.getD []).length).sum := by
  induction cols with
  | nil => rfl
  | cons c cs ih =>
    rw [encodeColumns_cons, List.length_append, ih]
    cases c <;> simp [encodeColumn, length_toBigEndian]

theorem getElem?_split {α : Type} (l : List α) (i : Nat) (x : α) (h : l[i]? = some x) :
    l = l.take i ++ x :: l.drop (i + 1) ∧ (l.take i).length = i := by
  induction l generalizing i with
  | nil => simp at h
  | cons a as ih =>
    cases i with
    | zero => simp at h; simp [h]
    | succ i =>
      simp at h
      obtain ⟨h1, h2⟩ := ih i h
      refine ⟨?_, ?_⟩
      · simp only [List.take_succ_cons, List.drop_succ_cons, List.cons_append]
        rw [← h1]
      · simp [h2] at *

theorem label_above_TypeMax (oid : Nat) (h : TypeMax < oid) :
    GotoPointers Label._BYTEA typeLabels oid = ._BYTEA := by
  have h' : 2950 < oid := h
  simp only [GotoPointers, typeLabels, List.foldl, BOOL, INT2, INT4, INT8, FLOAT4, FLOAT8, DATE,
    TIME, TIMETZ, TIMESTAMP, BYTEA, TEXT, UUID, _BOOLOID, _INT8OID, _INT2OID, _INT4OID,
    _FLOAT4OID, _FLOAT8OID, _DATEOID, _TIMEOID, _TIMETZOID, _TIMESTAMPOID, _TIMESTAMPTZOID,
    _OIDOID, _BYTEAOID, _REGPROCOID, _XIDOID, _CIDOID, _CHAROID, _VARCHAROID, _TEXTOID, _UUIDOID,
    List.mem_cons, List.mem_singleton, List.not_mem_nil, or_false]
  repeat' rw [if_neg (by omega)]

/-- C6, as amended. Column walk of `Query::value`: in a stored row made of length-prefixed
columns, the bytes of column `col` start at offset `columnOffset` (4 bytes for every earlier
NULL column, 4 + k for every other earlier column, plus the own length field); a NULL column
gives the absent value, and a column that holds at least the bytes the code of its kind reads is
decoded from its own bytes alone, by the code selected by the type OID of field `col`. -/
theorem value_column_walk (sysOffset : Int → Int) (query : Query) (row col : Nat)
    (columns : List (Option (List Nat)))
    (hrow : query._dataRows[row]? = some (encodeColumns columns))
    (hfit : ∀ c ∈ columns, columnFits c) (hlen : columns.length = query._fields.length) :
    (columns[col]? = some none → Query.value sysOffset query row col = some .invalid) ∧
    (∀ (b : List Nat) (f : Field), columns[col]? = some (some b) → query._fields[col]? = some f →
      bytesRead (GotoPointers Label._BYTEA typeLabels f._typeOID) b.length ≤ b.length →
      ((encodeColumns columns).drop (columnOffset columns col)).take b.length = b ∧
      Query.value sysOffset query row col
        = decodeColumn sysOffset (GotoPointers Label._BYTEA typeLabels f._typeOID) b b.length) := by
  refine ⟨?_, ?_⟩
  · intro hnull
    obtain ⟨hs, hl⟩ := getElem?_split columns col none hnull
    have hcol : col < columns.length := by
      rcases Nat.lt_or_ge col columns.length with h | h
      · exact h
      · rw [List.getElem?_eq_none h] at hnull; exact absurd hnull (by simp)
    have := value_null_column sysOffset query row (columns.take col)
      (encodeColumns (columns.drop (col + 1)))
      (by
        rw [hrow]
        conv_lhs => rw [hs]
        rw [encodeColumns_append, encodeColumns_cons]
        simp [encodeColumn])
      (fun c hc => hfit c (List.mem_of_mem_take hc)) (by rw [hl]; omega)
    rwa [hl] at this
  · intro b f hb hf hread
    obtain ⟨hs, hl⟩ := getElem?_split columns col (some b) hb
    have hbfit : b.length < 0xFFFFFFFF := hfit (some b) (List.mem_iff_getElem?.mpr ⟨col, hb⟩)
    have hoff : columnOffset columns col = (encodeColumns (columns.take col)).length + 4 := by
      rw [length_encodeColumns]; rfl
    have henc : encodeColumns columns = encodeColumns (columns.take col)
        ++ (toBigEndian 4 b.length ++ (b ++ encodeColumns (columns.drop (col + 1)))) := by
      conv_lhs => rw [hs]
      rw [encodeColumns_append, encodeColumns_cons]
      simp [encodeColumn]
    have hcolf : col < query._fields.length := by
      rcases Nat.lt_or_ge col query._fields.length with h | h
      · exact h
      · rw [List.getElem?_eq_none h] at hf; exact absurd hf (by simp)
    refine ⟨?_, ?_⟩
    · rw [hoff, henc, List.drop_append, drop_toBigEndian_append, List.take_left]
    · have hn : query._fields.length + 1
          = (query._fields.length - col + 1) + (columns.take col).length := by rw [hl]; omega
      have h4 : readBytes (toBigEndian 4 b.length ++ (b ++ encodeColumns (columns.drop (col + 1)))) 4
          = some (toBigEndian 4 b.length) := by
        have := readBytes_append (toBigEndian 4 b.length)
          (b ++ encodeColumns (columns.drop (col + 1)))
        rwa [length_toBigEndian] at this
      have hk : b.length % 256 ^ 4 = b.length := Nat.mod_eq_of_lt (by norm_num; omega)
      have hne : b.length ≠ 4294967295 := by omega
      simp only [Query.value, hrow]
      rw [hn, henc, valueLoop_skip sysOffset _ _ (columns.take col) _ 0 _
        (fun c hc => hfit c (List.mem_of_mem_take hc)) (by intro j hj; simp; omega), hl]
      simp only [Query.valueLoop, h4, fromBigEndian_toBigEndian, hk, drop_toBigEndian_append,
        Nat.zero_add, if_true, hf, if_neg hne]
      by_cases hmax : TypeMax < f._typeOID
      · rw [if_pos hmax]
        rw [label_above_TypeMax _ hmax] at hread ⊢
        exact decodeColumn_local sysOffset _ b _ hread
      · rw [if_neg hmax]
        exact decodeColumn_local sysOffset _ b _ hread

/-- C6, counterexample. Two rows whose column 0 holds the same (zero) bytes and whose field 0 has the BOOL OID
16 in both: `Query::value` returns false for the one and true for the other, because the code at
`_BOOL` reads the byte that follows the column, which is the first byte of the next length
field. -/
theorem value_reads_past_short_column :
    encodeColumns [some [], some []] = [0, 0, 0, 0, 0, 0, 0, 0] ∧
    encodeColumns [some [], none] = [0, 0, 0, 0, 0xFF, 0xFF, 0xFF, 0xFF] ∧
    Query.value (fun _ => 0)
        ⟨false, false, [], "", [⟨"a", 0, 0, _BOOLOID, 1, -1, 1⟩, ⟨"b", 0, 0, _INT4OID, 4, -1, 1⟩],
          [], [], [encodeColumns [some [], some []]]⟩ 0 0 = some (.bool false) ∧
    Query.value (fun _ => 0)
        ⟨false, false, [], "", [⟨"a", 0, 0, _BOOLOID, 1, -1, 1⟩, ⟨"b", 0, 0, _INT4OID, 4, -1, 1⟩],
          [], [], [encodeColumns [some [], none]]⟩ 0 0 = some (.bool true) := by
  decide

theorem catalogue_eq : catalogue
    = [16, 21, 23, 2278, 24, 28, 29, 20, 700, 701, 1082, 1083, 1266, 1114, 1184, 17, 18, 1043,
       25, 2950] ∧ catalogue.length = 20 ∧ TypeMax = 2950 := by decide

theorem label_of_catalogue (oid : Nat) (h : oid ∈ catalogue) :
    oid ≤ TypeMax ∧ GotoPointers Label._default typeLabels oid ≠ ._default := by
  rw [catalogue_eq.1] at h
  simp only [List.mem_cons, List.mem_singleton, List.not_mem_nil, or_false] at h
  rcases h with rfl | rfl | rfl | rfl | rfl | rfl | rfl | rfl | rfl | rfl | rfl | rfl | rfl | rfl
    | rfl | rfl | rfl | rfl | rfl | rfl <;> decide

theorem label_outside_catalogue (oid : Nat) (h : oid ∉ catalogue) :
    GotoPointers Label._default typeLabels oid = ._default := by
  rw [catalogue_eq.1] at h
  simp only [List.mem_cons, List.mem_singleton, List.not_mem_nil, or_false, not_or] at h
  simp only [GotoPointers, typeLabels, List.foldl, BOOL, INT2, INT4, INT8, FLOAT4, FLOAT8, DATE,
    TIME, TIMETZ, TIMESTAMP, BYTEA, TEXT, UUID, _BOOLOID, _INT8OID, _INT2OID, _INT4OID,
    _FLOAT4OID, _FLOAT8OID, _DATEOID, _TIMEOID, _TIMETZOID, _TIMESTAMPOID, _TIMESTAMPTZOID,
    _OIDOID, _BYTEAOID, _REGPROCOID, _XIDOID, _CIDOID, _CHAROID, _VARCHAROID, _TEXTOID, _UUIDOID,
    List.mem_cons, List.mem_singleton, List.not_mem_nil, or_false]
  repeat' rw [if_neg (by omega)]

theorem bindStep_eq_none (label : Label) (oid : Nat) (value : QVariant) :
    bindStep label oid value = none ↔ label = ._default := by
  cases label <;> simp [bindStep]

theorem drop_eq_cons {α : Type} (l : List α) (i : Nat) (x d : α) (xs : List α)
    (h : l.drop i = x :: xs) : l.getD i d = x ∧ l.drop (i + 1) = xs := by
  induction l generalizing i with
  | nil => simp at h
  | cons a as ih =>
    cases i with
    | zero => simp at h; simp [h]
    | succ i => simpa using ih i (by simpa using h)

/-- The parameter loop stops at the first OID outside the catalogue, with the error message that
names it. -/
theorem bindLoop_unknown_oid (params : List Nat) (oid : Nat) :
    ∀ (values : List QVariant) (ps : List Nat) (i : Nat) (bufferOut : List Nat) (size : Nat),
      params.drop i = ps → values.length = ps.length →
      ps.find? (fun o => decide (o ∉ catalogue)) = some oid →
      (bindLoop params values i bufferOut size).error
        = some ⟨"", "", "The binding does not support the type OID: " ++ toString oid⟩ := by
  intro values
  induction values with
  | nil =>
    intro ps i bufferOut size _ hlen hfind
    have : ps = [] := List.length_eq_zero.mp hlen.symm
    subst this
    simp at hfind
  | cons v vs ih =>
    intro ps i bufferOut size hdrop hlen hfind
    cases ps with
    | nil => simp at hlen
    | cons p ps =>
      obtain ⟨hget, hdrop'⟩ := drop_eq_cons params i p 0 ps hdrop
      by_cases hp : p ∈ catalogue
      · obtain ⟨hmax, hlabel⟩ := label_of_catalogue p hp
        have hsome : ∃ r, bindStep (GotoPointers Label._default typeLabels p) p v = some r := by
          cases hs : bindStep (GotoPointers Label._default typeLabels p) p v with
          | none => exact absurd ((bindStep_eq_none _ _ _).mp hs) hlabel
          | some r => exact ⟨r, rfl⟩
        obtain ⟨⟨bytes, n⟩, hstep⟩ := hsome
        have hfind' : ps.find? (fun o => decide (o ∉ catalogue)) = some oid := by
          simpa [List.find?, hp] using hfind
        simp only [bindLoop, hget, if_neg (Nat.not_lt.mpr hmax), hstep]
        exact ih ps (i + 1) _ _ hdrop' (by simpa using hlen) hfind'
      · have hoid : p = oid := by simpa [List.find?, hp] using hfind
        subst hoid
        by_cases hmax : TypeMax < p
        · simp only [bindLoop, hget, if_pos hmax, msg]
        · have hnone := (bindStep_eq_none (GotoPointers Label._default typeLabels p) p v).mpr
            (label_outside_catalogue p hp)
          simp only [bindLoop, hget, if_neg hmax, hnone, msg]

/-- C10. Unknown OID on bind: for every prepared query that has as many bound values as
parameter descriptors (fewer than 65536, the limit of the 16-bit parameter count), if `oid` is
the first parameter OID that is not one of the 20 catalogue OIDs, then `runBindQuery` emits on
the query's error channel exactly one message, "The binding does not support the type OID: "
followed by the decimal `oid`, and writes nothing to the socket. -/
theorem unknown_oid_on_bind (bufferOut : List Nat) (query : Query) (oid : Nat)
    (harity : query._bindValues.length = query._preparedParametrs.length)
    (hcount : query._preparedParametrs.length < 65536)
    (hfirst : query._preparedParametrs.find? (fun o => decide (o ∉ catalogue)) = some oid) :
    (runBindQuery bufferOut query).error
      = [⟨"", "", "The binding does not support the type OID: " ++ toString oid⟩] ∧
    (runBindQuery bufferOut query).written = [] := by
  have hpos : 0 < query._preparedParametrs.length := by
    cases hps : query._preparedParametrs with
    | nil => rw [hps] at hfirst; simp at hfirst
    | cons p ps => simp
  have hmod : query._bindValues.length % 2 ^ 16 = query._preparedParametrs.length := by
    rw [harity]; exact Nat.mod_eq_of_lt (by norm_num; omega)
  have hloop := fun b s => bindLoop_unknown_oid query._preparedParametrs oid query._bindValues
    query._preparedParametrs 0 b s (by simp) harity hfirst
  simp only [runBindQuery, hmod, ne_eq, not_true_eq_false, if_false, if_pos hpos, hloop]
  refine ⟨?_, ?_⟩ <;> first | rfl | trivial

/-! ## The framer -/

theorem encodeFrames_cons (f : Frame) (fs : List Frame) :
    encodeFrames (f :: fs) = f.encode ++ encodeFrames fs := by
  simp [encodeFrames]

theorem encodeFrames_append (a b : List Frame) :
    encodeFrames (a ++ b) = encodeFrames a ++ encodeFrames b := by
  simp [encodeFrames]

theorem length_encode (f : Frame) : f.encode.length = 5 + f.payload.length := by
  simp [Frame.encode, length_toBigEndian]; omega

/-- What the loop body reads at the start of a whole frame. -/
theorem frame_at (pre rest : List Nat) (f : Frame) (hf : 4 + f.payload.length < 2 ^ 32) :
    (pre ++ (f.encode ++ rest)).getD pre.length 0 = f.tag ∧
    fromBigEndian (((pre ++ (f.encode ++ rest)).drop (pre.length + 1)).take 4)
      = 4 + f.payload.length ∧
    (pre ++ (f.encode ++ rest)).drop (pre.length + MinimumPackageSize) = f.payload ++ rest := by
  refine ⟨?_, ?_, ?_⟩
  · rw [List.getD_eq_getElem?_getD, List.getElem?_append_right (le_refl _)]
    simp [Frame.encode]
  · rw [List.drop_append]
    have : (f.encode ++ rest).drop 1 = toBigEndian 4 (4 + f.payload.length) ++ (f.payload ++ rest) := by
      simp [Frame.encode]
    rw [this, take_toBigEndian_append, fromBigEndian_toBigEndian]
    exact Nat.mod_eq_of_lt (by norm_num; omega)
  · rw [List.drop_append]
    have : (f.encode ++ rest).drop MinimumPackageSize
        = (toBigEndian 4 (4 + f.payload.length) ++ (f.payload ++ rest)).drop 4 := by
      simp [Frame.encode, MinimumPackageSize]
    rw [this, drop_toBigEndian_append]

/-- The length field read at the start of a leftover that holds a frame header. -/
theorem header_of_leftover (pre tail more : List Nat) (g : Frame)
    (hg : 4 + g.payload.length < 2 ^ 32) (h : g.encode = tail ++ more) (h5 : 5 ≤ tail.length) :
    fromBigEndian (((pre ++ tail).drop (pre.length + 1)).take 4) = 4 + g.payload.length := by
  have h1 := (frame_at pre [] g hg).2.1
  rw [List.append_nil, h] at h1
  rw [← h1, List.drop_append, List.drop_append, List.drop_append_of_le_length (by omega),
    List.take_append_of_le_length (by simp; omega)]

theorem analyzeLoop_leftover (pre tail : List Nat) (complete : Bool) (fuel : Nat)
    (htail : tail = [] ∨ ∃ g : Frame, g.valid ∧ ∃ more, more ≠ [] ∧ g.encode = tail ++ more ∧
      pre.length + g.encode.length < 2 ^ 32)
    (hsize : pre.length + tail.length + 5 < 2 ^ 32) (hfuel : 0 < fuel) :
    observedRun (analyzeLoop fuel true (pre ++ tail) pre.length complete)
      = some (expectedRead [] tail complete) := by
  obtain ⟨fuel, rfl⟩ : ∃ k, fuel = k + 1 := ⟨fuel - 1, by omega⟩
  have hlen : (pre ++ tail).length % 2 ^ 32 = pre.length + tail.length := by
    rw [List.length_append]; exact Nat.mod_eq_of_lt (by omega)
  have hpos5 : (pre.length + MinimumPackageSize) % 2 ^ 32 = pre.length + 5 :=
    Nat.mod_eq_of_lt (by simp only [MinimumPackageSize]; omega)
  have hdrop : (pre ++ tail).drop pre.length = tail := List.drop_left pre tail
  by_cases h5 : 5 ≤ tail.length
  · have hne : tail ≠ [] := by intro h; simp [h] at h5
    rcases htail with h | ⟨g, hg, more, hmore, henc, hbound⟩
    · exact absurd h hne
    · have hsz := header_of_leftover pre tail more g hg.2.1 henc h5
      have hlt : tail.length < g.encode.length := by
        have := congrArg List.length henc
        rw [List.length_append] at this
        have : 0 < more.length := List.length_pos.mpr hmore
        omega
      rw [length_encode] at hlt hbound
      have hps : (pre.length + (4 + g.payload.length)) % 2 ^ 32 = pre.length + (4 + g.payload.length) :=
        Nat.mod_eq_of_lt (by omega)
      have hc1 : pre.length + 5 ≤ pre.length + tail.length := by omega
      have hc2 : pre.length + tail.length ≤ pre.length + (4 + g.payload.length) := by omega
      have h5' : MinimumPackageSize ≤ tail.length := h5
      rw [analyzeLoop]
      simp only [hlen, hpos5, hsz, hps, hc1, hc2, decide_True, Bool.not_true, Bool.and_false,
        Bool.false_eq_true, if_false, if_true, hdrop, expectedRead, hne, h5']
      cases complete <;> simp [observedRun, Event.observed]
  · have hc1 : ¬ pre.length + 5 ≤ pre.length + tail.length := by omega
    have h5' : ¬ MinimumPackageSize ≤ tail.length := h5
    rw [analyzeLoop]
    simp only [hlen, hpos5, hc1, decide_False, Bool.not_false, Bool.and_true, if_true, hdrop,
      expectedRead, h5']
    by_cases hne : tail = []
    · subst hne; simp [observedRun]
    · have : pre.length ≠ pre.length + tail.length := by
        have : 0 < tail.length := List.length_pos.mpr hne
        omega
      cases complete <;> simp [observedRun, Event.observed, this, hne]

/-- An entry of a `GotoPointers` table is the default target or the target of a listed index. -/
theorem gotoPointers_cases {L : Type} (idx : Nat) (list : List (List Nat × L)) :
    ∀ dflt : L, GotoPointers dflt list idx = dflt ∨
      ∃ e ∈ list, idx ∈ e.1 ∧ GotoPointers dflt list idx = e.2 := by
  induction list with
  | nil => intro dflt; exact Or.inl rfl
  | cons e es ih =>
    intro dflt
    simp only [GotoPointers, List.foldl_cons] at ih ⊢
    rcases ih (if idx ∈ e.1 then e.2 else dflt) with h | ⟨e', he', hidx, h⟩
    · by_cases hm : idx ∈ e.1
      · rw [if_pos hm] at h ⊢
        exact Or.inr ⟨e, by simp, hm, h⟩
      · rw [if_neg hm] at h ⊢
        exact Or.inl h
    · exact Or.inr ⟨e', by simp [he'], hidx, h⟩

theorem proto_eq_auth (tag : Nat) (h : proto tag = ._AuthenticationRequest) :
    tag = AuthenticationRequest := by
  unfold proto at h
  rcases gotoPointers_cases tag _ ProtoLabel._default with h' | ⟨e, he, hidx, h'⟩
  · rw [h'] at h; exact absurd h (by decide)
  · rw [h'] at h
    simp only [List.mem_cons, List.mem_singleton, List.not_mem_nil, or_false] at he
    rcases he with rfl | rfl | rfl | rfl | rfl | rfl | rfl | rfl | rfl | rfl | rfl | rfl | rfl
      | rfl | rfl
    all_goals first
      | exact absurd h (by decide)
      | simpa using hidx

theorem observedRun_cons (e : Event) (r : Option (List Event × List Nat)) :
    observedRun (r.map fun r => (e :: r.1, r.2))
      = (observedRun r).map fun r => (e.observed :: r.1, r.2) := by
  cases r <;> simp [observedRun]

theorem authenticationAccepts_append (payload rest : List Nat) (h : 4 ≤ payload.length) :
    authenticationAccepts (payload ++ rest) = authenticationAccepts payload := by
  simp [authenticationAccepts, List.take_append_of_le_length h]

/-- One call of the loop of `analyzePacket` on whole frames followed by a leftover. -/
theorem analyzeLoop_frames :
    ∀ (mid : List Frame) (pre tail : List Nat) (complete : Bool) (fuel : Nat),
      (∀ f ∈ mid, f.valid) →
      (tail = [] ∨ ∃ g : Frame, g.valid ∧ ∃ more, more ≠ [] ∧ g.encode = tail ++ more ∧
          pre.length + (encodeFrames mid).length + g.encode.length < 2 ^ 32) →
      pre.length + (encodeFrames mid).length + tail.length + 5 < 2 ^ 32 →
      mid.length < fuel →
      observedRun (analyzeLoop fuel true (pre ++ (encodeFrames mid ++ tail)) pre.length complete)
        = some (expectedRead mid tail complete) := by
  intro mid
  induction mid with
  | nil =>
    intro pre tail complete fuel _ htail hsize hfuel
    simp only [encodeFrames, List.flatMap_nil, List.nil_append, List.length_nil,
      Nat.add_zero] at *
    exact analyzeLoop_leftover pre tail complete fuel htail hsize hfuel
  | cons f fs ih =>
    intro pre tail complete fuel hvalid htail hsize hfuel
    obtain ⟨fuel, rfl⟩ : ∃ k, fuel = k + 1 := ⟨fuel - 1, by simp at hfuel; omega⟩
    have hf : f.valid := hvalid f (by simp)
    rw [encodeFrames_cons, List.length_append, length_encode] at hsize
    obtain ⟨htag, hsz, hdrop⟩ := frame_at pre (encodeFrames fs ++ tail) f hf.2.1
    have hdata : pre ++ (encodeFrames (f :: fs) ++ tail)
        = pre ++ (f.encode ++ (encodeFrames fs ++ tail)) := by
      rw [encodeFrames_cons, List.append_assoc]
    have hlen : (pre ++ (f.encode ++ (encodeFrames fs ++ tail))).length % 2 ^ 32
        = pre.length + (5 + f.payload.length + ((encodeFrames fs).length + tail.length)) := by
      simp only [List.length_append, length_encode]
      exact Nat.mod_eq_of_lt (by omega)
    have hpos5 : (pre.length + MinimumPackageSize) % 2 ^ 32 = pre.length + 5 :=
      Nat.mod_eq_of_lt (by simp only [MinimumPackageSize]; omega)
    have hps : (pre.length + (4 + f.payload.length)) % 2 ^ 32
        = pre.length + (4 + f.payload.length) := Nat.mod_eq_of_lt (by omega)
    have hnext : (pre.length + (4 + f.payload.length) + 1) % 2 ^ 32
        = pre.length + f.encode.length := by
      rw [length_encode, Nat.mod_eq_of_lt (by omega)]
      omega
    have harg : (4 + f.payload.length + 2 ^ 32 - 4) % 2 ^ 32 = f.payload.length := by
      have : 4 + f.payload.length + 2 ^ 32 - 4 = f.payload.length + 2 ^ 32 := by omega
      rw [this, Nat.add_mod_right]
      exact Nat.mod_eq_of_lt (by omega)
    have hc1 : pre.length + 5
        ≤ pre.length + (5 + f.payload.length + ((encodeFrames fs).length + tail.length)) := by
      omega
    have hc2 : ¬ pre.length + (5 + f.payload.length + ((encodeFrames fs).length + tail.length))
        ≤ pre.length + (4 + f.payload.length) := by omega
    have hobs : (Event.frame f.tag (f.payload ++ (encodeFrames fs ++ tail)) f.payload.length).observed
        = Event.frame f.tag f.payload f.payload.length := by
      simp [Event.observed]
    have hrec : ∀ c, observedRun (analyzeLoop fuel true
        (pre ++ (f.encode ++ (encodeFrames fs ++ tail))) (pre.length + f.encode.length) c)
        = some (expectedRead fs tail c) := by
      intro c
      have := ih (pre ++ f.encode) tail c fuel (fun g hg => hvalid g (by simp [hg]))
        (by
          rcases htail with h | ⟨g, hg, more, hmore, henc, hbound⟩
          · exact Or.inl h
          · refine Or.inr ⟨g, hg, more, hmore, henc, ?_⟩
            rw [encodeFrames_cons, List.length_append] at hbound
            rw [List.length_append]; omega)
        (by rw [List.length_append, length_encode]; omega)
        (by simp at hfuel; omega)
      rwa [List.append_assoc, List.length_append] at this
    have hauth := authenticationAccepts_append f.payload (encodeFrames fs ++ tail)
    rw [hdata, analyzeLoop]
    simp only [hlen, hpos5, hsz, hps, hnext, harg, htag, hdrop, hc1, hc2, decide_True,
      Bool.not_true, Bool.and_false, Bool.false_eq_true, if_false]
    cases hl : proto f.tag <;>
      simp only [expectedRead, hl, observedRun_cons, hrec, hobs, Option.map_some']
    · -- `_AuthenticationRequest`
      have h4 : 4 ≤ f.payload.length := hf.2.2 (proto_eq_auth f.tag hl)
      rw [hauth h4]
      by_cases ha : authenticationAccepts f.payload
      · simp [ha, observedRun_cons, hrec, hobs]
      · simp [ha, observedRun, Event.observed]
    all_goals simp [observedRun, Event.observed]

theorem proto_eq_commandCompletion (tag : Nat) (h : proto tag = ._CommandCompletion) :
    tag = CommandCompletion := by
  unfold proto at h
  rcases gotoPointers_cases tag _ ProtoLabel._default with h' | ⟨e, he, hidx, h'⟩
  · rw [h'] at h; exact absurd h (by decide)
  · rw [h'] at h
    simp only [List.mem_cons, List.mem_singleton, List.not_mem_nil, or_false] at he
    rcases he with rfl | rfl | rfl | rfl | rfl | rfl | rfl | rfl | rfl | rfl | rfl | rfl | rfl
      | rfl | rfl
    all_goals first
      | exact absurd h (by decide)
      | simpa using hidx

/-- When no framing guard fires, one read gives the trace of its whole frames and keeps the
leftover, unless a fatal frame closed the connection. -/
theorem expectedRead_good :
    ∀ (mid : List Frame) (tail : List Nat) (complete : Bool),
      (complete = true ∨ mid.any (fun f => decide (f.tag = CommandCompletion)) = true →
        tail = []) →
      (expectedRead mid tail complete).1 = expectedTrace mid ∧
      (expectedRead mid tail complete).2
        = if Event.close ∈ expectedTrace mid then [] else tail := by
  intro mid
  induction mid with
  | nil =>
    intro tail complete h
    by_cases ht : tail = []
    · subst ht; simp [expectedRead, expectedTrace]
    · have hc : complete = false := by
        cases complete
        · rfl
        · exact absurd (h (Or.inl rfl)) ht
      subst hc
      simp [expectedRead, expectedTrace, ht]
  | cons f fs ih =>
    intro tail complete h
    have hsame := ih tail complete (by
      intro h'
      apply h
      rcases h' with h' | h'
      · exact Or.inl h'
      · exact Or.inr (by simp only [List.any_cons, h', Bool.or_true]))
    cases hl : proto f.tag
    case _CommandCompletion =>
      have ht : tail = [] := h (Or.inr (by
        simp only [List.any_cons, proto_eq_commandCompletion f.tag hl, decide_True,
          Bool.true_or]))
      have := ih tail true (fun _ => ht)
      simp [expectedRead, expectedTrace, hl, this.1, this.2]
    case _AuthenticationRequest =>
      by_cases ha : authenticationAccepts f.payload
      · simp [expectedRead, expectedTrace, hl, ha, hsame.1, hsame.2]
      · simp [expectedRead, expectedTrace, hl, ha]
    all_goals simp [expectedRead, expectedTrace, hl, hsame.1, hsame.2]

/-- The whole-buffer parse of a stream stops at a fatal frame and otherwise goes on with the
frames that follow. -/
theorem expectedTrace_append (mid rest : List Frame) :
    expectedTrace (mid ++ rest)
      = if Event.close ∈ expectedTrace mid then expectedTrace mid
        else expectedTrace mid ++ expectedTrace rest := by
  induction mid with
  | nil => simp [expectedTrace]
  | cons f fs ih =>
    cases hl : proto f.tag
    case _AuthenticationRequest =>
      by_cases ha : authenticationAccepts f.payload
      · rw [List.cons_append]
        simp only [expectedTrace, hl, ha, if_true]
        rw [ih]
        by_cases hc : Event.close ∈ expectedTrace fs <;> simp [hc]
      · simp [expectedTrace, hl, ha]
    all_goals
      rw [List.cons_append]
      simp only [expectedTrace, hl]
      first
        | (rw [ih]; by_cases hc : Event.close ∈ expectedTrace fs <;> simp [hc])
        | simp

/-- The frames completed by `avail` bytes, as a split of the frame list. -/
theorem advance_spec :
    ∀ (rest : List Frame) (avail : Nat),
      ∃ mid, rest = mid ++ (advance rest avail).1 ∧
        avail = (encodeFrames mid).length + (advance rest avail).2.1 ∧
        (advance rest avail).2.2 = mid.any (fun f => decide (f.tag = CommandCompletion)) ∧
        (∀ g gs, (advance rest avail).1 = g :: gs → (advance rest avail).2.1 < g.encode.length) := by
  intro rest
  induction rest with
  | nil => intro avail; exact ⟨[], by simp [advance, encodeFrames]⟩
  | cons f fs ih =>
    intro avail
    by_cases h : f.encode.length ≤ avail
    · obtain ⟨mid, h1, h2, h3, h4⟩ := ih (avail - f.encode.length)
      refine ⟨f :: mid, ?_, ?_, ?_, ?_⟩
      · simp only [advance, if_pos h, List.cons_append]
        rw [← h1]
      · simp only [advance, if_pos h, encodeFrames_cons, List.length_append]
        omega
      · simp only [advance, if_pos h, List.any_cons, h3, Bool.or_comm]
      · simpa only [advance, if_pos h] using h4
    · refine ⟨[], ?_, ?_, ?_, ?_⟩
      · simp [advance, h]
      · simp [advance, h, encodeFrames]
      · simp [advance, h]
      · intro g gs hg
        simp only [advance, if_neg h, List.cons.injEq] at hg ⊢
        rw [← hg.1]; omega

theorem advance_all (frames : List Frame) :
    advance frames (encodeFrames frames).length
      = ([], 0, frames.any (fun f => decide (f.tag = CommandCompletion))) := by
  induction frames with
  | nil => simp [advance, encodeFrames]
  | cons f fs ih =>
    simp [advance, encodeFrames_cons, ih, Bool.or_comm]

theorem analyzeLoop_entry (fuel : Nat) (data : List Nat) (complete : Bool)
    (h5 : 5 ≤ data.length) (hsize : data.length < 2 ^ 32) :
    analyzeLoop fuel false data 0 complete = analyzeLoop fuel true data 0 complete := by
  cases fuel with
  | zero => rfl
  | succ fuel =>
    have hlen : data.length % 2 ^ 32 = data.length := Nat.mod_eq_of_lt hsize
    have hc : (0 + MinimumPackageSize) % 2 ^ 32 ≤ data.length := by
      simp only [MinimumPackageSize]; omega
    rw [analyzeLoop, analyzeLoop]
    simp only [hlen, hc, decide_True, Bool.not_true, Bool.and_false, Bool.false_and]

theorem close_mem_observed (events : List Event) :
    Event.close ∈ events.map Event.observed ↔ Event.close ∈ events := by
  induction events with
  | nil => simp
  | cons e es ih =>
    cases e <;> simp [Event.observed, ih]

theorem observedRun_eq_some (x : Option (List Event × List Nat)) (y : List Event × List Nat)
    (h : observedRun x = some y) :
    ∃ events buffer, x = some (events, buffer) ∧ events.map Event.observed = y.1 ∧ buffer = y.2 := by
  cases x with
  | none => simp [observedRun] at h
  | some r =>
    simp only [observedRun, Option.map_some', Option.some.injEq] at h
    exact ⟨r.1, r.2, rfl, by rw [← h], by rw [← h]⟩

/-- One call of `analyzePacket` on a read that no framing guard stops. -/
theorem analyzePacket_good (rest : List Frame) (spill fuel : Nat) (fragment : List Nat)
    (hvalid : ∀ f ∈ rest, f.valid) (hsize : (encodeFrames rest).length < 2 ^ 31)
    (hfrag : (encodeFrames rest).take spill ++ fragment
      = (encodeFrames rest).take (spill + fragment.length))
    (hle : spill + fragment.length ≤ (encodeFrames rest).length)
    (h5 : MinimumPackageSize ≤ spill + fragment.length)
    (hC : (advance rest (spill + fragment.length)).2.2 = true →
      (advance rest (spill + fragment.length)).2.1 = 0)
    (hfuel : rest.length < fuel) :
    ∃ mid events buffer,
      rest = mid ++ (advance rest (spill + fragment.length)).1 ∧
      analyzePacket fuel ((encodeFrames rest).take spill) fragment = some (events, buffer) ∧
      events.map Event.observed = expectedTrace mid ∧
      buffer = (if Event.close ∈ expectedTrace mid then []
        else (encodeFrames (advance rest (spill + fragment.length)).1).take
          (advance rest (spill + fragment.length)).2.1) ∧
      (∀ g gs, (advance rest (spill + fragment.length)).1 = g :: gs →
        (advance rest (spill + fragment.length)).2.1 < g.encode.length) ∧
      ((advance rest (spill + fragment.length)).1 = [] →
        (advance rest (spill + fragment.length)).2.1 = 0) ∧
      spill + fragment.length
        = (encodeFrames mid).length + (advance rest (spill + fragment.length)).2.1 := by
  obtain ⟨mid, hsplit, havail, hc, hbound⟩ := advance_spec rest (spill + fragment.length)
  generalize hr : (advance rest (spill + fragment.length)).1 = r at *
  generalize hs : (advance rest (spill + fragment.length)).2.1 = s at *
  generalize hcc : (advance rest (spill + fragment.length)).2.2 = c at *
  simp only [MinimumPackageSize] at h5
  have hE : encodeFrames rest = encodeFrames mid ++ encodeFrames r := by
    rw [hsplit, encodeFrames_append]
  have hElen : (encodeFrames rest).length = (encodeFrames mid).length + (encodeFrames r).length := by
    rw [hE, List.length_append]
  have hs0 : r = [] → s = 0 := by
    intro h
    rw [h] at hElen
    have h0 : (encodeFrames ([] : List Frame)).length = 0 := rfl
    rw [h0] at hElen
    omega
  have hsr : s ≤ (encodeFrames r).length := by omega
  have hdata : (encodeFrames rest).take spill ++ fragment
      = [] ++ (encodeFrames mid ++ (encodeFrames r).take s) := by
    rw [hfrag, havail, hE, List.take_append, List.nil_append]
  have htlen : ((encodeFrames r).take s).length = s := by
    rw [List.length_take]; omega
  have hloop := analyzeLoop_frames mid [] ((encodeFrames r).take s) false fuel
    (fun f hf => hvalid f (by rw [hsplit]; simp [hf]))
    (by
      cases r with
      | nil => left; simp [encodeFrames]
      | cons g gs =>
        have hgs := hbound g gs rfl
        right
        refine ⟨g, hvalid g (by rw [hsplit]; simp), g.encode.drop s, ?_, ?_, ?_⟩
        · intro h
          have := congrArg List.length h
          simp at this
          omega
        · rw [encodeFrames_cons, List.take_append_of_le_length (by omega), List.take_append_drop]
        · rw [encodeFrames_cons, List.length_append] at hElen
          simp only [List.length_nil]
          omega)
    (by simp only [List.length_nil, htlen]; omega)
    (by
      have := congrArg List.length hsplit
      rw [List.length_append] at this
      omega)
  have hgood := expectedRead_good mid ((encodeFrames r).take s) false (by
    intro h
    rcases h with h | h
    · exact absurd h (by simp)
    · have : s = 0 := hC (by rw [hc, h])
      rw [this, List.take_zero])
  obtain ⟨events, buffer, hrun, hev, hbuf⟩ := observedRun_eq_some _ _ hloop
  refine ⟨mid, events, buffer, hsplit, ?_, ?_, ?_, hbound, hs0, havail⟩
  · have hlen : ((encodeFrames rest).take spill ++ fragment).length = spill + fragment.length := by
      rw [hfrag, List.length_take]; omega
    have hn5 : ¬ ((encodeFrames rest).take spill ++ fragment).length < MinimumPackageSize := by
      rw [hlen]; simp only [MinimumPackageSize]; omega
    simp only [analyzePacket, if_neg hn5]
    rw [analyzeLoop_entry _ _ _ (by omega) (by omega), hdata]
    exact hrun
  · rw [hev, hgood.1]
  · rw [hbuf, hgood.2]

/-- The reads of a segmentation that no framing guard stops give the whole-buffer parse of the
frames still to come. -/
theorem analyzePackets_good :
    ∀ (fragments : List (List Nat)) (rest : List Frame) (spill fuel : Nat),
      (∀ f ∈ rest, f.valid) → (encodeFrames rest).length < 2 ^ 31 →
      (∀ g gs, rest = g :: gs → spill < g.encode.length) → (rest = [] → spill = 0) →
      fragments.flatten = (encodeFrames rest).drop spill →
      GoodCuts rest spill fragments →
      rest.length < fuel →
      (analyzePackets fuel ((encodeFrames rest).take spill) fragments).map
          (fun r => r.1.map Event.observed)
        = some (expectedTrace rest) := by
  intro fragments
  induction fragments with
  | nil =>
    intro rest spill fuel _ _ hspill _ hflat _ _
    cases rest with
    | nil => simp [analyzePackets, expectedTrace]
    | cons g gs =>
      have h1 := hspill g gs rfl
      have h2 := congrArg List.length hflat
      rw [encodeFrames_cons] at h2
      simp at h2
      omega
  | cons fragment more ih =>
    intro rest spill fuel hvalid hsize hspill hspill0 hflat hgood hfuel
    have hsp : spill ≤ (encodeFrames rest).length := by
      cases rest with
      | nil => rw [hspill0 rfl]; exact Nat.zero_le _
      | cons g gs =>
        have := hspill g gs rfl
        rw [encodeFrames_cons, List.length_append]
        omega
    rw [List.flatten_cons] at hflat
    have hle : spill + fragment.length ≤ (encodeFrames rest).length := by
      have := congrArg List.length hflat
      rw [List.length_append, List.length_drop] at this
      omega
    have hfrag : (encodeFrames rest).take spill ++ fragment
        = (encodeFrames rest).take (spill + fragment.length) := by
      rw [List.take_add]
      congr 1
      have := congrArg (List.take fragment.length) hflat
      rwa [List.take_left] at this
    have hmore : more.flatten = (encodeFrames rest).drop (spill + fragment.length) := by
      have := congrArg (List.drop fragment.length) hflat
      rw [List.drop_left, List.drop_drop] at this
      rw [this]
    obtain ⟨h5, hC, hgood'⟩ := hgood
    obtain ⟨mid, events, buffer, hsplit, hrun, hev, hbuf, hbound, hs0, havail⟩ :=
      analyzePacket_good rest spill fuel fragment hvalid hsize hfrag hle h5 hC hfuel
    generalize (advance rest (spill + fragment.length)).1 = r at *
    generalize (advance rest (spill + fragment.length)).2.1 = s at *
    have hE : encodeFrames rest = encodeFrames mid ++ encodeFrames r := by
      rw [hsplit, encodeFrames_append]
    simp only [analyzePackets, hrun]
    by_cases hclose : Event.close ∈ events
    · have hclose' : Event.close ∈ expectedTrace mid := by
        rw [← hev]; exact (close_mem_observed events).mpr hclose
      rw [if_pos hclose]
      simp only [Option.map_some', hev]
      rw [hsplit, expectedTrace_append, if_pos hclose']
    · have hclose' : Event.close ∉ expectedTrace mid := by
        rw [← hev]; exact fun h => hclose ((close_mem_observed events).mp h)
      rw [if_neg hclose, hbuf, if_neg hclose']
      have hrec := ih r s fuel (fun f hf => hvalid f (by rw [hsplit]; simp [hf]))
        (by rw [hE, List.length_append] at hsize; omega) hbound hs0
        (by rw [hmore, havail, hE, List.drop_append]) hgood'
        (by
          have := congrArg List.length hsplit
          rw [List.length_append] at this
          omega)
      cases hx : analyzePackets fuel ((encodeFrames r).take s) more with
      | none => rw [hx] at hrec; simp at hrec
      | some x =>
        rw [hx] at hrec
        simp only [Option.map_some', Option.some.injEq] at hrec ⊢
        rw [List.map_append, hev, hrec, hsplit, expectedTrace_append, if_neg hclose']

/-- C1, counterexample. Three valid streams on which the events depend on the segmentation.  A
ReadyForQuery frame with status `I`, cut at every byte boundary: the first read finds one
byte, raises "Minimum data packet size error" and closes the connection, whereas the whole
stream in one read takes the frame through the dispatch table.  A CommandComplete frame
followed by a ReadyForQuery frame, cut one byte after the first frame: the first read raises
"Data segmentation error" and closes the connection, whereas the whole stream in one read
takes both frames through the table.  An ErrorResponse frame without the field `V` followed
by a NoticeResponse frame of length 86, cut after byte 23, which no framing guard stops: both
reads dispatch the same frames, but the error handler reads on behind its payload and takes
the importance from the bytes that follow, `SWA` where the read ends there and `SWARNING`
where the whole stream is in the buffer, so the signals emitted differ. -/
theorem segmentation_changes_events :
    encodeFrames [⟨ReadyForQuery, [0x49]⟩] = [0x5a, 0, 0, 0, 5, 0x49] ∧
    (analyzePackets 8 [] [[0x5a], [0], [0], [0], [5], [0x49]]).map
        (fun r => r.1.map Event.observed)
      = some [.error ⟨"", "", "Minimum data packet size error"⟩, .close] ∧
    (analyzePackets 8 [] [[0x5a, 0, 0, 0, 5, 0x49]]).map (fun r => r.1.map Event.observed)
      = some [.frame ReadyForQuery [0x49] 1] ∧
    encodeFrames [⟨CommandCompletion, [0x53, 0]⟩, ⟨ReadyForQuery, [0x49]⟩]
      = [0x43, 0, 0, 0, 6, 0x53, 0, 0x5a, 0, 0, 0, 5, 0x49] ∧
    (analyzePackets 8 [] [[0x43, 0, 0, 0, 6, 0x53, 0, 0x5a], [0, 0, 0, 5, 0x49]]).map
        (fun r => r.1.map Event.observed)
      = some [.frame CommandCompletion [0x53, 0] 2,
          .error ⟨"", "", "Data segmentation error"⟩, .close] ∧
    (analyzePackets 8 [] [[0x43, 0, 0, 0, 6, 0x53, 0, 0x5a, 0, 0, 0, 5, 0x49]]).map
        (fun r => r.1.map Event.observed)
      = some [.frame CommandCompletion [0x53, 0] 2, .frame ReadyForQuery [0x49] 1] ∧
    encodeFrames [⟨ErrorResponse, encodeFields [(0x53, [0x45]), (0x43, [0x34]), (0x4d, [0x78])]⟩,
        ⟨NoticeResponse, encodeFields [(0x53, [0x57, 0x41, 0x52, 0x4e, 0x49, 0x4e, 0x47]),
          (0x56, [0x57, 0x41, 0x52, 0x4e, 0x49, 0x4e, 0x47]), (0x43, [0x30, 0x31, 0x30, 0x30, 0x30]),
          (0x4d, List.replicate 54 0x6d)]⟩]
      = [0x45, 0, 0, 0, 14, 0x53, 0x45, 0, 0x43, 0x34, 0, 0x4d, 0x78, 0, 0,
          0x4e, 0, 0, 0, 86, 0x53, 0x57, 0x41]
        ++ ([0x52, 0x4e, 0x49, 0x4e, 0x47, 0, 0x56, 0x57, 0x41, 0x52, 0x4e, 0x49, 0x4e, 0x47, 0,
          0x43, 0x30, 0x31, 0x30, 0x30, 0x30, 0, 0x4d] ++ List.replicate 54 0x6d ++ [0, 0]) ∧
    GoodCuts [⟨ErrorResponse, encodeFields [(0x53, [0x45]), (0x43, [0x34]), (0x4d, [0x78])]⟩,
        ⟨NoticeResponse, encodeFields [(0x53, [0x57, 0x41, 0x52, 0x4e, 0x49, 0x4e, 0x47]),
          (0x56, [0x57, 0x41, 0x52, 0x4e, 0x49, 0x4e, 0x47]), (0x43, [0x30, 0x31, 0x30, 0x30, 0x30]),
          (0x4d, List.replicate 54 0x6d)]⟩] 0
      [[0x45, 0, 0, 0, 14, 0x53, 0x45, 0, 0x43, 0x34, 0, 0x4d, 0x78, 0, 0,
          0x4e, 0, 0, 0, 86, 0x53, 0x57, 0x41],
        [0x52, 0x4e, 0x49, 0x4e, 0x47, 0, 0x56, 0x57, 0x41, 0x52, 0x4e, 0x49, 0x4e, 0x47, 0,
          0x43, 0x30, 0x31, 0x30, 0x30, 0x30, 0, 0x4d] ++ List.replicate 54 0x6d ++ [0, 0]] ∧
    (Connection.analyzePackets (fun _ => []) 8 Connection.ready
      [[0x45, 0, 0, 0, 14, 0x53, 0x45, 0, 0x43, 0x34, 0, 0x4d, 0x78, 0, 0,
          0x4e, 0, 0, 0, 86, 0x53, 0x57, 0x41],
        [0x52, 0x4e, 0x49, 0x4e, 0x47, 0, 0x56, 0x57, 0x41, 0x52, 0x4e, 0x49, 0x4e, 0x47, 0,
          0x43, 0x30, 0x31, 0x30, 0x30, 0x30, 0, 0x4d] ++ List.replicate 54 0x6d ++ [0, 0]]).map
        (fun d => d.emitted)
      = some [.error ⟨"SWA", "4", "x"⟩,
          .notice ⟨"WARNING", "01000", String.mk (List.replicate 54 'm')⟩] ∧
    (Connection.analyzePackets (fun _ => []) 8 Connection.ready
      [[0x45, 0, 0, 0, 14, 0x53, 0x45, 0, 0x43, 0x34, 0, 0x4d, 0x78, 0, 0,
          0x4e, 0, 0, 0, 86, 0x53, 0x57, 0x41]
        ++ ([0x52, 0x4e, 0x49, 0x4e, 0x47, 0, 0x56, 0x57, 0x41, 0x52, 0x4e, 0x49, 0x4e, 0x47, 0,
          0x43, 0x30, 0x31, 0x30, 0x30, 0x30, 0, 0x4d] ++ List.replicate 54 0x6d ++ [0, 0])]).map
        (fun d => d.emitted)
      = some [.error ⟨"SWARNING", "4", "x"⟩,
          .notice ⟨"WARNING", "01000", String.mk (List.replicate 54 'm')⟩] := by
  decide

/-! ## The task queue -/

theorem completions_append (a b : List Signal) :
    completions (a ++ b) = completions a ++ completions b := by
  simp [completions, List.filterMap_append]

theorem completions_queryError (query : Nat) (errors : List Message) :
    completions (errors.map (Signal.queryError query)) = [] := by
  induction errors with
  | nil => rfl
  | cons e es ih => simp [completions]

/-- Starting the head of the queue changes neither the queue nor a query, and fires no
completion signal. -/
theorem taskFromQueue_keeps (c : Connection) :
    (taskFromQueue c)._tasks = c._tasks ∧ (taskFromQueue c).queries = c.queries ∧
    completions (taskFromQueue c).emitted = completions c.emitted := by
  unfold taskFromQueue
  split
  · exact ⟨rfl, rfl, rfl⟩
  · dsimp only
    split_ifs
    · refine ⟨rfl, rfl, ?_⟩
      simp only [completions_append, completions_queryError, List.append_nil]
    · exact ⟨rfl, rfl, rfl⟩
    · exact ⟨rfl, rfl, rfl⟩

/-- The function `endTask` on a non-empty queue: the head leaves the queue, its completion signal is
emitted, and the new head, if there is one, is started. -/
theorem endTask_cons (c : Connection) (query : Nat) (tasks : List Nat)
    (h : c._tasks = query :: tasks) :
    endTask c
      = if tasks = [] then completeHead c query tasks
        else taskFromQueue (completeHead c query tasks) := by
  unfold endTask completeHead
  rw [h]
  by_cases hp : (c.queries query)._prepare = true ∧ (c.queries query)._bindValues = []
  · have hb : ((c.queries query)._prepare && (c.queries query)._bindValues.isEmpty) = true := by
      simp [hp.1, hp.2]
    cases tasks with
    | nil => simp [hb, hp]
    | cons t ts => simp [hb, hp]
  · have hb : ((c.queries query)._prepare && (c.queries query)._bindValues.isEmpty) = false := by
      rw [Bool.and_eq_false_iff]
      by_cases h1 : (c.queries query)._prepare = true
      · right
        have : (c.queries query)._bindValues ≠ [] := fun h2 => hp ⟨h1, h2⟩
        cases hbv : (c.queries query)._bindValues with
        | nil => exact absurd hbv this
        | cons v vs => rfl
      · left; simpa using h1
    cases tasks with
    | nil => simp [hb, hp]
    | cons t ts => simp [hb, hp]

/-- The function `endTask` takes the head off the queue and fires one completion signal for it; on an
empty queue it does nothing. -/
theorem endTask_queue (c : Connection) :
    (endTask c)._tasks = c._tasks.drop 1 ∧
    completions (endTask c).emitted = completions c.emitted ++ c._tasks.take 1 := by
  cases h : c._tasks with
  | nil => simp [endTask, h]
  | cons query tasks =>
    rw [endTask_cons c query tasks h]
    by_cases ht : tasks = []
    · rw [if_pos ht]
      unfold completeHead
      split_ifs <;> simp [completions_append, completions]
    · rw [if_neg ht]
      obtain ⟨h1, -, h3⟩ := taskFromQueue_keeps (completeHead c query tasks)
      rw [h1, h3]
      unfold completeHead
      split_ifs <;> simp [completions_append, completions]

theorem addQuery_queue (c : Connection) (query : Nat) :
    (addQuery c query)._tasks = c._tasks ++ [query] ∧
    completions (addQuery c query).emitted = completions c.emitted := by
  unfold addQuery
  dsimp only
  split_ifs
  · obtain ⟨h1, -, h3⟩ := taskFromQueue_keeps { c with _tasks := c._tasks ++ [query] }
    exact ⟨h1, h3⟩
  · exact ⟨rfl, rfl⟩

theorem readyForQuery_queue (c : Connection) (data : List Nat) :
    (readyForQuery c data)._tasks
      = (if data.getD 0 0 = Idle ∨ data.getD 0 0 = Transaction then c._tasks.drop 1
          else c._tasks) ∧
    completions (readyForQuery c data).emitted
      = completions c.emitted
        ++ (if data.getD 0 0 = Idle ∨ data.getD 0 0 = Transaction then c._tasks.take 1
            else []) := by
  unfold readyForQuery
  by_cases h1 : data.getD 0 0 = Idle
  · simp only [h1, if_true, true_or]
    exact endTask_queue c
  · by_cases h2 : data.getD 0 0 = Transaction
    · simp only [h1, h2, if_true, if_false, or_true]
      exact endTask_queue c
    · simp only [h1, h2, if_false, or_self, List.append_nil, ite_self, and_self]

/-- A query submitted behind another query waits: nothing is written. -/
theorem addQuery_waits (c : Connection) (head query : Nat) (tasks : List Nat)
    (h : c._tasks = head :: tasks) (hne : head ≠ query) :
    addQuery c query = { c with _tasks := c._tasks ++ [query] } := by
  unfold addQuery
  dsimp only
  rw [if_neg]
  rw [h]
  simpa using hne

/-- A query that is the head of the queue and is submitted again is queued a second time and
started a second time. -/
theorem addQuery_head_again (c : Connection) (query : Nat) (tasks : List Nat)
    (h : c._tasks = query :: tasks) :
    addQuery c query = taskFromQueue { c with _tasks := query :: (tasks ++ [query]) } := by
  unfold addQuery
  dsimp only
  rw [if_pos (by rw [h]; rfl), h]
  rfl

/-- Starting a head query that is not a prepared statement ready to be bound writes one
request to the socket. -/
theorem taskFromQueue_writes (c : Connection) (query : Nat) (tasks : List Nat)
    (h : c._tasks = query :: tasks)
    (hq : (c.queries query)._prepare = false ∨ (c.queries query)._prepareFinished = false) :
    (taskFromQueue c).written.length = c.written.length + 1 := by
  unfold taskFromQueue
  rw [h]
  dsimp only
  rcases hq with hq | hq
  · simp [hq, runQuery]
  · by_cases hp : (c.queries query)._prepare = true
    · simp [hp, hq, runPrepareQuery]
    · simp [hp, runQuery]

/-- C13, failing input. A query is submitted with `exec(sql)` on an idle Connection and
submitted again, with another text, before any frame has come in: the object is queued twice,
it is the head both times, and both requests are written to the socket, with no ReadyForQuery
handled and no completion signal in between.  When the second submission is made through
another `Query` object, that one waits and only the first request is written. -/
theorem resubmitted_head_is_written_twice :
    (Query.execSql Connection.ready 0 "select 1")._tasks = [0] ∧
    (Query.execSql Connection.ready 0 "select 1").written
      = [[Parse] ++ toBigEndian 4 16 ++ [0] ++ toUtf8 "select 1" ++ [0, 0, 0] ++ BDES_msgs] ∧
    (Query.execSql (Query.execSql Connection.ready 0 "select 1") 0 "select 2")._tasks = [0, 0] ∧
    (Query.execSql (Query.execSql Connection.ready 0 "select 1") 0 "select 2").written
      = [[Parse] ++ toBigEndian 4 16 ++ [0] ++ toUtf8 "select 1" ++ [0, 0, 0] ++ BDES_msgs,
         [Parse] ++ toBigEndian 4 16 ++ [0] ++ toUtf8 "select 2" ++ [0, 0, 0] ++ BDES_msgs] ∧
    (Query.execSql (Query.execSql Connection.ready 0 "select 1") 0 "select 2").emitted = [] ∧
    (Query.execSql (Query.execSql Connection.ready 0 "select 1") 1 "select 2")._tasks = [0, 1] ∧
    (Query.execSql (Query.execSql Connection.ready 0 "select 1") 1 "select 2").written
      = [[Parse] ++ toBigEndian 4 16 ++ [0] ++ toUtf8 "select 1" ++ [0, 0, 0] ++ BDES_msgs] := by
  decide

theorem run_cons (c : Connection) (s : Step) (steps : List Step) :
    run c (s :: steps) = run (s.apply c) steps := rfl

theorem run_append (c : Connection) (a b : List Step) : run c (a ++ b) = run (run c a) b := by
  simp [run, List.foldl_append]

theorem submitted_cons (s : Step) (steps : List Step) :
    submitted (s :: steps) = submitted [s] ++ submitted steps := by
  cases s <;> simp [submitted]

/-- Whatever the steps, the queries completed since the start, followed by the queue, are the
queue of the start followed by the queries submitted since. -/
theorem run_queue :
    ∀ (steps : List Step) (c : Connection), (∀ s ∈ steps, s.keepsQueue) →
      ∃ done, completions (run c steps).emitted = completions c.emitted ++ done ∧
        done ++ (run c steps)._tasks = c._tasks ++ submitted steps := by
  intro steps
  induction steps with
  | nil => intro c _; exact ⟨[], by simp [run], by simp [run, submitted]⟩
  | cons s steps ih =>
    intro c hs
    obtain ⟨done, h1, h2⟩ := ih (s.apply c) (fun t ht => hs t (by simp [ht]))
    have hk := hs s (by simp)
    rw [run_cons, submitted_cons]
    cases s with
    | addQuery query =>
      obtain ⟨ht, hc⟩ := addQuery_queue c query
      simp only [Step.apply] at h1 h2 ⊢
      rw [ht] at h2
      rw [hc] at h1
      exact ⟨done, h1, by rw [h2]; simp [submitted]⟩
    | readyForQuery data =>
      obtain ⟨ht, hc⟩ := readyForQuery_queue c data
      simp only [Step.apply] at h1 h2 ⊢
      rw [ht] at h2
      rw [hc] at h1
      by_cases hd : data.getD 0 0 = Idle ∨ data.getD 0 0 = Transaction
      · rw [if_pos hd] at h1 h2
        refine ⟨c._tasks.take 1 ++ done, by rw [h1, List.append_assoc], ?_⟩
        rw [List.append_assoc, h2, ← List.append_assoc, List.take_append_drop]
        simp [submitted]
      · rw [if_neg hd] at h1 h2
        exact ⟨done, by simpa using h1, by rw [h2]; simp [submitted]⟩
    | other f =>
      simp only [Step.apply] at h1 h2 ⊢
      rw [(hk c).1] at h2
      rw [(hk c).2] at h1
      exact ⟨done, h1, by rw [h2]; simp [submitted]⟩

/-- Submissions alone put the queries at the end of the queue, in order, and complete none. -/
theorem run_addQuery :
    ∀ (queries : List Nat) (c : Connection),
      (run c (queries.map Step.addQuery))._tasks = c._tasks ++ queries ∧
      completions (run c (queries.map Step.addQuery)).emitted = completions c.emitted := by
  intro queries
  induction queries with
  | nil => intro c; simp [run]
  | cons q qs ih =>
    intro c
    obtain ⟨h1, h2⟩ := ih (addQuery c q)
    obtain ⟨ht, hc⟩ := addQuery_queue c q
    rw [List.map_cons, run_cons]
    simp only [Step.apply]
    rw [h1, h2, ht, hc]
    simp

/-- Without a submission among the steps, the ReadyForQuery frames with status `I` or `T`
complete the queue from its head, one query each. -/
theorem run_ready :
    ∀ (steps : List Step) (c : Connection), (∀ s ∈ steps, s.keepsQueue) → submitted steps = [] →
      completions (run c steps).emitted
        = completions c.emitted ++ c._tasks.take (readyCount steps) ∧
      (run c steps)._tasks = c._tasks.drop (readyCount steps) := by
  intro steps
  induction steps with
  | nil => intro c _ _; simp [run, readyCount]
  | cons s steps ih =>
    intro c hs hsub
    rw [submitted_cons] at hsub
    have hsub' : submitted steps = [] := (List.append_eq_nil.mp hsub).2
    obtain ⟨h1, h2⟩ := ih (s.apply c) (fun t ht => hs t (by simp [ht])) hsub'
    have hk := hs s (by simp)
    rw [run_cons]
    cases s with
    | addQuery query => simp [submitted] at hsub
    | readyForQuery data =>
      obtain ⟨ht, hc⟩ := readyForQuery_queue c data
      simp only [Step.apply] at h1 h2 ⊢
      rw [ht] at h1 h2
      rw [hc] at h1
      by_cases hd : data.getD 0 0 = Idle ∨ data.getD 0 0 = Transaction
      · have hn : readyCount (Step.readyForQuery data :: steps) = 1 + readyCount steps := by
          unfold readyCount
          rw [List.filter_cons_of_pos (by exact decide_eq_true hd), List.length_cons]
          omega
        simp only [if_pos hd] at h1 h2
        rw [hn, List.take_add, h1, h2, List.append_assoc, List.drop_drop]
        exact ⟨rfl, by rw [Nat.add_comm]⟩
      · have hn : readyCount (Step.readyForQuery data :: steps) = readyCount steps := by
          unfold readyCount
          rw [List.filter_cons_of_neg (by simpa using hd)]
        simp only [if_neg hd] at h1 h2
        rw [hn, h1, h2]
        simp
    | other f =>
      have hn : readyCount (Step.other f :: steps) = readyCount steps := by
        unfold readyCount
        rw [List.filter_cons_of_neg (by simp)]
      simp only [Step.apply] at h1 h2 ⊢
      rw [(hk c).1] at h1 h2
      rw [(hk c).2] at h1
      rw [hn, h1, h2]
      exact ⟨rfl, rfl⟩

/-- C14, as amended. Completion order: on a Connection whose queue is empty, let queries be
submitted and ReadyForQuery frames be handled in any interleaving, with any other steps that
leave the queue alone in between.  Then the queries completed so far are the first `k` of the
queries submitted so far, in submission order, and the queue holds the rest in submission
order.  When all the queries are submitted before the first frame is handled, the number of
queries completed is the number of ReadyForQuery frames with status `I` or `T` handled (at
most all of them): the k-th such frame completes the k-th query. -/
theorem completion_order (c : Connection) (steps : List Step) (hempty : c._tasks = [])
    (hquiet : ∀ s ∈ steps, s.keepsQueue) :
    (∃ k, completions (run c steps).emitted
          = completions c.emitted ++ (submitted steps).take k ∧
        (run c steps)._tasks = (submitted steps).drop k) ∧
    (∀ (queries : List Nat) (later : List Step),
      steps = queries.map Step.addQuery ++ later → submitted later = [] →
      completions (run c steps).emitted
        = completions c.emitted ++ queries.take (readyCount later)) := by
  refine ⟨?_, ?_⟩
  · obtain ⟨done, h1, h2⟩ := run_queue steps c hquiet
    rw [hempty, List.nil_append] at h2
    refine ⟨done.length, ?_, ?_⟩
    · rw [h1, ← h2, List.take_left]
    · rw [← h2, List.drop_left]
  · intro queries later hsteps hsub
    subst hsteps
    obtain ⟨ht, hc⟩ := run_addQuery queries c
    obtain ⟨h1, -⟩ := run_ready later (run c (queries.map Step.addQuery))
      (fun s hs => hquiet s (by simp [hs])) hsub
    rw [run_append, h1, ht, hc, hempty, List.nil_append]

/-- C14, counterexample. A ReadyForQuery frame with status `I` that finds the queue empty, as
the one that ends the handshake does, completes nothing: the query submitted after it is
completed by the second such frame, not by the first. -/
theorem ready_on_empty_queue_completes_nothing :
    completions (run Connection.ready [.readyForQuery [Idle]]).emitted = [] ∧
    completions (run Connection.ready [.readyForQuery [Idle], .addQuery 0]).emitted = [] ∧
    completions (run Connection.ready
      [.readyForQuery [Idle], .addQuery 0, .readyForQuery [Idle]]).emitted = [0] := by
  decide

/-- What `close` leaves as it is. -/
theorem close_keeps (c : Connection) :
    (close c)._tasks = c._tasks ∧ (close c).queries = c.queries ∧
    completions (close c).emitted = completions c.emitted := by
  unfold close
  dsimp only
  split_ifs
  · exact ⟨rfl, rfl, by simp [completions_append, completions]⟩
  · exact ⟨rfl, rfl, rfl⟩
  · exact ⟨rfl, rfl, rfl⟩

/-- C15, as amended. The function `close` leaves the task queue and every query as they are, and emits no
completion signal.  A ReadyForQuery frame handled after `close` therefore does to the queue
what it does without `close`: with status `I` or `T` it takes the head off the queue and emits
its completion signal, and it emits no completion signal only if the queue was empty already
or the status is another one. -/
theorem close_keeps_queue (c : Connection) :
    (close c)._tasks = c._tasks ∧ (close c).queries = c.queries ∧
    completions (close c).emitted = completions c.emitted ∧
    ∀ data : List Nat,
      (readyForQuery (close c) data)._tasks
        = (if data.getD 0 0 = Idle ∨ data.getD 0 0 = Transaction then c._tasks.drop 1
            else c._tasks) ∧
      completions (readyForQuery (close c) data).emitted
        = completions c.emitted
          ++ (if data.getD 0 0 = Idle ∨ data.getD 0 0 = Transaction then c._tasks.take 1
              else []) := by
  obtain ⟨h1, h2, h3⟩ := close_keeps c
  refine ⟨h1, h2, h3, ?_⟩
  intro data
  obtain ⟨k1, k2⟩ := readyForQuery_queue (close c) data
  rw [h1] at k1 k2
  rw [h3] at k2
  exact ⟨k1, k2⟩

/-- C15, counterexample. A query is in flight and a second one waits; after `close()` both are
still queued, and a ReadyForQuery frame with status `I` handled then completes the first and
writes the request of the second. -/
theorem close_leaves_queries_queued :
    (close (Query.execSql (Query.execSql Connection.ready 0 "select 1") 1 "select 2"))._tasks
      = [0, 1] ∧
    (readyForQuery
      (close (Query.execSql (Query.execSql Connection.ready 0 "select 1") 1 "select 2"))
      [Idle]).emitted = [.disconnected, .executeFinished 0] ∧
    (readyForQuery
      (close (Query.execSql (Query.execSql Connection.ready 0 "select 1") 1 "select 2"))
      [Idle]).written
      = [[Parse] ++ toBigEndian 4 16 ++ [0] ++ toUtf8 "select 1" ++ [0, 0, 0] ++ BDES_msgs,
         Termination,
         [Parse] ++ toBigEndian 4 16 ++ [0] ++ toUtf8 "select 2" ++ [0, 0, 0] ++ BDES_msgs] := by
  decide

/-! ## Arity check and decode fallback -/

/-- A count of bound values that differs, after its reduction to 16 bits, from the number of
parameter descriptors is turned down: one error on the error channel of the query, nothing
written. -/
theorem runBindQuery_arity_mismatch (bufferOut : List Nat) (query : Query)
    (h : query._bindValues.length % 2 ^ 16 ≠ query._preparedParametrs.length) :
    (runBindQuery bufferOut query).error
      = [⟨"", "", "Incorrect value binding size: "
          ++ toString (query._bindValues.length % 2 ^ 16) ++ " != "
          ++ toString query._preparedParametrs.length⟩] ∧
    (runBindQuery bufferOut query).written = [] := by
  unfold runBindQuery
  simp only [ne_eq, h, not_false_eq_true, if_true]
  refine ⟨?_, ?_⟩ <;> first | rfl | trivial

/-- A count of bound values that is a multiple of 65536 passes the arity check of a query
without parameter descriptors. -/
theorem runBindQuery_count_wraps (bufferOut : List Nat) (query : Query) (k : Nat)
    (hv : query._bindValues.length = 65536 * k) (hp : query._preparedParametrs = []) :
    runBindQuery bufferOut query
      = ⟨bufferOut ++ [Bind] ++ toBigEndian 4 ((14 + query._stmtName.length) % 2 ^ 32) ++ [0]
            ++ query._stmtName ++ [0] ++ List.replicate 4 0 ++ bin_format ++ ES_msgs, [],
          [bufferOut ++ [Bind] ++ toBigEndian 4 ((14 + query._stmtName.length) % 2 ^ 32) ++ [0]
            ++ query._stmtName ++ [0] ++ List.replicate 4 0 ++ bin_format ++ ES_msgs]⟩ := by
  have h0 : query._bindValues.length % 2 ^ 16 = 0 := by rw [hv]; norm_num
  unfold runBindQuery
  simp only [h0, hp, List.length_nil, ne_eq, not_true_eq_false, if_false, Nat.lt_irrefl]

/-- C11, failing input. A prepared query without parameter descriptors to which 65536 values
are bound: the two counts differ, 65536 against 0, yet `runBindQuery` emits no error and writes
a Bind frame without parameters, followed by Execute and Sync, because the count of bound values
is compared after its conversion to `quint16`. -/
theorem arity_check_truncates_count :
    (List.replicate 65536 (QVariant.int 0)).length = 65536 ∧
    ([] : List Nat).length = 0 ∧
    runBindQuery [] ⟨true, true, [0x73], "", [], [], List.replicate 65536 (.int 0), []⟩
      = ⟨[Bind, 0, 0, 0, 15, 0, 0x73, 0, 0, 0, 0, 0, 0, 1, 0, 1] ++ ES_msgs, [],
          [[Bind, 0, 0, 0, 15, 0, 0x73, 0, 0, 0, 0, 0, 0, 1, 0, 1] ++ ES_msgs]⟩ :=
  ⟨List.length_replicate _ _, rfl,
    (runBindQuery_count_wraps [] _ 1 (List.length_replicate _ _) rfl).trans (by decide)⟩

/-- An OID outside the catalogue selects the default target of a table over the catalogue. -/
theorem gotoPointers_outside_catalogue {L : Type} (dflt : L) (entries : List (List Nat × L))
    (oid : Nat) (h : ∀ e ∈ entries, oid ∉ e.1) : GotoPointers dflt entries oid = dflt := by
  rcases gotoPointers_cases oid entries dflt with h' | ⟨e, he, hidx, -⟩
  · exact h'
  · exact absurd hidx (h e he)

theorem label_bytea_outside_catalogue (oid : Nat) (h : oid ∉ catalogue) :
    GotoPointers Label._BYTEA typeLabels oid = ._BYTEA := by
  apply gotoPointers_outside_catalogue
  intro e he hidx
  apply h
  have hsub : e.1 ∈ TYPES := by
    simp only [typeLabels, List.mem_cons, List.mem_singleton, List.not_mem_nil, or_false] at he
    rcases he with rfl | rfl | rfl | rfl | rfl | rfl | rfl | rfl | rfl | rfl | rfl | rfl | rfl <;>
      simp [TYPES]
  exact List.mem_flatten.mpr ⟨e.1, hsub, hidx⟩

/-- The function `Query::value` on a column that is not NULL: the code selected by the type OID of the
field runs on the bytes of the column, when the column holds all the bytes that code reads. -/
theorem value_present_column (sysOffset : Int → Int) (query : Query) (row col : Nat)
    (columns : List (Option (List Nat)))
    (hrow : query._dataRows[row]? = some (encodeColumns columns))
    (hfit : ∀ c ∈ columns, columnFits c) (b : List Nat) (f : Field)
    (hb : columns[col]? = some (some b)) (hf : query._fields[col]? = some f)
    (hread : bytesRead (GotoPointers Label._BYTEA typeLabels f._typeOID) b.length ≤ b.length) :
    ((encodeColumns columns).drop (columnOffset columns col)).take b.length = b ∧
    Query.value sysOffset query row col
      = decodeColumn sysOffset (GotoPointers Label._BYTEA typeLabels f._typeOID) b b.length := by
  obtain ⟨hs, hl⟩ := getElem?_split columns col (some b) hb
  have hbfit : b.length < 0xFFFFFFFF := hfit (some b) (List.mem_iff_getElem?.mpr ⟨col, hb⟩)
  have hoff : columnOffset columns col = (encodeColumns (columns.take col)).length + 4 := by
    rw [length_encodeColumns]; rfl
  have henc : encodeColumns columns = encodeColumns (columns.take col)
      ++ (toBigEndian 4 b.length ++ (b ++ encodeColumns (columns.drop (col + 1)))) := by
    conv_lhs => rw [hs]
    rw [encodeColumns_append, encodeColumns_cons]
    simp [encodeColumn]
  have hcolf : col < query._fields.length := by
    rcases Nat.lt_or_ge col query._fields.length with h | h
    · exact h
    · rw [List.getElem?_eq_none h] at hf; exact absurd hf (by simp)
  refine ⟨?_, ?_⟩
  · rw [hoff, henc, List.drop_append, drop_toBigEndian_append, List.take_left]
  · have hn : query._fields.length + 1
        = (query._fields.length - col + 1) + (columns.take col).length := by rw [hl]; omega
    have h4 : readBytes (toBigEndian 4 b.length ++ (b ++ encodeColumns (columns.drop (col + 1)))) 4
        = some (toBigEndian 4 b.length) := by
      have := readBytes_append (toBigEndian 4 b.length)
        (b ++ encodeColumns (columns.drop (col + 1)))
      rwa [length_toBigEndian] at this
    have hk : b.length % 256 ^ 4 = b.length := Nat.mod_eq_of_lt (by norm_num; omega)
    have hne : b.length ≠ 4294967295 := by omega
    simp only [Query.value, hrow]
    rw [hn, henc, valueLoop_skip sysOffset _ _ (columns.take col) _ 0 _
      (fun c hc => hfit c (List.mem_of_mem_take hc)) (by intro j hj; simp; omega), hl]
    simp only [Query.valueLoop, h4, fromBigEndian_toBigEndian, hk, drop_toBigEndian_append,
      Nat.zero_add, if_true, hf, if_neg hne]
    by_cases hmax : TypeMax < f._typeOID
    · rw [if_pos hmax]
      rw [label_above_TypeMax _ hmax] at hread ⊢
      exact decodeColumn_local sysOffset _ b _ hread
    · rw [if_neg hmax]
      exact decodeColumn_local sysOffset _ b _ hread

/-- C20. Decode fallback for unknown OIDs: in a stored row made of length-prefixed columns, for
every column `col` that is not NULL, holds the `k` bytes `b` after its length prefix, and whose
field has a type OID that is not one of the 20 catalogue OIDs (whether below or above the
largest of them, 2950), `Query::value(row, col)` returns the raw byte string `b`: exactly the
`k` bytes that follow the prefix in the row. -/
theorem decode_fallback_unknown_oid (sysOffset : Int → Int) (query : Query) (row col : Nat)
    (columns : List (Option (List Nat))) (b : List Nat) (f : Field)
    (hrow : query._dataRows[row]? = some (encodeColumns columns))
    (hfit : ∀ c ∈ columns, columnFits c)
    (hb : columns[col]? = some (some b)) (hf : query._fields[col]? = some f)
    (hoid : f._typeOID ∉ catalogue) :
    Query.value sysOffset query row col = some (.byteArray b) ∧
    ((encodeColumns columns).drop (columnOffset columns col)).take b.length = b ∧
    ((encodeColumns columns).drop (columnOffset columns col - 4)).take 4
      = toBigEndian 4 b.length := by
  have hlabel := label_bytea_outside_catalogue f._typeOID hoid
  obtain ⟨h1, h2⟩ := value_present_column sysOffset query row col columns hrow hfit b f hb hf
    (by rw [hlabel]; exact Nat.le_refl _)
  refine ⟨?_, h1, ?_⟩
  · rw [h2, hlabel]
    simp [decodeColumn, readBytes]
  · obtain ⟨hs, hl⟩ := getElem?_split columns col (some b) hb
    have hoff : columnOffset columns col - 4 = (encodeColumns (columns.take col)).length := by
      rw [length_encodeColumns]; simp [columnOffset]
    have henc : encodeColumns columns = encodeColumns (columns.take col)
        ++ (toBigEndian 4 b.length ++ (b ++ encodeColumns (columns.drop (col + 1)))) := by
      conv_lhs => rw [hs]
      rw [encodeColumns_append, encodeColumns_cons]
      simp [encodeColumn]
    rw [hoff, henc, List.drop_left, take_toBigEndian_append]

/-! ## Server errors and notices -/

theorem cString_append (s rest : List Nat) (h : 0 ∉ s) : cString (s ++ 0 :: rest) = s := by
  induction s with
  | nil => simp [cString]
  | cons a as ih =>
    have ha : a ≠ 0 := fun h0 => h (by simp [h0])
    have has : 0 ∉ as := fun h0 => h (by simp [h0])
    unfold cString at ih ⊢
    rw [List.cons_append, List.takeWhile_cons, if_pos (by simpa using ha), ih has]

theorem length_cString_le (data : List Nat) : (cString data).length ≤ data.length := by
  unfold cString
  induction data with
  | nil => simp
  | cons a as ih =>
    rw [List.takeWhile_cons]
    split_ifs
    · simp only [List.length_cons]; omega
    · simp

/-- The value a field type ends with after the fields of a payload were read in order: the
value of the last field of that type, or the start value when there is none. -/
theorem foldl_field_value (type : Nat) (value : List Nat) :
    ∀ (fields : List (Nat × List Nat)) (start : List Nat),
      (∀ f ∈ fields, f.1 = type → f.2 = value) →
      ((∃ f ∈ fields, f.1 = type) ∨ start = value) →
      fields.foldl (fun acc f => if f.1 = type then f.2 else acc) start = value := by
  intro fields
  induction fields with
  | nil =>
    intro start _ h
    rcases h with ⟨f, hf, -⟩ | h
    · simp at hf
    · simpa using h
  | cons f fs ih =>
    intro start hall h
    rw [List.foldl_cons]
    apply ih _ (fun g hg => hall g (by simp [hg]))
    by_cases hf : f.1 = type
    · right; rw [if_pos hf]; exact hall f (by simp) hf
    · rw [if_neg hf]
      rcases h with ⟨g, hg, hgt⟩ | h
      · left
        rcases List.mem_cons.mp hg with rfl | hg'
        · exact absurd hgt hf
        · exact ⟨g, hg', hgt⟩
      · right; exact h

/-- The loop of `errorOrNoticeResponse` on a payload made of fields and the closing zero byte,
entered at the start of a field: it reads the fields in order, then the closing byte, and stops
there once `v`, `c` and `m` all hold a value. -/
theorem errorOrNoticeLoop_fields :
    ∀ (fields : List (Nat × List Nat)) (pre rest v c m : List Nat) (fuel : Nat),
      (∀ f ∈ fields, 0 ∉ f.2) →
      pre.length + ((fields.flatMap encodeField).length + 1) + rest.length + 2 ≤ 2 ^ 32 →
      fields.length < fuel →
      fields.foldl (fun acc f => if f.1 = ErrorOrNoticeType then f.2 else acc) v ≠ [] →
      fields.foldl (fun acc f => if f.1 = ErrorOrNoticeCode then f.2 else acc) c ≠ [] →
      fields.foldl (fun acc f => if f.1 = ErrorOrNoticeMessage then f.2 else acc) m ≠ [] →
      errorOrNoticeLoop fuel (pre ++ (fields.flatMap encodeField ++ 0 :: rest))
          (pre.length + ((fields.flatMap encodeField).length + 1)) pre.length v c m
        = some (fields.foldl (fun acc f => if f.1 = ErrorOrNoticeType then f.2 else acc) v,
            fields.foldl (fun acc f => if f.1 = ErrorOrNoticeCode then f.2 else acc) c,
            fields.foldl (fun acc f => if f.1 = ErrorOrNoticeMessage then f.2 else acc) m) := by
  intro fields
  induction fields with
  | nil =>
    intro pre rest v c m fuel _ hsize hfuel hv hc hm
    obtain ⟨fuel, rfl⟩ : ∃ k, fuel = k + 1 := ⟨fuel - 1, by simp at hfuel; omega⟩
    simp only [List.flatMap_nil, List.nil_append, List.length_nil, Nat.zero_add,
      List.foldl_nil] at hsize hv hc hm ⊢
    have hlen := length_cString_le rest
    have hget : (pre ++ 0 :: rest).getD pre.length 0 = 0 := by
      rw [List.getD_eq_getElem?_getD, List.getElem?_append_right (le_refl _)]
      simp
    have hp1 : (pre.length + 1) % 2 ^ 32 = pre.length + 1 := Nat.mod_eq_of_lt (by omega)
    have hdrop : (pre ++ 0 :: rest).drop (pre.length + 1) = rest := by
      rw [show pre ++ 0 :: rest = (pre ++ [0]) ++ rest by simp]
      exact List.drop_left' (by simp)
    have hp2 : (pre.length + 1 + (cString rest).length) % 2 ^ 32
        = pre.length + 1 + (cString rest).length := Nat.mod_eq_of_lt (by omega)
    have hp3 : (pre.length + 1 + (cString rest).length + 1) % 2 ^ 32
        = pre.length + 1 + (cString rest).length + 1 := Nat.mod_eq_of_lt (by omega)
    have hnot : ¬ (pre.length + 1 + (cString rest).length + 1 < pre.length + 1 ∨
        (v.length = 0 ∨ c.length = 0 ∨ m.length = 0)) := by
      have h1 : v.length ≠ 0 := fun h => hv (List.length_eq_zero.mp h)
      have h2 : c.length ≠ 0 := fun h => hc (List.length_eq_zero.mp h)
      have h3 : m.length ≠ 0 := fun h => hm (List.length_eq_zero.mp h)
      omega
    have hin : ¬ (pre ++ 0 :: rest).length < pre.length + 1 := by simp
    rw [errorOrNoticeLoop]
    simp only [hin, if_false, hget, hp1, hdrop, hp2, hp3, hnot,
      show (0 = ErrorOrNoticeType) = False by simp [ErrorOrNoticeType],
      show (0 = ErrorOrNoticeCode) = False by simp [ErrorOrNoticeCode],
      show (0 = ErrorOrNoticeMessage) = False by simp [ErrorOrNoticeMessage]]
  | cons f fs ih =>
    intro pre rest v c m fuel hnul hsize hfuel hv hc hm
    obtain ⟨fuel, rfl⟩ : ∃ k, fuel = k + 1 := ⟨fuel - 1, by simp at hfuel; omega⟩
    have hf0 : 0 ∉ f.2 := hnul f (by simp)
    have henc : (f :: fs).flatMap encodeField = f.1 :: (f.2 ++ 0 :: fs.flatMap encodeField) := by
      simp [List.flatMap_cons, encodeField]
    have hlenc : ((f :: fs).flatMap encodeField).length
        = 1 + f.2.length + 1 + (fs.flatMap encodeField).length := by
      rw [henc]; simp; omega
    rw [hlenc] at hsize ⊢
    rw [henc]
    have hdata : pre ++ (f.1 :: (f.2 ++ 0 :: fs.flatMap encodeField) ++ 0 :: rest)
        = (pre ++ encodeField f) ++ (fs.flatMap encodeField ++ 0 :: rest) := by
      simp [encodeField]
    have hget : (pre ++ (f.1 :: (f.2 ++ 0 :: fs.flatMap encodeField) ++ 0 :: rest)).getD
        pre.length 0 = f.1 := by
      rw [List.getD_eq_getElem?_getD, List.getElem?_append_right (le_refl _)]
      simp
    have hp1 : (pre.length + 1) % 2 ^ 32 = pre.length + 1 := Nat.mod_eq_of_lt (by omega)
    have hdrop : (pre ++ (f.1 :: (f.2 ++ 0 :: fs.flatMap encodeField) ++ 0 :: rest)).drop
        (pre.length + 1) = f.2 ++ 0 :: (fs.flatMap encodeField ++ 0 :: rest) := by
      rw [show pre ++ (f.1 :: (f.2 ++ 0 :: fs.flatMap encodeField) ++ 0 :: rest)
        = (pre ++ [f.1]) ++ (f.2 ++ 0 :: (fs.flatMap encodeField ++ 0 :: rest)) by simp]
      exact List.drop_left' (by simp)
    have hp2 : (pre.length + 1 + f.2.length) % 2 ^ 32 = pre.length + 1 + f.2.length :=
      Nat.mod_eq_of_lt (by omega)
    have hp3 : (pre.length + 1 + f.2.length + 1) % 2 ^ 32 = pre.length + 1 + f.2.length + 1 :=
      Nat.mod_eq_of_lt (by omega)
    have hin : ¬ (pre ++ (f.1 :: (f.2 ++ 0 :: fs.flatMap encodeField) ++ 0 :: rest)).length
        < pre.length + 1 := by simp
    have hgo : pre.length + 1 + f.2.length + 1
        < pre.length + (1 + f.2.length + 1 + (fs.flatMap encodeField).length + 1) := by omega
    have hpre : (pre ++ encodeField f).length = pre.length + 1 + f.2.length + 1 := by
      simp [encodeField]; omega
    have hsz : pre.length + (1 + f.2.length + 1 + (fs.flatMap encodeField).length + 1)
        = (pre ++ encodeField f).length + ((fs.flatMap encodeField).length + 1) := by
      rw [hpre]; omega
    rw [errorOrNoticeLoop]
    simp only [hin, if_false, hget, hp1, hdrop, cString_append _ _ hf0, hp2, hp3, hgo, true_or,
      if_true]
    rw [hdata, hsz, ← hpre]
    simp only [List.foldl_cons] at hv hc hm ⊢
    exact ih (pre ++ encodeField f) rest _ _ _ fuel (fun g hg => hnul g (by simp [hg]))
      (by rw [hpre]; omega) (by simp at hfuel; omega) hv hc hm

/-- C16. Server error and notice routing: for every ErrorResponse or NoticeResponse payload made
of fields (type byte, value without NUL, NUL) and the closing zero byte, in which the fields
`V`, `C` and `M` are present with the non-empty values `v`, `code` and `m`, wherever the payload
lies in a buffer shorter than 4 GiB, `errorOrNoticeResponse` returns, builds the Message
(importance `v`, code `code`, message `m`) and emits it as its only signal: on the error
(respectively notice) channel of the head query when the queue is not empty, on the channel of
the Connection when it is empty.  Nothing else of the Connection changes, and so not the
queue. -/
theorem error_and_notice_routing (c : Connection) (fields : List (Nat × List Nat))
    (rest v code m : List Nat) (fuel : Nat)
    (hnul : ∀ f ∈ fields, 0 ∉ f.2)
    (hv : fieldIs fields ErrorOrNoticeType v) (hv0 : v ≠ [])
    (hc : fieldIs fields ErrorOrNoticeCode code) (hc0 : code ≠ [])
    (hm : fieldIs fields ErrorOrNoticeMessage m) (hm0 : m ≠ [])
    (hsize : (encodeFields fields ++ rest).length + 2 ≤ 2 ^ 32)
    (hfuel : fields.length < fuel) :
    (∀ query tasks, c._tasks = query :: tasks →
      errorOrNoticeResponse fuel c (encodeFields fields ++ rest) (encodeFields fields).length
          .Error
        = some { c with emitted := c.emitted
            ++ [.queryError query ⟨fromLatin1 v, fromLatin1 code, fromLatin1 m⟩] } ∧
      errorOrNoticeResponse fuel c (encodeFields fields ++ rest) (encodeFields fields).length
          .Notice
        = some { c with emitted := c.emitted
            ++ [.queryNotice query ⟨fromLatin1 v, fromLatin1 code, fromLatin1 m⟩] }) ∧
    (c._tasks = [] →
      errorOrNoticeResponse fuel c (encodeFields fields ++ rest) (encodeFields fields).length
          .Error
        = some { c with emitted := c.emitted
            ++ [.error ⟨fromLatin1 v, fromLatin1 code, fromLatin1 m⟩] } ∧
      errorOrNoticeResponse fuel c (encodeFields fields ++ rest) (encodeFields fields).length
          .Notice
        = some { c with emitted := c.emitted
            ++ [.notice ⟨fromLatin1 v, fromLatin1 code, fromLatin1 m⟩] }) := by
  have fv := foldl_field_value ErrorOrNoticeType v fields [] hv.2 (Or.inl hv.1)
  have fc := foldl_field_value ErrorOrNoticeCode code fields [] hc.2 (Or.inl hc.1)
  have fm := foldl_field_value ErrorOrNoticeMessage m fields [] hm.2 (Or.inl hm.1)
  have hlen : (encodeFields fields).length = (fields.flatMap encodeField).length + 1 := by
    simp [encodeFields]
  have hloop := errorOrNoticeLoop_fields fields [] rest [] [] [] fuel hnul
    (by
      simp only [encodeFields, List.length_append, List.length_singleton, List.length_nil]
        at hsize ⊢
      omega)
    hfuel (by rw [fv]; exact hv0) (by rw [fc]; exact hc0) (by rw [fm]; exact hm0)
  rw [fv, fc, fm] at hloop
  have hdata : encodeFields fields ++ rest = [] ++ (fields.flatMap encodeField ++ 0 :: rest) := by
    simp [encodeFields]
  have hrun : errorOrNoticeLoop fuel (encodeFields fields ++ rest) (encodeFields fields).length
      0 [] [] [] = some (v, code, m) := by
    rw [hdata, hlen]
    simpa using hloop
  refine ⟨?_, ?_⟩
  · intro query tasks hq
    simp only [errorOrNoticeResponse, hrun, Option.map_some', hq]
    exact ⟨trivial, trivial⟩
  · intro hq
    simp only [errorOrNoticeResponse, hrun, Option.map_some', hq]
    exact ⟨trivial, trivial⟩

/-! ## Fatal frames and leftovers -/

/-- One call of `analyzePacket` on a buffer of at least five bytes made of whole frames followed
by a leftover. -/
theorem analyzePacket_frames (bufferIn input : List Nat) (frames : List Frame) (tail : List Nat)
    (fuel : Nat) (hdata : bufferIn ++ input = encodeFrames frames ++ tail)
    (h5 : 5 ≤ (bufferIn ++ input).length) (hvalid : ∀ f ∈ frames, f.valid)
    (htail : tail = [] ∨ ∃ g : Frame, g.valid ∧ ∃ more, more ≠ [] ∧ g.encode = tail ++ more ∧
      (encodeFrames frames).length + g.encode.length < 2 ^ 31)
    (hsize : (bufferIn ++ input).length < 2 ^ 31) (hfuel : frames.length < fuel) :
    observedRun (analyzePacket fuel bufferIn input) = some (expectedRead frames tail false) := by
  have hn5 : ¬ (bufferIn ++ input).length < MinimumPackageSize := by
    simp only [MinimumPackageSize]; omega
  have hlen : (bufferIn ++ input).length = (encodeFrames frames).length + tail.length := by
    rw [hdata, List.length_append]
  simp only [analyzePacket, if_neg hn5]
  rw [analyzeLoop_entry _ _ _ h5 (by omega), hdata]
  have := analyzeLoop_frames frames [] tail false fuel hvalid
    (by
      rcases htail with h | ⟨g, hg, more, hmore, henc, hbound⟩
      · exact Or.inl h
      · exact Or.inr ⟨g, hg, more, hmore, henc, by simp only [List.length_nil]; omega⟩)
    (by simp only [List.length_nil]; omega) hfuel
  simpa using this

theorem proto_commandCompletion : proto CommandCompletion = ._CommandCompletion := by decide

/-- On frames none of which is fatal, one read dispatches them all and goes on with what
follows, the `complete` flag set once a CommandComplete frame is among them. -/
theorem expectedRead_append :
    ∀ (mid rest : List Frame) (tail : List Nat) (complete : Bool),
      (∀ f ∈ mid, f.fatal = false) →
      expectedRead (mid ++ rest) tail complete
        = (mid.map Frame.event
            ++ (expectedRead rest tail
                (complete || mid.any fun f => decide (f.tag = CommandCompletion))).1,
          (expectedRead rest tail
            (complete || mid.any fun f => decide (f.tag = CommandCompletion))).2) := by
  intro mid
  induction mid with
  | nil => intro rest tail complete _; simp
  | cons f fs ih =>
    intro rest tail complete hf
    have hfs : ∀ g ∈ fs, g.fatal = false := fun g hg => hf g (by simp [hg])
    have hff : f.fatal = false := hf f (by simp)
    have hcc : proto f.tag ≠ ._CommandCompletion → decide (f.tag = CommandCompletion) = false := by
      intro h
      rw [decide_eq_false_iff_not]
      intro ht
      rw [ht] at h
      exact h proto_commandCompletion
    rw [List.cons_append]
    cases hl : proto f.tag
    case _CommandCompletion =>
      have hd : decide (f.tag = CommandCompletion) = true :=
        decide_eq_true (proto_eq_commandCompletion f.tag hl)
      simp only [expectedRead, hl, ih rest tail true hfs, List.map_cons, List.any_cons, hd,
        Bool.true_or, Bool.or_true, List.cons_append, Frame.event]
    case _AuthenticationRequest =>
      have ha : authenticationAccepts f.payload = true := by
        simpa [Frame.fatal, hl] using hff
      have hc := hcc (by rw [hl]; decide)
      simp only [expectedRead, hl, ha, if_true, ih rest tail complete hfs, List.map_cons,
        List.any_cons, hc, Bool.false_or, List.cons_append, Frame.event]
    case _NegotiateProtocolVersion => simp [Frame.fatal, hl] at hff
    case _default => simp [Frame.fatal, hl] at hff
    all_goals
      have hc := hcc (by rw [hl]; decide)
      simp only [expectedRead, hl, ih rest tail complete hfs, List.map_cons, List.any_cons, hc,
        Bool.false_or, List.cons_append, Frame.event]

/-- In the model that takes the tag byte as the table index, a frame whose tag has no handler,
and a NegotiateProtocolVersion frame, end the read: the frames before it are dispatched, one
error is emitted on the Connection, the connection is closed, and no frame after it is
dispatched. -/
theorem analyzePacket_fatal_tag (bufferIn input : List Nat) (before after : List Frame)
    (f : Frame) (tail : List Nat) (fuel : Nat)
    (hdata : bufferIn ++ input = encodeFrames (before ++ f :: after) ++ tail)
    (hvalid : ∀ g ∈ before ++ f :: after, g.valid) (hbefore : ∀ g ∈ before, g.fatal = false)
    (hf : proto f.tag = ._default ∨ f.tag = NegotiateProtocolVersion)
    (htail : tail = [] ∨ ∃ g : Frame, g.valid ∧ ∃ more, more ≠ [] ∧ g.encode = tail ++ more ∧
      (encodeFrames (before ++ f :: after)).length + g.encode.length < 2 ^ 31)
    (hsize : (bufferIn ++ input).length < 2 ^ 31) (hfuel : (before ++ f :: after).length < fuel) :
    observedRun (analyzePacket fuel bufferIn input)
      = some (before.map Frame.event
          ++ [.error ⟨"", "", if f.tag = NegotiateProtocolVersion
                then "Protocol version 3.0 is not supported"
                else "Does not support the type of message in the protocol: "
                  ++ String.singleton (Char.ofNat f.tag)⟩, .close], []) := by
  have h5 : 5 ≤ (bufferIn ++ input).length := by
    rw [hdata, encodeFrames_append, encodeFrames_cons]
    simp only [List.length_append, length_encode]
    omega
  rw [analyzePacket_frames bufferIn input _ tail fuel hdata h5 hvalid htail hsize hfuel,
    expectedRead_append before (f :: after) tail false hbefore]
  rcases hf with hf | hf
  · have hne : f.tag ≠ NegotiateProtocolVersion := by
      intro h; rw [h] at hf; exact absurd hf (by decide)
    simp [expectedRead, hf, hne]
  · have hp : proto f.tag = ._NegotiateProtocolVersion := by rw [hf]; decide
    rw [if_pos hf]
    simp only [expectedRead, hp, Bool.false_or]

/-- C17, failing input. A frame whose tag byte is 0x80 or above is not one of the fifteen
handled tags.  The source indexes the 256-slot `proto` table with `data[pos]`, a `char`: where
`char` is a signed type the index of such a byte is negative (-128 for 0x80) and lies outside
the table, so no jump target is defined, neither the one that emits the error nor any other.
Bytes below 0x80, and all bytes where `char` is unsigned, index the slot of the byte. -/
theorem tag_byte_indexes_outside_table :
    charValue true 0x80 = -128 ∧
    protoSlot (charValue true 0x80) = none ∧
    (∀ byte < 256, 128 ≤ byte → protoSlot (charValue true byte) = none) ∧
    (∀ byte < 128, protoSlot (charValue true byte) = some (proto byte)) ∧
    (∀ byte < 256, protoSlot (charValue false byte) = some (proto byte)) ∧
    proto 0x80 = ._default := by
  refine ⟨by decide, by decide, ?_, ?_, ?_, by decide⟩
  · intro byte h1 h2
    have h : toSigned 8 byte = (byte : Int) - 256 := by
      unfold toSigned
      have hm : byte % 2 ^ 8 = byte := Nat.mod_eq_of_lt (by norm_num; omega)
      rw [hm, if_neg (by norm_num; omega)]
      norm_num
    simp only [charValue, if_true, h, protoSlot]
    rw [if_neg (by omega)]
  · intro byte h1
    have h : toSigned 8 byte = (byte : Int) := by
      unfold toSigned
      have hm : byte % 2 ^ 8 = byte := Nat.mod_eq_of_lt (by norm_num; omega)
      rw [hm, if_pos (by norm_num; omega)]
    simp only [charValue, if_true, h, protoSlot]
    rw [if_pos (by omega)]
    simp
  · intro byte h1
    have hm : byte % 2 ^ 8 = byte := Nat.mod_eq_of_lt (by norm_num; omega)
    simp only [charValue, Bool.false_eq_true, if_false, hm, protoSlot]
    rw [if_pos (by omega)]
    simp

/-- C18, as amended. Failure after CommandComplete: take a read whose buffer (spill and new
bytes, at least 5 bytes, the stream shorter than 2^31 bytes) is made of whole frames that are all
dispatched (7-bit tags, none fatal) followed by a non-empty leftover that is a proper prefix of
one more frame.  If a CommandComplete frame is among the whole frames, all of them are
dispatched, then one fatal error is emitted on the Connection and the connection is closed:
"Protocol message size error" when the leftover holds 5 bytes or more, "Data segmentation error"
when it holds fewer.  If no CommandComplete frame is among them, no error is emitted and the
leftover is the new spill buffer. -/
theorem failure_after_command_complete (bufferIn input : List Nat) (frames : List Frame)
    (tail more : List Nat) (g : Frame) (fuel : Nat)
    (hdata : bufferIn ++ input = encodeFrames frames ++ tail)
    (h5 : 5 ≤ (bufferIn ++ input).length)
    (hframes : ∀ f ∈ frames, f.valid ∧ f.fatal = false)
    (htail : tail ≠ []) (hg : g.valid) (hmore : more ≠ []) (henc : g.encode = tail ++ more)
    (hsize : (encodeFrames frames).length + g.encode.length < 2 ^ 31)
    (hfuel : frames.length < fuel) :
    ((∃ f ∈ frames, f.tag = CommandCompletion) →
      (observedRun (analyzePacket fuel bufferIn input)).map Prod.fst
        = some (frames.map Frame.event
            ++ [.error ⟨"", "", if 5 ≤ tail.length then "Protocol message size error"
                  else "Data segmentation error"⟩, .close])) ∧
    ((∀ f ∈ frames, f.tag ≠ CommandCompletion) →
      observedRun (analyzePacket fuel bufferIn input) = some (frames.map Frame.event, tail)) := by
  have hlt : tail.length < g.encode.length := by
    have := congrArg List.length henc
    rw [List.length_append] at this
    have : 0 < more.length := List.length_pos.mpr hmore
    omega
  have hrun := analyzePacket_frames bufferIn input frames tail fuel hdata h5
    (fun f hf => (hframes f hf).1) (Or.inr ⟨g, hg, more, hmore, henc, hsize⟩)
    (by rw [hdata, List.length_append]; omega) hfuel
  have happ := expectedRead_append frames [] tail false (fun f hf => (hframes f hf).2)
  rw [List.append_nil] at happ
  rw [hrun, happ]
  refine ⟨?_, ?_⟩
  · intro hcc
    have hany : (frames.any fun f => decide (f.tag = CommandCompletion)) = true := by
      rw [List.any_eq_true]
      obtain ⟨f, hf, ht⟩ := hcc
      exact ⟨f, hf, by simpa using ht⟩
    by_cases h : 5 ≤ tail.length
    · have h' : MinimumPackageSize ≤ tail.length := h
      simp [hany, expectedRead, htail, h, h']
    · have h' : ¬ MinimumPackageSize ≤ tail.length := h
      simp [hany, expectedRead, htail, h, h']
  · intro hno
    have hany : (frames.any fun f => decide (f.tag = CommandCompletion)) = false := by
      rw [List.any_eq_false]
      intro f hf
      simpa using hno f hf
    simp [hany, expectedRead, htail]

/-- C18, counterexample. A read that dispatches a CommandComplete frame and is left with the
first five bytes of a ReadyForQuery frame emits "Protocol message size error", not "Data
segmentation error"; and a read of three bytes on an empty spill buffer, in which no
CommandComplete frame was dispatched, emits the error "Minimum data packet size error" for its
leftover and closes. -/
theorem leftover_raises_other_errors :
    observedRun (analyzePacket 3 [] [0x43, 0, 0, 0, 6, 0x53, 0, 0x5a, 0, 0, 0, 5])
      = some ([.frame CommandCompletion [0x53, 0] 2,
          .error ⟨"", "", "Protocol message size error"⟩, .close], []) ∧
    analyzePacket 3 [] [0x5a, 0, 0]
      = some ([.error ⟨"", "", "Minimum data packet size error"⟩, .close], []) := by
  decide

/-- C19, as amended. Residual retention: for every buffer (spill and new bytes) of at least 5
bytes that is made of whole frames that are all dispatched (7-bit tags, none fatal) and none of
which is a CommandComplete, followed by a leftover that is empty or a proper prefix of one more
frame, the stream with that frame shorter than 2^31 bytes, `analyzePacket` returns, dispatches
exactly the whole frames in order, each with its payload, emits no error, and leaves the
leftover, and so nothing when there is none, in the spill buffer. -/
theorem residual_retention (bufferIn input : List Nat) (frames : List Frame) (tail : List Nat)
    (fuel : Nat) (hdata : bufferIn ++ input = encodeFrames frames ++ tail)
    (h5 : 5 ≤ (bufferIn ++ input).length)
    (hframes : ∀ f ∈ frames, f.valid ∧ f.fatal = false ∧ f.tag ≠ CommandCompletion)
    (htail : tail = [] ∨ ∃ g : Frame, g.valid ∧ ∃ more, more ≠ [] ∧ g.encode = tail ++ more ∧
      (encodeFrames frames).length + g.encode.length < 2 ^ 31)
    (hsize : (bufferIn ++ input).length < 2 ^ 31) (hfuel : frames.length < fuel) :
    observedRun (analyzePacket fuel bufferIn input) = some (frames.map Frame.event, tail) := by
  have hrun := analyzePacket_frames bufferIn input frames tail fuel hdata h5
    (fun f hf => (hframes f hf).1) htail hsize hfuel
  have happ := expectedRead_append frames [] tail false (fun f hf => (hframes f hf).2.1)
  rw [List.append_nil] at happ
  have hany : (frames.any fun f => decide (f.tag = CommandCompletion)) = false := by
    rw [List.any_eq_false]
    intro f hf
    simpa using (hframes f hf).2.2
  rw [hrun, happ]
  by_cases ht : tail = []
  · simp [hany, expectedRead, ht]
  · simp [hany, expectedRead, ht]

/-- C19, counterexample. Two buffers of at least 5 bytes, each one whole frame that is not a
CommandComplete followed by the first three bytes of a ReadyForQuery frame: after a
NegotiateProtocolVersion frame, and after an authentication request for a clear-text password
(type 3), an error is emitted, the connection is closed and the spill buffer is left empty. -/
theorem residual_dropped_after_fatal_frame :
    analyzePacket 3 [] ([0x76, 0, 0, 0, 12, 0, 0, 0, 0, 0, 0, 0, 0] ++ [0x5a, 0, 0])
      = some ([.error ⟨"", "", "Protocol version 3.0 is not supported"⟩, .close], []) ∧
    observedRun (analyzePacket 3 [] ([0x52, 0, 0, 0, 8, 0, 0, 0, 3] ++ [0x5a, 0, 0]))
      = some ([.frame AuthenticationRequest [0, 0, 0, 3] 4,
          .error ⟨"", "", "Authorization error"⟩, .close], []) := by
  decide

/-! ## The Bind frame -/

/-- One pass of the parameter loop for a type OID of the catalogue: a four-byte length and that
many value bytes are appended, and the length is added to `size`. -/
theorem bindStep_catalogue (oid : Nat) (value : QVariant) (hoid : oid ∈ catalogue)
    (hdata : parameterSize oid value < 2 ^ 32) :
    ¬ TypeMax < oid ∧
    ∃ bytes, bytes.length = parameterSize oid value ∧
      bindStep (GotoPointers Label._default typeLabels oid) oid value
        = some (toBigEndian 4 (parameterSize oid value) ++ bytes,
            parameterSize oid value % 2 ^ 32) := by
  rw [catalogue_eq.1] at hoid
  simp only [List.mem_cons, List.mem_singleton, List.not_mem_nil, or_false] at hoid
  rcases hoid with rfl | rfl | rfl | rfl | rfl | rfl | rfl | rfl | rfl | rfl | rfl | rfl | rfl
    | rfl | rfl | rfl | rfl | rfl | rfl | rfl
  all_goals refine ⟨by decide, ?_⟩
  -- BOOL
  · exact ⟨[if value.toBool then 1 else 0], rfl, rfl⟩
  -- INT2
  · exact ⟨toBigEndian 2 (toUnsigned 16 value.toInt), length_toBigEndian _ _, rfl⟩
  -- INT4 and its relatives
  · exact ⟨toBigEndian 4 (toUnsigned 32 value.toInt), length_toBigEndian _ _, rfl⟩
  · exact ⟨toBigEndian 4 (toUnsigned 32 value.toInt), length_toBigEndian _ _, rfl⟩
  · exact ⟨toBigEndian 4 (toUnsigned 32 value.toInt), length_toBigEndian _ _, rfl⟩
  · exact ⟨toBigEndian 4 (toUnsigned 32 value.toInt), length_toBigEndian _ _, rfl⟩
  · exact ⟨toBigEndian 4 (toUnsigned 32 value.toInt), length_toBigEndian _ _, rfl⟩
  -- INT8
  · exact ⟨toBigEndian 8 (toUnsigned 64 value.toLongLong), length_toBigEndian _ _, rfl⟩
  -- FLOAT4, FLOAT8
  · exact ⟨toBigEndian 4 value.toFloat, length_toBigEndian _ _, rfl⟩
  · exact ⟨toBigEndian 8 value.toDouble, length_toBigEndian _ _, rfl⟩
  -- DATE, TIME
  · exact ⟨toBigEndian 4 (toUnsigned 32 (daysTo2000 value.toDate)), length_toBigEndian _ _, rfl⟩
  · exact ⟨toBigEndian 8 (toUnsigned 64 (value.toTimeMSecs * 1000)), length_toBigEndian _ _, rfl⟩
  -- TIMETZ
  · refine ⟨toBigEndian 8 (toUnsigned 64 ((value.toDateTime.getD ⟨0, 0, 0⟩).time * 1000))
      ++ toBigEndian 4 (toUnsigned 32 (-(value.toDateTime.getD ⟨0, 0, 0⟩).offsetFromUtc)), ?_, ?_⟩
    · rw [List.length_append, length_toBigEndian, length_toBigEndian]; rfl
    · rw [← List.append_assoc]; rfl
  -- TIMESTAMP
  · exact ⟨_, length_toBigEndian 8 _, rfl⟩
  · exact ⟨_, length_toBigEndian 8 _, rfl⟩
  -- BYTEA
  · exact ⟨value.toByteArray, rfl, rfl⟩
  -- TEXT
  · exact ⟨value.toByteArray, rfl, rfl⟩
  · exact ⟨value.toByteArray, rfl, rfl⟩
  · exact ⟨value.toByteArray, rfl, rfl⟩
  -- UUID
  · refine ⟨value.toUuidRfc4122, ?_, rfl⟩
    cases value <;> simp [QVariant.toUuidRfc4122, parameterSize, BOOL, INT2, INT4, FLOAT4, DATE,
      INT8, FLOAT8, TIME, TIMESTAMP, TIMETZ, UUID, _BOOLOID, _INT2OID, _INT4OID, _OIDOID,
      _REGPROCOID, _XIDOID, _CIDOID, _FLOAT4OID, _DATEOID, _INT8OID, _FLOAT8OID, _TIMEOID,
      _TIMESTAMPOID, _TIMESTAMPTZOID, _TIMETZOID, _UUIDOID]

/-- The bytes the parameter loop appends for one parameter. -/
theorem bindLoop_catalogue_step (params : List Nat) (oid : Nat) (value : QVariant)
    (values : List QVariant) (i : Nat) (bufferOut : List Nat) (size : Nat)
    (hget : params.getD i 0 = oid) (hoid : oid ∈ catalogue)
    (hdata : parameterSize oid value < 2 ^ 32) :
    ∃ bytes, bytes.length = parameterSize oid value ∧
      bindLoop params (value :: values) i bufferOut size
        = bindLoop params values (i + 1)
            (bufferOut ++ (toBigEndian 4 (parameterSize oid value) ++ bytes))
            ((size + parameterSize oid value) % 2 ^ 32) := by
  obtain ⟨hmax, bytes, hlen, hstep⟩ := bindStep_catalogue oid value hoid hdata
  refine ⟨bytes, hlen, ?_⟩
  rw [bindLoop]
  simp only [hget, if_neg hmax, hstep, Nat.add_mod_mod]

/-- C21. Parameter length prefix: for every type OID of the catalogue and every bound value
(whose data, for BYTEA and TEXT, is shorter than 2^32 bytes), at any position of the parameter
loop of `runBindQuery` the bytes appended for that parameter are the four-byte big-endian length
`k` followed by exactly `k` value bytes, where `k` is 1 for BOOL, 2 for INT2, 4 for INT4, FLOAT4
and DATE, 8 for INT8, FLOAT8, TIME and TIMESTAMP, 12 for TIMETZ, 16 for UUID, and the byte
length of the data for BYTEA and TEXT. -/
theorem parameter_length_prefix (oid : Nat) (value : QVariant) (hoid : oid ∈ catalogue)
    (hdata : value.toByteArray.length < 2 ^ 32) :
    ∃ k bytes, bytes.length = k ∧
      (∀ (params : List Nat) (values : List QVariant) (i : Nat) (bufferOut : List Nat)
          (size : Nat), params.getD i 0 = oid →
        ∃ n, bindLoop params (value :: values) i bufferOut size
          = bindLoop params values (i + 1) (bufferOut ++ (toBigEndian 4 k ++ bytes)) n) ∧
      (oid ∈ BOOL → k = 1) ∧ (oid ∈ INT2 → k = 2) ∧
      (oid ∈ INT4 ∨ oid ∈ FLOAT4 ∨ oid ∈ DATE → k = 4) ∧
      (oid ∈ INT8 ∨ oid ∈ FLOAT8 ∨ oid ∈ TIME ∨ oid ∈ TIMESTAMP → k = 8) ∧
      (oid ∈ TIMETZ → k = 12) ∧ (oid ∈ UUID → k = 16) ∧
      (oid ∈ BYTEA ∨ oid ∈ TEXT → k = value.toByteArray.length) := by
  have hsize : parameterSize oid value < 2 ^ 32 := by
    unfold parameterSize
    split_ifs <;> first | exact hdata | norm_num
  obtain ⟨hmax, bytes, hlen, hstep⟩ := bindStep_catalogue oid value hoid hsize
  refine ⟨parameterSize oid value, bytes, hlen, ?_, ?_⟩
  · intro params values i bufferOut size hget
    refine ⟨(size + parameterSize oid value) % 2 ^ 32, ?_⟩
    rw [bindLoop]
    simp only [hget, if_neg hmax, hstep, Nat.add_mod_mod]
  · rw [catalogue_eq.1] at hoid
    simp only [List.mem_cons, List.mem_singleton, List.not_mem_nil, or_false] at hoid
    rcases hoid with rfl | rfl | rfl | rfl | rfl | rfl | rfl | rfl | rfl | rfl | rfl | rfl | rfl
      | rfl | rfl | rfl | rfl | rfl | rfl | rfl <;>
    · refine ⟨?_, ?_, ?_, ?_, ?_, ?_, ?_⟩ <;> intro h <;>
        first
        | rfl
        | exact absurd h (by decide)

theorem parameterSizes_cons (p : Nat) (ps : List Nat) (v : QVariant) (vs : List QVariant) :
    parameterSizes (p :: ps) (v :: vs) = parameterSize p v + parameterSizes ps vs := by
  simp [parameterSizes]

/-- The parameter loop over type OIDs of the catalogue: it ends without an error, has appended
four bytes and the value bytes for every parameter, and has added the value sizes to `size`. -/
theorem bindLoop_catalogue (params : List Nat) :
    ∀ (values : List QVariant) (ps : List Nat) (i : Nat) (bufferOut : List Nat) (size : Nat),
      params.drop i = ps → values.length = ps.length → (∀ oid ∈ ps, oid ∈ catalogue) →
      parameterSizes ps values < 2 ^ 32 → size < 2 ^ 32 →
      ∃ bytes, bytes.length = 4 * values.length + parameterSizes ps values ∧
        bindLoop params values i bufferOut size
          = ⟨bufferOut ++ bytes, (size + parameterSizes ps values) % 2 ^ 32, none⟩ := by
  intro values
  induction values with
  | nil =>
    intro ps i bufferOut size _ hlen _ _ hsz
    have : ps = [] := List.length_eq_zero.mp hlen.symm
    subst this
    refine ⟨[], by simp [parameterSizes], ?_⟩
    simp only [bindLoop, parameterSizes, List.zip_nil_right, List.map_nil, List.sum_nil,
      Nat.add_zero, List.append_nil, Nat.mod_eq_of_lt hsz]
  | cons v vs ih =>
    intro ps i bufferOut size hdrop hlen hcat hsum hsz
    cases ps with
    | nil => simp at hlen
    | cons p ps =>
      obtain ⟨hget, hdrop'⟩ := drop_eq_cons params i p 0 ps hdrop
      rw [parameterSizes_cons] at hsum ⊢
      obtain ⟨bytes, hb, hstep⟩ := bindLoop_catalogue_step params p v vs i bufferOut size hget
        (hcat p (by simp)) (by omega)
      obtain ⟨more, hm, hrest⟩ := ih ps (i + 1)
        (bufferOut ++ (toBigEndian 4 (parameterSize p v) ++ bytes))
        ((size + parameterSize p v) % 2 ^ 32) hdrop' (by simpa using hlen)
        (fun oid h => hcat oid (by simp [h])) (by omega) (Nat.mod_lt _ (by norm_num))
      refine ⟨toBigEndian 4 (parameterSize p v) ++ bytes ++ more, ?_, ?_⟩
      · simp only [List.length_append, length_toBigEndian, hb, hm, List.length_cons]
        omega
      · rw [hstep, hrest]
        simp only [List.append_assoc, Nat.mod_add_mod, Nat.add_assoc]

/-- C22. Patched Bind length: for every statement name and every list of `n` bound values
(`n < 65536`, as many as parameter descriptors) whose parameter OIDs are all in the catalogue,
the frame staying below 2^32 bytes, `runBindQuery` emits no error and writes one buffer: the
Bind frame followed immediately by the Execute and Sync frames.  The Bind frame starts with the
tag, its bytes 1..4 hold the big-endian number of bytes of the frame minus one, and that number
is 14 + |name| + 6n + the sum of the value sizes. -/
theorem bind_length_patched (query : Query)
    (harity : query._bindValues.length = query._preparedParametrs.length)
    (hcount : query._bindValues.length < 65536)
    (hcat : ∀ oid ∈ query._preparedParametrs, oid ∈ catalogue)
    (hsize : 14 + query._stmtName.length + 6 * query._bindValues.length
      + parameterSizes query._preparedParametrs query._bindValues < 2 ^ 32) :
    ∃ frame,
      runBindQuery [] query = ⟨frame ++ ES_msgs, [], [frame ++ ES_msgs]⟩ ∧
      frame.take 1 = [Bind] ∧
      (frame.drop 1).take 4 = toBigEndian 4 (frame.length - 1) ∧
      frame.length - 1 = 14 + query._stmtName.length + 6 * query._bindValues.length
        + parameterSizes query._preparedParametrs query._bindValues := by
  have hmod : query._bindValues.length % 2 ^ 16 = query._preparedParametrs.length := by
    rw [harity]; exact Nat.mod_eq_of_lt (by rw [← harity]; norm_num; omega)
  have h14 : (14 + query._stmtName.length) % 2 ^ 32 = 14 + query._stmtName.length :=
    Nat.mod_eq_of_lt (by omega)
  by_cases hpos : 0 < query._preparedParametrs.length
  · obtain ⟨bytes, hb, hloop⟩ := bindLoop_catalogue query._preparedParametrs query._bindValues
      query._preparedParametrs 0
      ([] ++ [Bind] ++ toBigEndian 4 (14 + query._stmtName.length) ++ [0] ++ query._stmtName
        ++ [0] ++ toBigEndian 2 query._preparedParametrs.length
        ++ (List.replicate query._bindValues.length (toBigEndian 2 1)).flatten
        ++ toBigEndian 2 query._preparedParametrs.length)
      ((14 + query._stmtName.length
        + (query._preparedParametrs.length * 2 + query._preparedParametrs.length * 4)) % 2 ^ 32)
      (by simp) harity hcat (by omega) (Nat.mod_lt _ (by norm_num))
    have hfinal : ((14 + query._stmtName.length
        + (query._preparedParametrs.length * 2 + query._preparedParametrs.length * 4)) % 2 ^ 32
        + parameterSizes query._preparedParametrs query._bindValues) % 2 ^ 32
        = 14 + query._stmtName.length + 6 * query._bindValues.length
          + parameterSizes query._preparedParametrs query._bindValues := by
      rw [Nat.mod_add_mod, harity]
      have : 14 + query._stmtName.length
          + (query._preparedParametrs.length * 2 + query._preparedParametrs.length * 4)
          + parameterSizes query._preparedParametrs query._bindValues
          = 14 + query._stmtName.length + 6 * query._preparedParametrs.length
            + parameterSizes query._preparedParametrs query._bindValues := by omega
      rw [this]
      exact Nat.mod_eq_of_lt (by rw [← harity]; exact hsize)
    have hflat : ((List.replicate query._bindValues.length (toBigEndian 2 1)).flatten).length
        = 2 * query._bindValues.length := by
      simp [List.length_flatten, length_toBigEndian, Nat.mul_comm]
    refine ⟨[Bind] ++ toBigEndian 4 (14 + query._stmtName.length + 6 * query._bindValues.length
        + parameterSizes query._preparedParametrs query._bindValues)
      ++ ([0] ++ query._stmtName ++ [0] ++ toBigEndian 2 query._preparedParametrs.length
        ++ (List.replicate query._bindValues.length (toBigEndian 2 1)).flatten
        ++ toBigEndian 2 query._preparedParametrs.length ++ bytes) ++ bin_format, ?_, ?_, ?_, ?_⟩
    · unfold runBindQuery
      simp only [hmod, h14, ne_eq, not_true_eq_false, if_false, if_pos hpos, hloop, hfinal]
      have hd : ∀ rest : List Nat,
          ([] ++ [Bind] ++ toBigEndian 4 (14 + query._stmtName.length) ++ rest).drop 5
            = rest := by
        intro rest
        exact List.drop_left' (by simp [length_toBigEndian])
      have ht : ∀ rest : List Nat,
          ([] ++ [Bind] ++ toBigEndian 4 (14 + query._stmtName.length) ++ rest).take 1
            = [Bind] := by
        intro rest; simp
      have hshape : [] ++ [Bind] ++ toBigEndian 4 (14 + query._stmtName.length) ++ [0]
            ++ query._stmtName ++ [0] ++ toBigEndian 2 query._preparedParametrs.length
            ++ (List.replicate query._bindValues.length (toBigEndian 2 1)).flatten
            ++ toBigEndian 2 query._preparedParametrs.length ++ bytes
          = [] ++ [Bind] ++ toBigEndian 4 (14 + query._stmtName.length)
            ++ ([0] ++ query._stmtName ++ [0] ++ toBigEndian 2 query._preparedParametrs.length
              ++ (List.replicate query._bindValues.length (toBigEndian 2 1)).flatten
              ++ toBigEndian 2 query._preparedParametrs.length ++ bytes) := by
        simp only [List.append_assoc]
      rw [hshape, hd, ht]
    · simp
    · rw [List.append_assoc, List.append_assoc, List.singleton_append, List.drop_one,
        List.tail_cons, take_toBigEndian_append]
      congr 1
      simp only [List.length_append, List.length_cons, List.length_nil, length_toBigEndian, hflat,
        hb, bin_format]
      omega
    · simp only [List.length_append, List.length_cons, List.length_nil, length_toBigEndian, hflat,
        hb, bin_format]
      omega
  · have hp0 : query._preparedParametrs.length = 0 := by omega
    have hv0 : query._bindValues.length = 0 := by omega
    have hsum : parameterSizes query._preparedParametrs query._bindValues = 0 := by
      rw [List.length_eq_zero.mp hp0]; simp [parameterSizes]
    refine ⟨[Bind] ++ toBigEndian 4 (14 + query._stmtName.length)
      ++ ([0] ++ query._stmtName ++ [0] ++ List.replicate 4 0) ++ bin_format, ?_, ?_, ?_, ?_⟩
    · unfold runBindQuery
      simp only [hmod, h14, ne_eq, not_true_eq_false, if_false, if_neg hpos, List.nil_append,
        List.append_assoc]
    · simp
    · rw [List.append_assoc, List.append_assoc, List.singleton_append, List.drop_one,
        List.tail_cons, take_toBigEndian_append]
      congr 1
      simp only [List.length_append, List.length_cons, List.length_nil, length_toBigEndian,
        List.length_replicate, bin_format]
      omega
    · simp only [List.length_append, List.length_cons, List.length_nil, length_toBigEndian,
        List.length_replicate, bin_format, hv0, hsum]
      omega

/-! ## The handshake messages -/

theorem length_toHex (bytes : List Nat) : (toHex bytes).length = 2 * bytes.length := by
  induction bytes with
  | nil => rfl
  | cons b bs ih =>
    simp only [toHex, List.flatMap_cons, List.length_append, List.length_cons, List.length_nil]
      at ih ⊢
    omega

theorem isLowerHex_hexDigit (d : Nat) (h : d < 16) : isLowerHex (hexDigit d) := by
  unfold isLowerHex hexDigit
  split_ifs <;> omega

theorem isLowerHex_toHex (bytes : List Nat) : ∀ d ∈ toHex bytes, isLowerHex d := by
  intro d hd
  simp only [toHex, List.mem_flatMap, List.mem_cons, List.mem_singleton, List.not_mem_nil,
    or_false] at hd
  obtain ⟨b, -, rfl | rfl⟩ := hd
  · exact isLowerHex_hexDigit _ (Nat.mod_lt _ (by norm_num))
  · exact isLowerHex_hexDigit _ (Nat.mod_lt _ (by norm_num))

/-- What `makeStarupMessage` hands to the socket: the scratch buffer with the startup message
appended. -/
theorem makeStarupMessage_written (c : Connection)
    (hsize : 25 + c._user.length + c._database.length < 2 ^ 32) :
    (makeStarupMessage c).written
      = c.written ++ [c._bufferOut ++ startupMessage c._user c._database] := by
  have hver : toBigEndian 2 3 ++ [0, 0] = [0, 3, 0, 0] := by decide
  obtain ⟨bufferIn, bufferOut, connected, written, user, password, db, ps, pid, key, auth, tasks,
    queries, stmt, emitted⟩ := c
  simp only at hsize
  cases db with
  | nil =>
    simp only [List.length_nil] at hsize
    simp [makeStarupMessage, startupMessage, hver, length_toBigEndian]
    congr 1
    omega
  | cons d ds =>
    simp only [List.length_cons] at hsize
    simp [makeStarupMessage, startupMessage, hver, length_toBigEndian]
    congr 1
    omega

/-- The bytes that `makeStarupMessage` appends to the scratch buffer `_bufferOut` before it
writes the buffer and empties it, for user and database names together shorter than 2^32 - 25
bytes: a 4-byte big-endian length equal to the number of bytes appended, the version bytes
00 03 00 00, `user` NUL user NUL, `database` NUL database NUL if and only if the database name
is not empty, and one final NUL.  The write is the content the buffer had on entry followed by
these bytes. -/
theorem startup_message_layout (c : Connection)
    (hsize : 25 + c._user.length + c._database.length < 2 ^ 32) :
    (makeStarupMessage c).written
      = c.written ++ [c._bufferOut ++ startupMessage c._user c._database] ∧
    (makeStarupMessage c)._bufferOut = [] ∧
    (c._bufferOut = [] →
      (makeStarupMessage c).written = c.written ++ [startupMessage c._user c._database]) ∧
    (startupMessage c._user c._database).take 4
      = toBigEndian 4 (startupMessage c._user c._database).length ∧
    (startupMessage c._user c._database).drop 4
      = [0, 3, 0, 0] ++ [0x75, 0x73, 0x65, 0x72, 0] ++ c._user ++ [0]
        ++ (if c._database = [] then []
            else [0x64, 0x61, 0x74, 0x61, 0x62, 0x61, 0x73, 0x65, 0] ++ c._database ++ [0])
        ++ [0] := by
  have hmain := makeStarupMessage_written c hsize
  refine ⟨hmain, rfl, ?_, ?_, ?_⟩
  · intro hb
    rw [hmain, hb, List.nil_append]
  · unfold startupMessage
    simp only [take_toBigEndian_append, List.length_append, length_toBigEndian]
  · unfold startupMessage
    simp only [drop_toBigEndian_append]

/-- The bytes that `authentication` appends to the scratch buffer `_bufferOut` on an
AuthenticationMD5Password payload (the type 5 and four salt bytes), for every function `md5` to
16 bytes, before it writes the buffer, empties it and returns true: the frame `p`, the
big-endian length 40, the bytes `md5`, the 32 lowercase hexadecimal digits of
`md5(hex(md5(password ++ user)) ++ salt)` and a final NUL, 41 bytes.  The write is the content
the buffer had on entry followed by these bytes. -/
theorem password_message_layout (md5 : List Nat → List Nat) (c : Connection)
    (salt rest : List Nat) (hmd5 : ∀ x, (md5 x).length = 16) (hsalt : salt.length = 4) :
    authentication md5 c (toBigEndian 4 MD5password ++ salt ++ rest)
      = some (true, { c with
          _bufferOut := []
          written := c.written
            ++ [c._bufferOut ++ passwordMessage md5 c._user c._password salt] }) ∧
    passwordMessage md5 c._user c._password salt
      = [0x70] ++ toBigEndian 4 40 ++ [0x6d, 0x64, 0x35]
        ++ toHex (md5 (toHex (md5 (c._password ++ c._user)) ++ salt)) ++ [0] ∧
    (toHex (md5 (toHex (md5 (c._password ++ c._user)) ++ salt))).length = 32 ∧
    (∀ d ∈ toHex (md5 (toHex (md5 (c._password ++ c._user)) ++ salt)), isLowerHex d) ∧
    (passwordMessage md5 c._user c._password salt).length = 41 := by
  have hhex : (toHex (md5 (toHex (md5 (c._password ++ c._user)) ++ salt))).length = 32 := by
    rw [length_toHex, hmd5]
  have hmsg : passwordMessage md5 c._user c._password salt
      = [0x70] ++ toBigEndian 4 40 ++ [0x6d, 0x64, 0x35]
        ++ toHex (md5 (toHex (md5 (c._password ++ c._user)) ++ salt)) ++ [0] := by
    simp [passwordMessage, hhex]
  refine ⟨?_, hmsg, hhex, isLowerHex_toHex _, ?_⟩
  · have h4 : readBytes (toBigEndian 4 MD5password ++ salt ++ rest) 4
        = some (toBigEndian 4 MD5password) := by
      have h := readBytes_append (toBigEndian 4 MD5password) (salt ++ rest)
      rwa [length_toBigEndian, ← List.append_assoc] at h
    have hd : (toBigEndian 4 MD5password ++ salt ++ rest).drop 4 = salt ++ rest := by
      rw [List.append_assoc, drop_toBigEndian_append]
    have hs : readBytes (salt ++ rest) 4 = some salt := by
      rw [← hsalt]; exact readBytes_append salt rest
    have ht : fromBigEndian (toBigEndian 4 MD5password) = MD5password := by decide
    rw [hmsg]
    simp only [authentication, h4, hd, hs, ht, if_true, List.length_append, List.length_cons,
      List.length_nil, hhex]
    simp [List.append_assoc, PasswordMessage]
  · rw [hmsg]
    simp [length_toBigEndian, hhex]

/-! ## The session state -/

theorem sameSession_refl (c : Connection) : c.sameSession c := ⟨rfl, rfl, rfl, rfl⟩

theorem sameSession_trans {c d e : Connection} (h1 : c.sameSession d) (h2 : d.sameSession e) :
    c.sameSession e :=
  ⟨h2.1.trans h1.1, h2.2.1.trans h1.2.1, h2.2.2.1.trans h1.2.2.1, h2.2.2.2.trans h1.2.2.2⟩

theorem agrees_of_sameSession {c d : Connection} {s : Session} (h : c.sameSession d)
    (ha : c.agrees s) : d.agrees s := by
  obtain ⟨h1, h2, h3, h4⟩ := h
  unfold Connection.agrees at ha ⊢
  rw [h1, h2, h3, h4]
  exact ha

theorem taskFromQueue_sameSession (c : Connection) : c.sameSession (taskFromQueue c) := by
  unfold taskFromQueue
  split
  · exact sameSession_refl c
  · dsimp only
    split_ifs <;> exact ⟨rfl, rfl, rfl, rfl⟩

theorem endTask_sameSession (c : Connection) : c.sameSession (endTask c) := by
  unfold endTask
  split
  · exact sameSession_refl c
  · dsimp only
    split_ifs
    · exact sameSession_trans (d := _) ⟨rfl, rfl, rfl, rfl⟩ (taskFromQueue_sameSession _)
    · exact ⟨rfl, rfl, rfl, rfl⟩
    · exact sameSession_trans (d := _) ⟨rfl, rfl, rfl, rfl⟩ (taskFromQueue_sameSession _)
    · exact ⟨rfl, rfl, rfl, rfl⟩

theorem readyForQuery_sameSession (c : Connection) (data : List Nat) :
    c.sameSession (readyForQuery c data) := by
  unfold readyForQuery
  dsimp only
  split_ifs
  · exact endTask_sameSession c
  · exact endTask_sameSession c
  · exact sameSession_refl c
  · exact sameSession_refl c

theorem dataRow_sameSession {c d : Connection} {data : List Nat} {size : Nat}
    (h : dataRow c data size = some d) : c.sameSession d := by
  unfold dataRow at h
  split at h
  · exact absurd h (by simp)
  · cases hr : readBytes (data.drop 2) ((size + 2 ^ 32 - 2) % 2 ^ 32) with
    | none => rw [hr] at h; exact absurd h (by simp)
    | some row =>
      rw [hr] at h
      simp only [Option.map_some', Option.some.injEq] at h
      subst h
      exact ⟨rfl, rfl, rfl, rfl⟩

theorem rowDescription_sameSession {c d : Connection} {data : List Nat}
    (h : rowDescription c data = some d) : c.sameSession d := by
  unfold rowDescription at h
  cases hq : c._tasks with
  | nil => rw [hq] at h; exact absurd h (by simp)
  | cons query tasks =>
    rw [hq] at h
    cases hb : readBytes data 2 with
    | none => rw [hb] at h; exact absurd h (by simp)
    | some b =>
      rw [hb] at h
      cases hr : rowDescriptionLoop (fromBigEndian b) data 2 (c.queries query)._fields with
      | none => simp only [hr] at h; exact absurd h (by simp)
      | some fields =>
        simp only [hr, Option.map_some', Option.some.injEq] at h
        subst h
        exact ⟨rfl, rfl, rfl, rfl⟩

theorem preparedParametrs_sameSession {c d : Connection} {data : List Nat} {size : Nat}
    (h : preparedParametrs c data size = some d) : c.sameSession d := by
  unfold preparedParametrs at h
  cases hb : readBytes data 2 with
  | none => rw [hb] at h; exact absurd h (by simp)
  | some b =>
    rw [hb] at h
    by_cases h0 : fromBigEndian b = 0
    · simp only [h0, if_true, Option.some.injEq] at h
      subst h
      exact sameSession_refl c
    · simp only [h0, if_false] at h
      cases hq : c._tasks with
      | nil => rw [hq] at h; exact absurd h (by simp)
      | cons query tasks =>
        rw [hq] at h
        cases hr : parameterOids (fromBigEndian b) (data.drop 2) with
        | none => simp only [hr] at h; exact absurd h (by simp)
        | some oids =>
          simp only [hr, Option.map_some', Option.some.injEq] at h
          subst h
          exact ⟨rfl, rfl, rfl, rfl⟩

theorem errorOrNoticeResponse_sameSession {fuel : Nat} {c d : Connection} {data : List Nat}
    {size : Nat} {type : ErrorOrNotice}
    (h : errorOrNoticeResponse fuel c data size type = some d) : c.sameSession d := by
  unfold errorOrNoticeResponse at h
  cases hr : errorOrNoticeLoop fuel data size 0 [] [] [] with
  | none => rw [hr] at h; exact absurd h (by simp)
  | some r =>
    rw [hr] at h
    simp only [Option.map_some', Option.some.injEq] at h
    subst h
    split <;> exact ⟨rfl, rfl, rfl, rfl⟩

theorem readBytes_eq_some {data b : List Nat} {n : Nat} (h : readBytes data n = some b) :
    b = data.take n := by
  unfold readBytes at h
  split_ifs at h
  simp only [Option.some.injEq] at h
  exact h.symm

theorem authentication_agrees {md5 : List Nat → List Nat} {c d : Connection} {s : Session}
    {data : List Nat} {r : Bool} (ha : c.agrees s)
    (h : authentication md5 c data = some (r, d)) :
    d.agrees (if fromBigEndian (data.take 4) = AuthenticationSucces
      then { s with authenticated := true } else s) := by
  unfold authentication at h
  cases hb : readBytes data 4 with
  | none => rw [hb] at h; exact absurd h (by simp)
  | some b =>
    have hbe := readBytes_eq_some hb
    subst hbe
    rw [hb] at h
    dsimp only at h
    by_cases h5 : fromBigEndian (data.take 4) = MD5password
    · have hne : fromBigEndian (data.take 4) ≠ AuthenticationSucces := by
        rw [h5]; decide
      rw [if_pos h5] at h
      rw [if_neg hne]
      cases hs : readBytes (data.drop 4) 4 with
      | none => rw [hs] at h; exact absurd h (by simp)
      | some salt =>
        rw [hs] at h
        simp only [Option.some.injEq, Prod.mk.injEq] at h
        obtain ⟨_, h⟩ := h
        subst h
        exact agrees_of_sameSession ⟨rfl, rfl, rfl, rfl⟩ ha
    · rw [if_neg h5] at h
      by_cases h0 : fromBigEndian (data.take 4) = AuthenticationSucces
      · rw [if_pos h0] at h
        rw [if_pos h0]
        simp only [Option.some.injEq, Prod.mk.injEq] at h
        obtain ⟨_, h⟩ := h
        subst h
        exact ⟨fun _ => rfl, ha.2.1, ha.2.2⟩
      · rw [if_neg h0] at h
        rw [if_neg h0]
        simp only [Option.some.injEq, Prod.mk.injEq] at h
        obtain ⟨_, h⟩ := h
        subst h
        exact ha

theorem parameterStatus_agrees {c d : Connection} {s : Session} {data : List Nat}
    (ha : c.agrees s) (h : parameterStatus c data = some d) :
    d.agrees { s with parameters := true } := by
  unfold parameterStatus at h
  dsimp only at h
  split_ifs at h with hl hk
  · simp only [Option.some.injEq] at h
    subst h
    refine ⟨ha.1, ⟨fun _ => rfl, fun _ => ?_⟩, ha.2.2⟩
    intro hnil
    dsimp only at hnil
    rw [List.map_eq_nil_iff] at hnil
    rw [hnil] at hk
    simp at hk
  · simp only [Option.some.injEq] at h
    subst h
    refine ⟨ha.1, ⟨fun _ => rfl, fun _ => ?_⟩, ha.2.2⟩
    simp

theorem backendKeyData_agrees {c d : Connection} {s : Session} {data : List Nat}
    (ha : c.agrees s) (h : backendKeyData c data = some d) :
    d.agrees { s with
      identity := (fromBigEndian (data.take 4), fromBigEndian ((data.drop 4).take 4)) } := by
  unfold backendKeyData at h
  cases hb : readBytes data 8 with
  | none => rw [hb] at h; exact absurd h (by simp)
  | some b =>
    have hbe := readBytes_eq_some hb
    subst hbe
    rw [hb] at h
    simp only [Option.map_some', Option.some.injEq] at h
    subst h
    refine ⟨ha.1, ha.2.1, ?_⟩
    simp [List.take_take, List.drop_take]

theorem close_agrees {c : Connection} {s : Session} (ha : c.agrees s) :
    (close c).agrees { s with identity := (0, 0) } := by
  unfold close
  dsimp only
  split_ifs <;> exact ⟨ha.1, ha.2.1, rfl⟩

theorem dispatch_agrees {md5 : List Nat → List Nat} {fuel : Nat} {c d : Connection}
    {s : Session} (e : Event) (ha : c.agrees s) (h : dispatch md5 fuel c e = some d) :
    d.agrees (s.step e) := by
  cases e with
  | frame tag data size =>
    unfold dispatch at h
    unfold Session.step
    dsimp only at h ⊢
    revert h
    have keep : ∀ {x : Connection}, some c = some x → x.agrees s := by
      intro x h
      simp only [Option.some.injEq] at h
      subst h
      exact ha
    cases proto tag <;> dsimp only <;> intro h
    case _DataRow => exact agrees_of_sameSession (dataRow_sameSession h) ha
    case _ParameterDescription =>
      exact agrees_of_sameSession (preparedParametrs_sameSession h) ha
    case _RowDescription => exact agrees_of_sameSession (rowDescription_sameSession h) ha
    case _ReadyForQuery =>
      simp only [Option.some.injEq] at h
      subst h
      exact agrees_of_sameSession (readyForQuery_sameSession c data) ha
    case _CommandCompletion => exact keep h
    case _ErrorResponse =>
      exact agrees_of_sameSession (errorOrNoticeResponse_sameSession h) ha
    case _NoticeResponse =>
      exact agrees_of_sameSession (errorOrNoticeResponse_sameSession h) ha
    case _ParameterStatus => exact parameterStatus_agrees ha h
    case _AuthenticationRequest =>
      cases hr : authentication md5 c data with
      | none => rw [hr] at h; exact absurd h (by simp)
      | some r =>
        rw [hr] at h
        simp only [Option.map_some', Option.some.injEq] at h
        subst h
        exact authentication_agrees ha hr
    case _BackendKeyData => exact backendKeyData_agrees ha h
    case _NegotiateProtocolVersion => exact keep h
    case _default => exact keep h
    case _next => exact keep h
  | error m =>
    simp only [dispatch, Option.some.injEq] at h
    subst h
    exact ha
  | close =>
    simp only [dispatch, Option.some.injEq] at h
    subst h
    exact close_agrees ha

theorem dispatchAll_agrees {md5 : List Nat → List Nat} {fuel : Nat} (events : List Event) :
    ∀ {c d : Connection} {s : Session}, c.agrees s → dispatchAll md5 fuel c events = some d →
      d.agrees (events.foldl Session.step s) := by
  induction events with
  | nil =>
    intro c d s ha h
    simp only [dispatchAll, Option.some.injEq] at h
    subst h
    exact ha
  | cons e es ih =>
    intro c d s ha h
    unfold dispatchAll at h
    cases hd : dispatch md5 fuel c e with
    | none => rw [hd] at h; exact absurd h (by simp)
    | some c1 =>
      rw [hd] at h
      exact ih (dispatch_agrees e ha hd) h

theorem act_agrees {md5 : List Nat → List Nat} {fuel : Nat} {s t : Connection × List Event}
    (a : Act) (ha : s.1.agrees (sessionOf s.2)) (h : Connection.act md5 fuel s a = some t) :
    t.1.agrees (sessionOf t.2) := by
  cases a with
  | read input =>
    unfold Connection.act at h
    dsimp only at h
    cases hp : TinyPG.analyzePacket fuel s.1._bufferIn input with
    | none => rw [hp] at h; exact absurd h (by simp)
    | some r =>
      obtain ⟨events, bufferIn⟩ := r
      rw [hp] at h
      dsimp only at h
      cases hd : dispatchAll md5 fuel { s.1 with _bufferIn := [] } events with
      | none => simp only [hd] at h; exact absurd h (by simp)
      | some c1 =>
        simp only [hd, Option.map_some', Option.some.injEq] at h
        subst h
        have h0 : Connection.agrees { s.1 with _bufferIn := [] } (sessionOf s.2) :=
          agrees_of_sameSession ⟨rfl, rfl, rfl, rfl⟩ ha
        have h1 := dispatchAll_agrees events h0 hd
        unfold sessionOf
        rw [List.foldl_append]
        exact agrees_of_sameSession ⟨rfl, rfl, rfl, rfl⟩ h1
  | close =>
    simp only [Connection.act, Option.some.injEq] at h
    subst h
    unfold sessionOf
    rw [List.foldl_append]
    exact close_agrees ha

theorem acts_agrees {md5 : List Nat → List Nat} {fuel : Nat} (acts : List Act) :
    ∀ {s t : Connection × List Event}, s.1.agrees (sessionOf s.2) →
      Connection.acts md5 fuel s acts = some t → t.1.agrees (sessionOf t.2) := by
  induction acts with
  | nil =>
    intro s t ha h
    simp only [Connection.acts, Option.some.injEq] at h
    subst h
    exact ha
  | cons a as ih =>
    intro s t ha h
    unfold Connection.acts at h
    cases hd : Connection.act md5 fuel s a with
    | none => rw [hd] at h; exact absurd h (by simp)
    | some s1 =>
      rw [hd] at h
      exact ih (act_agrees a ha hd) h

/-- C25, as amended. Authentication invariant: start from a Connection as its constructor
leaves it (flag false, no session parameter, process id and secret key zero) and let the
socket deliver any reads, with any calls of `close` in between.  In every state so reached
the authenticated flag is true only if an AuthenticationOk frame has been dispatched, the
session-parameter map is non-empty exactly if a ParameterStatus frame has been dispatched,
and the backend identity is the process id and secret key of the last BackendKeyData frame
dispatched since the last `close`, and zero if there is none. -/
theorem session_follows_frames (md5 : List Nat → List Nat) (fuel : Nat) (c0 : Connection)
    (acts : List Act) (c : Connection) (events : List Event)
    (h0 : c0._auth_success = false ∧ c0._parametersStatus = [] ∧ c0._pid = 0 ∧ c0._key = 0)
    (hrun : Connection.acts md5 fuel (c0, []) acts = some (c, events)) :
    (c._auth_success = true → (sessionOf events).authenticated = true) ∧
    (c._parametersStatus ≠ [] ↔ (sessionOf events).parameters = true) ∧
    (c._pid, c._key) = (sessionOf events).identity := by
  obtain ⟨h1, h2, h3, h4⟩ := h0
  have hstart : Connection.agrees (c0, ([] : List Event)).1 (sessionOf (c0, []).2) := by
    refine ⟨fun h => ?_, ⟨fun h => absurd h2 h, fun h => ?_⟩, ?_⟩
    · rw [h1] at h; exact absurd h (by decide)
    · exact absurd (show false = true from h) (by decide)
    · show (c0._pid, c0._key) = (0, 0)
      rw [h3, h4]
  exact acts_agrees acts hstart hrun

/-- C25, the claim as stated fails. With only the AuthenticationOk frame read, the
authenticated flag is true while the session-parameter map is empty and process id and secret
key are zero; and after a whole handshake (AuthenticationOk, ParameterStatus `a` = `b`,
BackendKeyData 1 and 2, ReadyForQuery) a call of `close` leaves the flag true with process id
and secret key back at zero. -/
theorem authenticated_without_parameters_or_identity :
    ((Connection.acts (fun _ => []) 3 ({ Connection.fresh with connected := true }, [])
        [.read [0x52, 0, 0, 0, 8, 0, 0, 0, 0]]).map
      fun s => (s.1._auth_success, s.1._parametersStatus, s.1._pid, s.1._key))
      = some (true, [], 0, 0) ∧
    ((Connection.acts (fun _ => []) 6 ({ Connection.fresh with connected := true }, [])
        [.read ([0x52, 0, 0, 0, 8, 0, 0, 0, 0] ++ [0x53, 0, 0, 0, 8, 0x61, 0, 0x62, 0]
          ++ [0x4b, 0, 0, 0, 12, 0, 0, 0, 1, 0, 0, 0, 2] ++ [0x5a, 0, 0, 0, 5, 0x49]),
         .close]).map
      fun s => (s.1._auth_success, s.1._parametersStatus, s.1._pid, s.1._key))
      = some (true, [("a", "b")], 0, 0) := by
  decide

/-! ## Field lists, bounded parsing and the frame loop at their failing inputs -/

/-- The loop of `rowDescription` started on a field list that is not empty: the fields it reads
come after the ones already there. -/
theorem rowDescriptionLoop_from (n : Nat) :
    ∀ (data : List Nat) (pos : Nat) (old fields : List Field),
      rowDescriptionLoop n data pos (old ++ fields)
        = (rowDescriptionLoop n data pos fields).map fun new => old ++ new := by
  induction n with
  | zero => intro data pos old fields; rfl
  | succ n ih =>
    intro data pos old fields
    unfold rowDescriptionLoop
    by_cases hl : data.length < pos
    · simp only [if_pos hl, Option.map_none']
    · simp only [if_neg hl]
      cases hb : readBytes
          (data.drop (((pos + (cString (data.drop pos)).length) % 2 ^ 32 + 1) % 2 ^ 32)) 18 with
      | none => rfl
      | some b =>
        dsimp only
        rw [List.append_assoc, ih]

/-- C26. Field list after a second run: whatever the field list holds when `rowDescription`
starts, the loop leaves it in place and puts the descriptors of the payload behind it.  So a
query run with `exec(sql)` that gets a RowDescription with the one column `a` (type OID 23,
size 4) has that one descriptor as its field list; when it has completed at ReadyForQuery, is
run again with `exec()` and gets the same RowDescription again, its field list holds the
descriptor twice, and `columnCount()` is 2 where the payload has one field entry. -/
theorem rerun_appends_to_field_list :
    (∀ (n : Nat) (data : List Nat) (pos : Nat) (old : List Field),
      rowDescriptionLoop n data pos old
        = (rowDescriptionLoop n data pos []).map fun new => old ++ new) ∧
    ((rowDescription (Query.execSql Connection.ready 0 "select 1 as a")
        ([0, 1] ++ [0x61, 0]
          ++ [0, 0, 0, 0, 0, 0, 0, 0, 0, 23, 0, 4, 0xff, 0xff, 0xff, 0xff, 0, 1])).map
      fun c => (c.queries 0)._fields) = some [⟨"a", 0, 0, 23, 4, -1, 1⟩] ∧
    (((rowDescription (Query.execSql Connection.ready 0 "select 1 as a")
        ([0, 1] ++ [0x61, 0]
          ++ [0, 0, 0, 0, 0, 0, 0, 0, 0, 23, 0, 4, 0xff, 0xff, 0xff, 0xff, 0, 1])).bind
      fun c => rowDescription (Query.exec (readyForQuery c [Idle]) 0)
        ([0, 1] ++ [0x61, 0]
          ++ [0, 0, 0, 0, 0, 0, 0, 0, 0, 23, 0, 4, 0xff, 0xff, 0xff, 0xff, 0, 1])).map
      fun c => (c.queries 0)._fields)
      = some [⟨"a", 0, 0, 23, 4, -1, 1⟩, ⟨"a", 0, 0, 23, 4, -1, 1⟩] := by
  refine ⟨fun n data pos old => ?_, by decide, by decide⟩
  have h := rowDescriptionLoop_from n data pos old []
  rwa [List.append_nil] at h

/-- C27. Error parsing past the payload: the payload with the fields S `E`, C `4`, M `x` and no
field V, of size 10.  At the end of the buffer, and also with a ReadyForQuery frame behind it,
the loop of `errorOrNoticeResponse` goes on reading until it is past the end of the buffer, so
it returns nothing whatever the fuel; with the bytes `N` NUL `V` `X` NUL behind the payload it
returns, and reports the string `X` read at offset 13 as the field V. -/
theorem error_parser_reads_past_payload :
    (∀ fuel, errorOrNoticeLoop fuel (encodeFields [(0x53, [0x45]), (0x43, [0x34]), (0x4d, [0x78])])
      10 0 [] [] [] = none) ∧
    (∀ fuel, errorOrNoticeLoop fuel
      (encodeFields [(0x53, [0x45]), (0x43, [0x34]), (0x4d, [0x78])] ++ [0x5a, 0, 0, 0, 5, 0x49])
      10 0 [] [] [] = none) ∧
    errorOrNoticeLoop 5
      (encodeFields [(0x53, [0x45]), (0x43, [0x34]), (0x4d, [0x78])] ++ [0x4e, 0, 0x56, 0x58, 0])
      10 0 [] [] [] = some ([0x58], [0x34], [0x78]) := by
  refine ⟨?_, ?_, by decide⟩
  · intro fuel
    match fuel with
    | 0 => rfl
    | 1 => rfl
    | 2 => rfl
    | 3 => rfl
    | 4 => rfl
    | n + 5 => rfl
  · intro fuel
    match fuel with
    | 0 => rfl
    | 1 => rfl
    | 2 => rfl
    | 3 => rfl
    | 4 => rfl
    | 5 => rfl
    | 6 => rfl
    | n + 7 => rfl

/-- C28. The frame loop on the length 0xFFFFFFFF: the buffer holds the frame `1` of length 4
and then the tag `1` with the length field FF FF FF FF.  At position 5 the test
`data.size() <= pos + size` compares 10 with 4, the frame is dispatched, and `pos += size;
pos++` gives 5 again: with whatever fuel, `analyzePacket` does not return. -/
theorem frame_loop_stays_at_wrapping_length :
    ∀ fuel, analyzePacket fuel [] [0x31, 0, 0, 0, 4, 0x31, 0xff, 0xff, 0xff, 0xff] = none := by
  have hloop : ∀ fuel,
      analyzeLoop fuel true [0x31, 0, 0, 0, 4, 0x31, 0xff, 0xff, 0xff, 0xff] 5 false = none := by
    intro fuel
    induction fuel with
    | zero => rfl
    | succ n ih =>
      have hstep : analyzeLoop (n + 1) true [0x31, 0, 0, 0, 4, 0x31, 0xff, 0xff, 0xff, 0xff] 5 false
          = (analyzeLoop n true [0x31, 0, 0, 0, 4, 0x31, 0xff, 0xff, 0xff, 0xff] 5 false).map
              fun r => (Event.frame 0x31 [] 4294967291 :: r.1, r.2) := by rfl
      rw [hstep, ih]; rfl
  intro fuel
  cases fuel with
  | zero => rfl
  | succ n =>
    have hstep : analyzePacket (n + 1) [] [0x31, 0, 0, 0, 4, 0x31, 0xff, 0xff, 0xff, 0xff]
        = (analyzeLoop n true [0x31, 0, 0, 0, 4, 0x31, 0xff, 0xff, 0xff, 0xff] 5 false).map
            fun r => (Event.frame 0x31 [0x31, 0xff, 0xff, 0xff, 0xff] 0 :: r.1, r.2) := by rfl
    rw [hstep, hloop]; rfl

/-- C29. Frames dispatched outside the buffer: the five bytes `D` 00 00 00 00 carry the length
0, and `analyzePacket` dispatches the frame with the payload pointer at the end of the buffer
and the payload size 4294967292; the DataRow handler then has 4294967290 bytes to copy from
there and the model has no result for it.  With the length FF FF FF FF at position 5 the sum
`pos + size` wraps to 4 and the frame `R` is dispatched with the size 4294967291, though
`pos + 1 + L` is far beyond the 14 bytes of the buffer. -/
theorem frame_dispatched_outside_buffer :
    analyzePacket 2 [] [0x44, 0, 0, 0, 0]
      = some ([.frame DataRow [] 4294967292], [0, 0, 0, 0]) ∧
    (Connection.analyzePacket (fun _ => []) 2
      (Query.execSql Connection.ready 0 "select 1") [0x44, 0, 0, 0, 0]).isSome = false ∧
    analyzePacket 3 [] [0x31, 0, 0, 0, 4, 0x52, 0xff, 0xff, 0xff, 0xff, 0, 0, 0, 9]
      = some ([.frame 0x31 [0x52, 0xff, 0xff, 0xff, 0xff, 0, 0, 0, 9] 0,
               .frame 0x52 [0, 0, 0, 9] 4294967291,
               .error ⟨"", "", "Authorization error"⟩, .close], []) := by
  decide

/-- C30. Head lookup on an empty queue: an authenticated Connection with no query submitted
reads a DataRow frame (or RowDescription, or ParameterDescription with one OID).  The framer
dispatches the frame, and the handler calls `_tasks.head()` on the empty queue, for which the
model has no result; a ParameterDescription with the count zero never calls it. -/
theorem head_lookup_on_empty_queue :
    analyzePacket 2 [] [0x44, 0, 0, 0, 6, 0, 0] = some ([.frame DataRow [0, 0] 2], []) ∧
    (Connection.analyzePacket (fun _ => []) 2 Connection.ready [0x44, 0, 0, 0, 6, 0, 0]).isSome
      = false ∧
    (Connection.analyzePacket (fun _ => []) 2 Connection.ready [0x54, 0, 0, 0, 6, 0, 0]).isSome
      = false ∧
    (Connection.analyzePacket (fun _ => []) 2 Connection.ready
      [0x74, 0, 0, 0, 10, 0, 1, 0, 0, 0, 23]).isSome = false ∧
    (Connection.analyzePacket (fun _ => []) 2 Connection.ready [0x74, 0, 0, 0, 6, 0, 0]).isSome
      = true ∧
    (Connection.analyzePacket (fun _ => []) 2 (Query.execSql Connection.ready 0 "select 1")
      [0x44, 0, 0, 0, 6, 0, 0]).isSome = true := by
  decide

/-! ## Bound values -/

theorem bindValue_eq_some (db : Connection) (query : Query) (index : Int) (value : StdVariant)
    (hfin : query._prepareFinished = true) (h0 : 0 ≤ index)
    (hm : index ≤ query._bindValues.length) :
    Query.bindValue (some db) query index value
      = some { query with
          _bindValues :=
            query._bindValues.insertIdx index.toNat (QVariant.fromStdVariant value) } := by
  simp [Query.bindValue, QVector.insert, hfin, h0, hm]

theorem bindAll_ascending (db : Connection) (values : List StdVariant) :
    ∀ query : Query, query._prepareFinished = true →
      Query.bindAll (some db) query (ascending query._bindValues.length values)
        = some { query with
            _bindValues := query._bindValues ++ values.map QVariant.fromStdVariant } := by
  induction values with
  | nil =>
    intro query _
    simp [ascending, Query.bindAll]
  | cons v vs ih =>
    intro query hfin
    have hstep := bindValue_eq_some db query (query._bindValues.length : Int) v hfin
      (Int.natCast_nonneg _) (le_refl _)
    have hq := ih { query with
      _bindValues :=
        query._bindValues.insertIdx ((query._bindValues.length : Int)).toNat
          (QVariant.fromStdVariant v) } hfin
    simp only [Int.toNat_ofNat, List.insertIdx_length_self, List.length_append,
      List.length_singleton] at hstep hq
    simp only [ascending, List.enumFrom_cons, List.map_cons, Query.bindAll, hstep]
    simp only [ascending] at hq
    rw [hq]
    simp

/-- C31. The function `bindValue` inserts: on a prepare-complete query with a connection and
`m` bound values, `bindValue(index, v)` with `0 <= index <= m` returns, changes nothing but the
bound list, and leaves a bound list of `m + 1` values with `v` (as a QVariant) at position
`index`, the former values below `index` where they were and the former values from `index`
on one position higher, whether or not position `index` was bound before.  On a query that is
not prepare-complete, or has no connection, `bindValue` returns with everything unchanged,
whatever the index.  And the indices 0, 1, ..., n - 1 bound once each in ascending order on an
empty list leave exactly the n values in that order. -/
theorem bindValue_inserts (db : Connection) (query : Query) (index : Int) (value : StdVariant)
    (hfin : query._prepareFinished = true) (h0 : 0 ≤ index)
    (hm : index ≤ query._bindValues.length) :
    (∃ values : List QVariant,
      Query.bindValue (some db) query index value = some { query with _bindValues := values } ∧
      values.length = query._bindValues.length + 1 ∧
      values[index.toNat]? = some (QVariant.fromStdVariant value) ∧
      (∀ j : Nat, j < index.toNat → values[j]? = query._bindValues[j]?) ∧
      (∀ j : Nat, index.toNat ≤ j → values[j + 1]? = query._bindValues[j]?)) ∧
    (∀ (_db : Option Connection) (q : Query) (i : Int), q._prepareFinished = false →
      Query.bindValue _db q i value = some q) ∧
    (∀ (q : Query) (i : Int), Query.bindValue none q i value = some q) ∧
    (∀ (q : Query) (vs : List StdVariant), q._prepareFinished = true → q._bindValues = [] →
      Query.bindAll (some db) q (ascending 0 vs)
        = some { q with _bindValues := vs.map QVariant.fromStdVariant }) := by
  have hn : index.toNat ≤ query._bindValues.length := by omega
  refine ⟨⟨_, bindValue_eq_some db query index value hfin h0 hm, ?_, ?_, ?_, ?_⟩, ?_, ?_, ?_⟩
  · exact List.length_insertIdx _ _ hn
  · rw [List.getElem?_eq_getElem (by rw [List.length_insertIdx _ _ hn]; omega)]
    rw [List.getElem_insertIdx_self _ _ _ hn]
  · intro j hj
    have hjl : j < query._bindValues.length := by omega
    rw [List.getElem?_eq_getElem (by rw [List.length_insertIdx _ _ hn]; omega),
      List.getElem?_eq_getElem hjl, List.getElem_insertIdx_of_lt _ _ _ _ hj hjl]
  · intro j hj
    by_cases hjl : j < query._bindValues.length
    · obtain ⟨k, rfl⟩ := Nat.exists_eq_add_of_le hj
      rw [List.getElem?_eq_getElem (by rw [List.length_insertIdx _ _ hn]; omega),
        List.getElem?_eq_getElem hjl, List.getElem_insertIdx_add_succ _ _ _ _ hjl]
    · rw [List.getElem?_eq_none (by rw [List.length_insertIdx _ _ hn]; omega),
        List.getElem?_eq_none (by omega)]
  · intro _db q i hq
    simp [Query.bindValue, hq]
  · intro q i
    simp [Query.bindValue]
  · intro q vs hq hv
    have h := bindAll_ascending db vs q hq
    rw [hv] at h
    simpa using h

/-! ## The effect of `close` -/

/-- C33. Effect of `close` on the connection state: for every state, `close` sets the backend
process id and the secret key to 0 and leaves the authenticated flag, the session-parameter
map and the spill buffer as they are, so `isConnect` returns after `close` what it returned
before; and a second `close` right after the first changes nothing at all, neither the state
nor what has been written and emitted. -/
theorem close_effect (c : Connection) :
    (close c)._pid = 0 ∧ (close c)._key = 0 ∧
    (close c)._auth_success = c._auth_success ∧
    (close c)._parametersStatus = c._parametersStatus ∧
    (close c)._bufferIn = c._bufferIn ∧
    isConnect (close c) = isConnect c ∧
    close (close c) = close c := by
  obtain ⟨bufferIn, bufferOut, connected, written, user, password, db, ps, pid, key, auth, tasks,
    queries, stmt, emitted⟩ := c
  cases connected <;> cases auth <;> simp [close, isConnect]

/-! ## Stored rows and bound values over the runs of a query -/

theorem keeps_refl (q : Query) : q.keeps q :=
  ⟨List.prefix_refl _, List.prefix_refl _, rfl, List.prefix_refl _⟩

theorem keeps_trans {q r s : Query} (h1 : q.keeps r) (h2 : r.keeps s) : q.keeps s :=
  ⟨h1.1.trans h2.1, h1.2.1.trans h2.2.1, h2.2.2.1.trans h1.2.2.1, h1.2.2.2.trans h2.2.2.2⟩

theorem keeps_of_eq {f g : Nat → Query} (h : g = f) (k : Nat) : (f k).keeps (g k) := by
  rw [h]; exact keeps_refl _

theorem keeps_update (f : Nat → Query) (query : Nat) (q : Query) (h : (f query).keeps q)
    (k : Nat) : (f k).keeps (Function.update f query q k) := by
  by_cases hk : k = query
  · subst hk
    rw [Function.update_same]
    exact h
  · rw [Function.update_noteq hk]
    exact keeps_refl _

theorem addQuery_queries (c : Connection) (query : Nat) :
    (addQuery c query).queries = c.queries := by
  unfold addQuery
  dsimp only
  split_ifs
  · exact (taskFromQueue_keeps _).2.1
  · rfl

theorem endTask_keeps (c : Connection) (k : Nat) : (c.queries k).keeps ((endTask c).queries k) := by
  unfold endTask
  split
  · exact keeps_refl _
  · dsimp only
    split_ifs
    · rw [(taskFromQueue_keeps _).2.1]
      refine keeps_update _ _ _ ?_ k
      exact ⟨List.prefix_refl _, List.prefix_refl _, rfl, List.prefix_refl _⟩
    · refine keeps_update _ _ _ ?_ k
      exact ⟨List.prefix_refl _, List.prefix_refl _, rfl, List.prefix_refl _⟩
    · rw [(taskFromQueue_keeps _).2.1]
      exact keeps_refl _
    · exact keeps_refl _

theorem readyForQuery_keeps (c : Connection) (data : List Nat) (k : Nat) :
    (c.queries k).keeps ((readyForQuery c data).queries k) := by
  unfold readyForQuery
  dsimp only
  split_ifs
  · exact endTask_keeps c k
  · exact endTask_keeps c k
  · exact keeps_refl _
  · exact keeps_refl _

theorem dataRow_keeps {c d : Connection} {data : List Nat} {size : Nat}
    (h : dataRow c data size = some d) (k : Nat) : (c.queries k).keeps (d.queries k) := by
  unfold dataRow at h
  cases hq : c._tasks with
  | nil => rw [hq] at h; exact absurd h (by simp)
  | cons query tasks =>
    rw [hq] at h
    cases hr : readBytes (data.drop 2) ((size + 2 ^ 32 - 2) % 2 ^ 32) with
    | none => simp only [hr] at h; exact absurd h (by simp)
    | some row =>
      simp only [hr, Option.map_some', Option.some.injEq] at h
      subst h
      refine keeps_update _ _ _ ?_ k
      exact ⟨List.prefix_refl _, List.prefix_refl _, rfl, List.prefix_append _ _⟩

theorem rowDescription_keeps {c d : Connection} {data : List Nat}
    (h : rowDescription c data = some d) (k : Nat) : (c.queries k).keeps (d.queries k) := by
  unfold rowDescription at h
  cases hq : c._tasks with
  | nil => rw [hq] at h; exact absurd h (by simp)
  | cons query tasks =>
    rw [hq] at h
    cases hb : readBytes data 2 with
    | none => rw [hb] at h; exact absurd h (by simp)
    | some b =>
      rw [hb] at h
      have hfrom := rowDescriptionLoop_from (fromBigEndian b) data 2 (c.queries query)._fields []
      rw [List.append_nil] at hfrom
      cases hr : rowDescriptionLoop (fromBigEndian b) data 2 [] with
      | none =>
        rw [hr] at hfrom
        simp only [hfrom, Option.map_none'] at h
        exact absurd h (by simp)
      | some fields =>
        rw [hr] at hfrom
        simp only [hfrom, Option.map_some', Option.some.injEq] at h
        subst h
        refine keeps_update _ _ _ ?_ k
        exact ⟨List.prefix_append _ _, List.prefix_refl _, rfl, List.prefix_refl _⟩

theorem preparedParametrs_keeps {c d : Connection} {data : List Nat} {size : Nat}
    (h : preparedParametrs c data size = some d) (k : Nat) :
    (c.queries k).keeps (d.queries k) := by
  unfold preparedParametrs at h
  cases hb : readBytes data 2 with
  | none => rw [hb] at h; exact absurd h (by simp)
  | some b =>
    rw [hb] at h
    by_cases h0 : fromBigEndian b = 0
    · simp only [h0, if_true, Option.some.injEq] at h
      subst h
      exact keeps_refl _
    · simp only [h0, if_false] at h
      cases hq : c._tasks with
      | nil => rw [hq] at h; exact absurd h (by simp)
      | cons query tasks =>
        rw [hq] at h
        cases hr : parameterOids (fromBigEndian b) (data.drop 2) with
        | none => simp only [hr] at h; exact absurd h (by simp)
        | some oids =>
          simp only [hr, Option.map_some', Option.some.injEq] at h
          subst h
          refine keeps_update _ _ _ ?_ k
          exact ⟨List.prefix_refl _, List.prefix_append _ _, rfl, List.prefix_refl _⟩

theorem errorOrNoticeResponse_queries {fuel : Nat} {c d : Connection} {data : List Nat}
    {size : Nat} {type : ErrorOrNotice}
    (h : errorOrNoticeResponse fuel c data size type = some d) : d.queries = c.queries := by
  unfold errorOrNoticeResponse at h
  cases hr : errorOrNoticeLoop fuel data size 0 [] [] [] with
  | none => rw [hr] at h; exact absurd h (by simp)
  | some r =>
    rw [hr] at h
    simp only [Option.map_some', Option.some.injEq] at h
    subst h
    split <;> rfl

theorem authentication_queries {md5 : List Nat → List Nat} {c d : Connection}
    {data : List Nat} {r : Bool} (h : authentication md5 c data = some (r, d)) :
    d.queries = c.queries := by
  unfold authentication at h
  cases hb : readBytes data 4 with
  | none => rw [hb] at h; exact absurd h (by simp)
  | some b =>
    rw [hb] at h
    dsimp only at h
    split_ifs at h
    · cases hs : readBytes (data.drop 4) 4 with
      | none => rw [hs] at h; exact absurd h (by simp)
      | some salt =>
        rw [hs] at h
        simp only [Option.some.injEq, Prod.mk.injEq] at h
        obtain ⟨_, h⟩ := h
        subst h
        rfl
    · simp only [Option.some.injEq, Prod.mk.injEq] at h
      obtain ⟨_, h⟩ := h
      subst h
      rfl
    · simp only [Option.some.injEq, Prod.mk.injEq] at h
      obtain ⟨_, h⟩ := h
      subst h
      rfl

theorem parameterStatus_queries {c d : Connection} {data : List Nat}
    (h : parameterStatus c data = some d) : d.queries = c.queries := by
  unfold parameterStatus at h
  dsimp only at h
  split_ifs at h
  all_goals
    simp only [Option.some.injEq] at h
    subst h
    rfl

theorem backendKeyData_queries {c d : Connection} {data : List Nat}
    (h : backendKeyData c data = some d) : d.queries = c.queries := by
  unfold backendKeyData at h
  cases hb : readBytes data 8 with
  | none => rw [hb] at h; exact absurd h (by simp)
  | some b =>
    rw [hb] at h
    simp only [Option.map_some', Option.some.injEq] at h
    subst h
    rfl

theorem dispatch_keeps {md5 : List Nat → List Nat} {fuel : Nat} {c d : Connection}
    (e : Event) (h : dispatch md5 fuel c e = some d) (k : Nat) :
    (c.queries k).keeps (d.queries k) := by
  cases e with
  | frame tag data size =>
    unfold dispatch at h
    dsimp only at h
    revert h
    have same : ∀ {x : Connection}, some c = some x → (c.queries k).keeps (x.queries k) := by
      intro x h
      simp only [Option.some.injEq] at h
      subst h
      exact keeps_refl _
    cases proto tag <;> dsimp only <;> intro h
    case _DataRow => exact dataRow_keeps h k
    case _ParameterDescription => exact preparedParametrs_keeps h k
    case _RowDescription => exact rowDescription_keeps h k
    case _ReadyForQuery =>
      simp only [Option.some.injEq] at h
      subst h
      exact readyForQuery_keeps c data k
    case _CommandCompletion => exact same h
    case _ErrorResponse => exact keeps_of_eq (errorOrNoticeResponse_queries h) k
    case _NoticeResponse => exact keeps_of_eq (errorOrNoticeResponse_queries h) k
    case _ParameterStatus => exact keeps_of_eq (parameterStatus_queries h) k
    case _AuthenticationRequest =>
      cases hr : authentication md5 c data with
      | none => rw [hr] at h; exact absurd h (by simp)
      | some r =>
        rw [hr] at h
        simp only [Option.map_some', Option.some.injEq] at h
        subst h
        exact keeps_of_eq (authentication_queries hr) k
    case _BackendKeyData => exact keeps_of_eq (backendKeyData_queries h) k
    case _NegotiateProtocolVersion => exact same h
    case _default => exact same h
    case _next => exact same h
  | error m =>
    simp only [dispatch, Option.some.injEq] at h
    subst h
    exact keeps_refl _
  | close =>
    simp only [dispatch, Option.some.injEq] at h
    subst h
    exact keeps_of_eq (close_keeps c).2.1 k

theorem dispatchAll_keeps {md5 : List Nat → List Nat} {fuel : Nat} (events : List Event) :
    ∀ {c d : Connection}, dispatchAll md5 fuel c events = some d →
      ∀ k, (c.queries k).keeps (d.queries k) := by
  induction events with
  | nil =>
    intro c d h k
    simp only [dispatchAll, Option.some.injEq] at h
    subst h
    exact keeps_refl _
  | cons e es ih =>
    intro c d h k
    unfold dispatchAll at h
    cases hd : dispatch md5 fuel c e with
    | none => rw [hd] at h; exact absurd h (by simp)
    | some c1 =>
      rw [hd] at h
      exact keeps_trans (dispatch_keeps e hd k) (ih h k)

theorem exec_prepared (c : Connection) (query : Nat)
    (hprep : (c.queries query)._prepare = true)
    (hfin : (c.queries query)._prepareFinished = true) (hidle : c._tasks = []) :
    (Query.exec c query).queries = c.queries ∧ (Query.exec c query)._tasks = [query] := by
  unfold Query.exec
  rw [if_pos hprep, if_pos hfin]
  refine ⟨addQuery_queries c query, ?_⟩
  rw [(addQuery_queue c query).1, hidle]
  rfl

theorem dispatch_inRun (md5 : List Nat → List Nat) (fuel : Nat) (c : Connection)
    (query : Nat) (tasks : List Nat) (e : Event) (ht : c._tasks = query :: tasks)
    (he : e.inRun) :
    ∃ d, dispatch md5 fuel c e = some d ∧ d._tasks = c._tasks ∧
      d.queries = Function.update c.queries query
        { c.queries query with _dataRows := (c.queries query)._dataRows ++ sentRows [e] } := by
  cases e with
  | frame tag data size =>
    unfold Event.inRun at he
    have hnone : ∀ label, proto tag = label → label ≠ ._DataRow →
        Function.update c.queries query
          { c.queries query with
            _dataRows := (c.queries query)._dataRows ++ sentRows [Event.frame tag data size] }
          = c.queries := by
      intro label hl hne
      have : sentRows [Event.frame tag data size] = [] := by
        simp [sentRows, hl, hne]
      rw [this, List.append_nil]
      exact Function.update_eq_self query c.queries
    rcases he with ⟨hp, h2, h32, hlen⟩ | hp | hp
    · have hrows : sentRows [Event.frame tag data size] = [(data.drop 2).take (size - 2)] := by
        simp [sentRows, hp]
      have hmod : (size + 2 ^ 32 - 2) % 2 ^ 32 = size - 2 := by omega
      have hread : readBytes (data.drop 2) (size - 2) = some ((data.drop 2).take (size - 2)) := by
        unfold readBytes
        rw [if_pos (by rw [List.length_drop]; omega)]
      refine ⟨{ c with
          queries := Function.update c.queries query
            { c.queries query with
              _dataRows := (c.queries query)._dataRows ++ [(data.drop 2).take (size - 2)] } },
        ?_, rfl, ?_⟩
      · simp only [dispatch, hp, dataRow, ht, hmod, hread, Option.map_some']
      · rw [hrows]
    · refine ⟨c, ?_, rfl, (hnone _ hp (by decide)).symm⟩
      simp only [dispatch, hp]
    · refine ⟨c, ?_, rfl, (hnone _ hp (by decide)).symm⟩
      simp only [dispatch, hp]
  | error m => exact absurd he (by simp [Event.inRun])
  | close => exact absurd he (by simp [Event.inRun])

theorem sentRows_cons (e : Event) (events : List Event) :
    sentRows (e :: events) = sentRows [e] ++ sentRows events := by
  unfold sentRows
  rw [← List.filterMap_append]
  rfl

theorem dispatchAll_inRun (md5 : List Nat → List Nat) (fuel : Nat) (query : Nat)
    (tasks : List Nat) (events : List Event) :
    ∀ c : Connection, c._tasks = query :: tasks → (∀ e ∈ events, e.inRun) →
      ∃ d, dispatchAll md5 fuel c events = some d ∧ d._tasks = c._tasks ∧
        d.queries = Function.update c.queries query
          { c.queries query with
            _dataRows := (c.queries query)._dataRows ++ sentRows events } := by
  induction events with
  | nil =>
    intro c _ _
    refine ⟨c, rfl, rfl, ?_⟩
    have : sentRows [] = [] := rfl
    rw [this, List.append_nil]
    exact (Function.update_eq_self query c.queries).symm
  | cons e es ih =>
    intro c ht hrun
    obtain ⟨c1, h1, ht1, hq1⟩ :=
      dispatch_inRun md5 fuel c query tasks e ht (hrun e (List.mem_cons_self _ _))
    obtain ⟨d, h2, ht2, hq2⟩ :=
      ih c1 (ht1.trans ht) (fun x hx => hrun x (List.mem_cons_of_mem _ hx))
    refine ⟨d, ?_, ht2.trans ht1, ?_⟩
    · simp only [dispatchAll, h1, h2]
    · rw [hq2, hq1, Function.update_same, Function.update_idem, sentRows_cons e es]
      simp only [List.append_assoc]

theorem endTask_data (c : Connection) (k : Nat) :
    ((endTask c).queries k)._fields = (c.queries k)._fields ∧
    ((endTask c).queries k)._preparedParametrs = (c.queries k)._preparedParametrs ∧
    ((endTask c).queries k)._bindValues = (c.queries k)._bindValues ∧
    ((endTask c).queries k)._dataRows = (c.queries k)._dataRows := by
  have hupd : ∀ (query : Nat),
      let q := Function.update c.queries query { c.queries query with _prepareFinished := true } k
      q._fields = (c.queries k)._fields ∧ q._preparedParametrs = (c.queries k)._preparedParametrs ∧
        q._bindValues = (c.queries k)._bindValues ∧ q._dataRows = (c.queries k)._dataRows := by
    intro query
    by_cases hk : k = query
    · subst hk
      simp only [Function.update_same, and_self]
    · simp only [Function.update_noteq hk, and_self]
  unfold endTask
  split
  · exact ⟨rfl, rfl, rfl, rfl⟩
  · dsimp only
    split_ifs
    · rw [(taskFromQueue_keeps _).2.1]
      exact hupd _
    · exact hupd _
    · rw [(taskFromQueue_keeps _).2.1]
      exact ⟨rfl, rfl, rfl, rfl⟩
    · exact ⟨rfl, rfl, rfl, rfl⟩

theorem readyForQuery_data (c : Connection) (data : List Nat) (k : Nat) :
    ((readyForQuery c data).queries k)._fields = (c.queries k)._fields ∧
    ((readyForQuery c data).queries k)._preparedParametrs = (c.queries k)._preparedParametrs ∧
    ((readyForQuery c data).queries k)._bindValues = (c.queries k)._bindValues ∧
    ((readyForQuery c data).queries k)._dataRows = (c.queries k)._dataRows := by
  unfold readyForQuery
  dsimp only
  split_ifs
  · exact endTask_data c k
  · exact endTask_data c k
  · exact ⟨rfl, rfl, rfl, rfl⟩
  · exact ⟨rfl, rfl, rfl, rfl⟩

theorem preparation_resets (c : Connection) (query : Nat) (sql : String) :
    ((Query.preparation c query sql).queries query)._fields = [] ∧
    ((Query.preparation c query sql).queries query)._preparedParametrs = [] ∧
    ((Query.preparation c query sql).queries query)._bindValues = [] ∧
    ((Query.preparation c query sql).queries query)._dataRows = [] := by
  unfold Query.preparation
  dsimp only
  rw [addQuery_queries]
  simp only [Function.update_same, and_self]

theorem exec_queries (c : Connection) (query : Nat) :
    (Query.exec c query).queries = c.queries := by
  unfold Query.exec
  split_ifs
  · exact addQuery_queries c query
  · rfl
  · exact addQuery_queries c query
  · rfl

theorem bindValue_data {_db : Option Connection} {q r : Query} {i : Int} {v : StdVariant}
    (h : Query.bindValue _db q i v = some r) :
    r._fields = q._fields ∧ r._preparedParametrs = q._preparedParametrs ∧
      r._dataRows = q._dataRows ∧ q._bindValues.length ≤ r._bindValues.length := by
  unfold Query.bindValue at h
  split_ifs at h
  · simp only [Option.some.injEq] at h
    subst h
    exact ⟨rfl, rfl, rfl, le_refl _⟩
  · unfold QVector.insert at h
    split_ifs at h
    · simp only [Option.map_some', Option.some.injEq] at h
      subst h
      exact ⟨rfl, rfl, rfl, List.length_le_length_insertIdx _ _ _⟩
    · exact absurd h (by simp)

/-- C32. Rows accumulate across prepared executions: `exec()` on a prepared, prepare-complete
query of an idle Connection changes no query, so it clears neither the stored rows nor the
bound values.  Every run of frames that follows the request (DataRow frames whose payload lies
in the buffer, and frames such as BindComplete and CommandComplete) is handled down to its
last frame, and the query then has its former rows followed by one row for every DataRow frame
and the bound values it had: `rowCount()` is the former count plus the number of DataRow
frames, also after the ReadyForQuery frame that ends the run.  `exec(sql)` and `prepare(sql)`
leave fields, parameter OIDs, bound values and rows empty; and nothing else does: after any
frame handler, `close` or `exec()` every query has the fields, OIDs and rows it had, with new
ones behind them if any, and the bound values it had, and `bindValue` leaves fields, OIDs and
rows as they are and never shortens the bound list.  The same count holds in any state in
which the query is the head of the queue when the frames come. -/
theorem rows_accumulate (md5 : List Nat → List Nat) (fuel : Nat) (c : Connection)
    (query : Nat) (events : List Event)
    (hprep : (c.queries query)._prepare = true)
    (hfin : (c.queries query)._prepareFinished = true)
    (hidle : c._tasks = [])
    (hrun : ∀ e ∈ events, e.inRun) :
    (Query.exec c query).queries = c.queries ∧
    (∃ d, dispatchAll md5 fuel (Query.exec c query) events = some d ∧
      (d.queries query)._dataRows = (c.queries query)._dataRows ++ sentRows events ∧
      (d.queries query)._bindValues = (c.queries query)._bindValues ∧
      (d.queries query).rowCount = (c.queries query).rowCount + (sentRows events).length ∧
      ∀ data : List Nat,
        ((readyForQuery d data).queries query).rowCount
          = (c.queries query).rowCount + (sentRows events).length) ∧
    (∀ sql : String,
      ((Query.execSql c query sql).queries query)._fields = [] ∧
      ((Query.execSql c query sql).queries query)._preparedParametrs = [] ∧
      ((Query.execSql c query sql).queries query)._bindValues = [] ∧
      ((Query.execSql c query sql).queries query)._dataRows = []) ∧
    (∀ sql : String,
      ((Query.prepare c query sql).queries query)._fields = [] ∧
      ((Query.prepare c query sql).queries query)._preparedParametrs = [] ∧
      ((Query.prepare c query sql).queries query)._bindValues = [] ∧
      ((Query.prepare c query sql).queries query)._dataRows = []) ∧
    (∀ (c0 d0 : Connection) (e : Event) (k : Nat), dispatch md5 fuel c0 e = some d0 →
      (c0.queries k).keeps (d0.queries k)) ∧
    (∀ (c0 : Connection) (k : Nat), (Query.exec c0 k).queries = c0.queries) ∧
    (∀ c0 : Connection, (close c0).queries = c0.queries) ∧
    (∀ (_db : Option Connection) (q r : Query) (i : Int) (v : StdVariant),
      Query.bindValue _db q i v = some r →
        r._fields = q._fields ∧ r._preparedParametrs = q._preparedParametrs ∧
          r._dataRows = q._dataRows ∧ q._bindValues.length ≤ r._bindValues.length) ∧
    (∀ (c0 : Connection) (tasks : List Nat), c0._tasks = query :: tasks →
      ∃ d, dispatchAll md5 fuel c0 events = some d ∧
        (d.queries query).rowCount = (c0.queries query).rowCount + (sentRows events).length) := by
  obtain ⟨hq, ht⟩ := exec_prepared c query hprep hfin hidle
  obtain ⟨d, hd, -, hdq⟩ := dispatchAll_inRun md5 fuel query [] events (Query.exec c query) ht hrun
  have hrows : (d.queries query)._dataRows = (c.queries query)._dataRows ++ sentRows events := by
    rw [hdq, Function.update_same, hq]
  have hcount : (d.queries query).rowCount
      = (c.queries query).rowCount + (sentRows events).length := by
    unfold Query.rowCount
    rw [hrows, List.length_append]
  refine ⟨hq, ⟨d, hd, hrows, ?_, hcount, fun data => ?_⟩, fun sql => ?_, fun sql => ?_,
    fun c0 d0 e k h => dispatch_keeps e h k, exec_queries, fun c0 => (close_keeps c0).2.1,
    fun _db q r i v h => bindValue_data h, fun c0 tasks h0 => ?_⟩
  · rw [hdq, Function.update_same, hq]
  · unfold Query.rowCount at hcount ⊢
    rw [(readyForQuery_data d data query).2.2.2]
    exact hcount
  · exact preparation_resets _ query sql
  · exact preparation_resets _ query sql
  · obtain ⟨d0, hd0, -, hq0⟩ := dispatchAll_inRun md5 fuel query tasks events c0 h0 hrun
    refine ⟨d0, hd0, ?_⟩
    unfold Query.rowCount
    rw [hq0, Function.update_same, List.length_append]

/-! ## Handshake writes from a scratch buffer that is not empty -/

/-- C23. The startup write of a second dial: a Connection runs `select 1` with `exec(sql)`,
the query completes at ReadyForQuery, and `connection` is called again for the user `p`.  The
request of the query is still in `_bufferOut`, which only `taskFromQueue` truncates before it
builds; `makeStarupMessage` appends to it, so what it writes is the 54 bytes of the old
request, beginning with the tag `P`, followed by the 16 bytes of the startup message, and not
the startup message alone. -/
theorem startup_write_after_query :
    (readyForQuery (Query.execSql Connection.ready 0 "select 1") [Idle])._bufferOut
      = [0x50, 0, 0, 0, 16, 0, 0x73, 0x65, 0x6c, 0x65, 0x63, 0x74, 0x20, 0x31, 0, 0, 0]
          ++ BDES_msgs ∧
    (makeStarupMessage
        { connection (readyForQuery (Query.execSql Connection.ready 0 "select 1") [Idle])
            "p" "" "" with connected := true }).written.getLast?
      = some ([0x50, 0, 0, 0, 16, 0, 0x73, 0x65, 0x6c, 0x65, 0x63, 0x74, 0x20, 0x31, 0, 0, 0]
          ++ BDES_msgs ++ startupMessage [0x70] []) ∧
    startupMessage [0x70] [] = [0, 0, 0, 16, 0, 3, 0, 0, 0x75, 0x73, 0x65, 0x72, 0, 0x70, 0, 0] ∧
    ((makeStarupMessage
        { connection (readyForQuery (Query.execSql Connection.ready 0 "select 1") [Idle])
            "p" "" "" with connected := true }).written.getLast?.map List.length) = some 70 ∧
    (makeStarupMessage
        { connection Connection.fresh "p" "" "" with connected := true }).written
      = [startupMessage [0x70] []] := by
  decide

/-- C24. The password write with a request in the scratch buffer: the Connection is dialled
for user `p` with password `q` and has written its startup message, a query is run with
`exec(sql)` before the server has answered, and the AuthenticationMD5Password frame with the
salt 12 34 56 78 comes in.  The request of the query is in `_bufferOut`, and `authentication`
appends to it: whatever `md5` is, the write begins with the 54 bytes of the request, tag `P`,
and the frame `p` starts at offset 54; with a function to 16 bytes in the place of `md5` the
write has 95 bytes, the request followed by the 41 bytes of the password message. -/
theorem password_write_after_request :
    (∀ md5 : List Nat → List Nat,
      (authentication md5
          (Query.execSql
            (makeStarupMessage { connection Connection.fresh "p" "q" "" with connected := true })
            0 "select 1")
          [0, 0, 0, 5, 0x12, 0x34, 0x56, 0x78]).map
            (fun r => (r.1, r.2.written.getLast?.map (List.take 55)))
        = some (true,
            some ([0x50, 0, 0, 0, 16, 0, 0x73, 0x65, 0x6c, 0x65, 0x63, 0x74, 0x20, 0x31, 0, 0, 0]
              ++ BDES_msgs ++ [0x70]))) ∧
    (authentication (fun x => (List.range 16).map fun i => (x.sum + i) % 256)
        (Query.execSql
          (makeStarupMessage { connection Connection.fresh "p" "q" "" with connected := true })
          0 "select 1")
        [0, 0, 0, 5, 0x12, 0x34, 0x56, 0x78]).map
          (fun r => (r.1, r.2.written.getLast?, r.2.written.getLast?.map List.length))
      = some (true,
          some ([0x50, 0, 0, 0, 16, 0, 0x73, 0x65, 0x6c, 0x65, 0x63, 0x74, 0x20, 0x31, 0, 0, 0]
            ++ BDES_msgs
            ++ passwordMessage (fun x => (List.range 16).map fun i => (x.sum + i) % 256)
                [0x70] [0x71] [0x12, 0x34, 0x56, 0x78]),
          some 95) ∧
    (authentication (fun x => (List.range 16).map fun i => (x.sum + i) % 256)
        (makeStarupMessage { connection Connection.fresh "p" "q" "" with connected := true })
        [0, 0, 0, 5, 0x12, 0x34, 0x56, 0x78]).map
          (fun r => (r.1, r.2.written.getLast?.map List.length))
      = some (true, some 41) := by
  refine ⟨fun md5 => rfl, by decide, by decide⟩

/-! ## Handlers on a payload with bytes behind it -/

theorem readBytes_append_of_le (p rest : List Nat) (n : Nat) (h : n ≤ p.length) :
    readBytes (p ++ rest) n = readBytes p n := by
  unfold readBytes
  rw [if_pos h, if_pos (by rw [List.length_append]; omega), List.take_append_of_le_length h]

theorem cString_append_of_lt (p rest : List Nat) (h : (cString p).length < p.length) :
    cString (p ++ rest) = cString p := by
  induction p with
  | nil => simp at h
  | cons a as ih =>
    unfold cString at h ih ⊢
    rw [List.cons_append, List.takeWhile_cons, List.takeWhile_cons]
    by_cases ha : a = 0
    · simp [ha]
    · have hd : decide (a ≠ 0) = true := by simpa using ha
      rw [List.takeWhile_cons, if_pos hd, List.length_cons, List.length_cons] at h
      rw [if_pos hd, if_pos hd, ih (by omega)]

theorem dataRow_payload (c : Connection) (p rest : List Nat) (h2 : 2 ≤ p.length)
    (h32 : p.length < 2 ^ 32) :
    dataRow c (p ++ rest) p.length = dataRow c p p.length := by
  have hmod : (p.length + 2 ^ 32 - 2) % 2 ^ 32 = p.length - 2 := by omega
  have hdrop : (p ++ rest).drop 2 = p.drop 2 ++ rest := List.drop_append_of_le_length h2
  unfold dataRow
  rw [hmod, hdrop, readBytes_append_of_le _ _ _ (by rw [List.length_drop])]

theorem parameterOids_append (n : Nat) :
    ∀ (bytes rest : List Nat), 4 * n ≤ bytes.length →
      parameterOids n (bytes ++ rest) = parameterOids n bytes := by
  induction n with
  | zero => intro bytes rest _; rfl
  | succ n ih =>
    intro bytes rest h
    unfold parameterOids
    rw [readBytes_append_of_le _ _ _ (by omega),
      List.drop_append_of_le_length (by omega), ih _ _ (by rw [List.length_drop]; omega)]

theorem preparedParametrs_payload (c : Connection) (p rest : List Nat) (size : Nat)
    (h : 2 + 4 * fromBigEndian (p.take 2) ≤ p.length) :
    preparedParametrs c (p ++ rest) size = preparedParametrs c p size := by
  have h2 : 2 ≤ p.length := by omega
  have hb : readBytes p 2 = some (p.take 2) := by
    unfold readBytes; rw [if_pos h2]
  have ho := parameterOids_append (fromBigEndian (p.take 2)) (p.drop 2) rest
    (by rw [List.length_drop]; omega)
  unfold preparedParametrs
  simp only [readBytes_append_of_le _ _ _ h2, hb, List.drop_append_of_le_length h2, ho]

theorem rowDescriptionLoop_append (n : Nat) :
    ∀ (p rest : List Nat) (pos : Nat) (fields : List Field), pos ≤ p.length →
      p.length < 2 ^ 32 → descriptorsFit n (p.drop pos) →
      rowDescriptionLoop n (p ++ rest) pos fields = rowDescriptionLoop n p pos fields := by
  induction n with
  | zero => intro p rest pos fields _ _ _; rfl
  | succ n ih =>
    intro p rest pos fields hpos h32 hfit
    obtain ⟨hname, hnext⟩ := hfit
    rw [List.length_drop] at hname
    have hlt : (cString (p.drop pos)).length < (p.drop pos).length := by
      rw [List.length_drop]; omega
    have hp1 : ((pos + (cString (p.drop pos)).length) % 2 ^ 32 + 1) % 2 ^ 32
        = pos + (cString (p.drop pos)).length + 1 := by
      rw [Nat.mod_eq_of_lt (by omega), Nat.mod_eq_of_lt (by omega)]
    have hp2 : (pos + (cString (p.drop pos)).length + 1 + 18) % 2 ^ 32
        = pos + (cString (p.drop pos)).length + 1 + 18 := Nat.mod_eq_of_lt (by omega)
    have hdd : (p.drop pos).drop ((cString (p.drop pos)).length + 19)
        = p.drop (pos + (cString (p.drop pos)).length + 1 + 18) := by
      rw [List.drop_drop]
      exact congrArg (fun k => List.drop k p) (by omega)
    rw [hdd] at hnext
    have hl1 : ¬ (p ++ rest).length < pos := by rw [List.length_append]; omega
    have hl2 : ¬ p.length < pos := by omega
    have hrd : readBytes ((p ++ rest).drop (pos + (cString (p.drop pos)).length + 1)) 18
        = readBytes (p.drop (pos + (cString (p.drop pos)).length + 1)) 18 := by
      rw [List.drop_append_of_le_length (by omega),
        readBytes_append_of_le _ _ _ (by rw [List.length_drop]; omega)]
    unfold rowDescriptionLoop
    simp only [if_neg hl1, if_neg hl2, List.drop_append_of_le_length hpos,
      cString_append_of_lt _ _ hlt, hp1, hp2, hrd]
    cases hb : readBytes (p.drop (pos + (cString (p.drop pos)).length + 1)) 18 with
    | none => rfl
    | some b =>
      dsimp only
      exact ih p rest _ _ (by omega) h32 hnext

theorem rowDescription_payload (c : Connection) (p rest : List Nat) (h2 : 2 ≤ p.length)
    (h32 : p.length < 2 ^ 32) (hfit : descriptorsFit (fromBigEndian (p.take 2)) (p.drop 2)) :
    rowDescription c (p ++ rest) = rowDescription c p := by
  have hb : readBytes p 2 = some (p.take 2) := by
    unfold readBytes; rw [if_pos h2]
  unfold rowDescription
  cases c._tasks with
  | nil => rfl
  | cons query tasks =>
    dsimp only
    rw [readBytes_append_of_le _ _ _ h2, hb]
    dsimp only
    rw [rowDescriptionLoop_append _ p rest 2 _ h2 h32 hfit]

theorem readyForQuery_payload (c : Connection) (p rest : List Nat) (h1 : 1 ≤ p.length) :
    readyForQuery c (p ++ rest) = readyForQuery c p := by
  have hget : (p ++ rest).getD 0 0 = p.getD 0 0 := by
    cases p with
    | nil => simp at h1
    | cons a as => rfl
  unfold readyForQuery
  rw [hget]

theorem backendKeyData_payload (c : Connection) (p rest : List Nat) (h8 : 8 ≤ p.length) :
    backendKeyData c (p ++ rest) = backendKeyData c p := by
  unfold backendKeyData
  rw [readBytes_append_of_le _ _ _ h8]

theorem authentication_payload (md5 : List Nat → List Nat) (c : Connection)
    (p rest : List Nat) (h4 : 4 ≤ p.length)
    (h8 : fromBigEndian (p.take 4) = MD5password → 8 ≤ p.length) :
    authentication md5 c (p ++ rest) = authentication md5 c p := by
  have hb : readBytes p 4 = some (p.take 4) := by
    unfold readBytes; rw [if_pos h4]
  unfold authentication
  rw [readBytes_append_of_le _ _ _ h4, hb]
  dsimp only
  by_cases h5 : fromBigEndian (p.take 4) = MD5password
  · rw [if_pos h5, if_pos h5, List.drop_append_of_le_length h4,
      readBytes_append_of_le _ _ _ (by rw [List.length_drop]; have := h8 h5; omega)]
  · rw [if_neg h5, if_neg h5]

theorem parameterStatus_payload (c : Connection) (p rest : List Nat)
    (hkey : (cString p).length < p.length)
    (hvalue : (cString p).length + 1 + (cString (p.drop ((cString p).length + 1))).length
      < p.length) :
    parameterStatus c (p ++ rest) = parameterStatus c p := by
  have hd : (p ++ rest).drop (1 + (cString p).length)
      = p.drop (1 + (cString p).length) ++ rest :=
    List.drop_append_of_le_length (by omega)
  have hv : cString (p.drop (1 + (cString p).length) ++ rest)
      = cString (p.drop (1 + (cString p).length)) := by
    apply cString_append_of_lt
    rw [List.length_drop, Nat.add_comm 1]
    omega
  have h1 : ¬ p.length + rest.length ≤ (cString p).length := by omega
  have h2 : ¬ p.length ≤ (cString p).length := by omega
  unfold parameterStatus
  simp only [cString_append_of_lt p rest hkey, hd, hv, List.length_append, if_neg h1, if_neg h2]

theorem length_fields_le (fields : List (Nat × List Nat)) :
    fields.length ≤ (fields.flatMap encodeField).length := by
  induction fields with
  | nil => simp
  | cons f fs ih =>
    simp only [List.flatMap_cons, List.length_append, List.length_cons, encodeField]
    omega

theorem errorOrNoticeResponse_payload (fuel : Nat) (c : Connection)
    (fields : List (Nat × List Nat)) (rest : List Nat) (type : ErrorOrNotice)
    (hnul : ∀ f ∈ fields, 0 ∉ f.2)
    (hv : lastField fields ErrorOrNoticeType ≠ [])
    (hc : lastField fields ErrorOrNoticeCode ≠ [])
    (hm : lastField fields ErrorOrNoticeMessage ≠ [])
    (hsize : (encodeFields fields ++ rest).length + 2 ≤ 2 ^ 32)
    (hfuel : (encodeFields fields).length < fuel) :
    errorOrNoticeResponse fuel c (encodeFields fields ++ rest) (encodeFields fields).length type
      = errorOrNoticeResponse fuel c (encodeFields fields) (encodeFields fields).length type := by
  have hlen : (encodeFields fields).length = (fields.flatMap encodeField).length + 1 := by
    simp [encodeFields]
  have hf : fields.length < fuel := by
    have := length_fields_le fields
    omega
  have hsz : (fields.flatMap encodeField).length + 1 + rest.length + 2 ≤ 2 ^ 32 := by
    rw [List.length_append, hlen] at hsize
    exact hsize
  have h1 := errorOrNoticeLoop_fields fields [] rest [] [] [] fuel hnul
    (by simpa using hsz) hf hv hc hm
  have h2 := errorOrNoticeLoop_fields fields [] [] [] [] [] fuel hnul
    (by simp only [List.length_nil, Nat.zero_add, Nat.add_zero]; omega) hf hv hc hm
  have hd1 : encodeFields fields ++ rest = [] ++ (fields.flatMap encodeField ++ 0 :: rest) := by
    simp [encodeFields]
  have hd2 : encodeFields fields = [] ++ (fields.flatMap encodeField ++ 0 :: []) := by
    simp [encodeFields]
  simp only [List.length_nil, Nat.zero_add] at h1 h2
  rw [← hd1] at h1
  rw [← hd2] at h2
  unfold errorOrNoticeResponse
  rw [hlen, h1, h2]

theorem bufferIn_eta (c : Connection) (h : c._bufferIn = []) : { c with _bufferIn := [] } = c := by
  obtain ⟨bufferIn, bufferOut, connected, written, user, password, db, ps, pid, key, auth, tasks,
    queries, stmt, emitted⟩ := c
  simp only at h
  subst h
  rfl

theorem taskFromQueue_bufferIn (c : Connection) : (taskFromQueue c)._bufferIn = c._bufferIn := by
  unfold taskFromQueue
  split
  · rfl
  · dsimp only
    split_ifs <;> rfl

theorem endTask_bufferIn (c : Connection) : (endTask c)._bufferIn = c._bufferIn := by
  unfold endTask
  split
  · rfl
  · dsimp only
    split_ifs
    · rw [taskFromQueue_bufferIn]
    · rfl
    · rw [taskFromQueue_bufferIn]
    · rfl

theorem readyForQuery_bufferIn (c : Connection) (data : List Nat) :
    (readyForQuery c data)._bufferIn = c._bufferIn := by
  unfold readyForQuery
  dsimp only
  split_ifs
  · exact endTask_bufferIn c
  · exact endTask_bufferIn c
  · rfl
  · rfl

theorem close_bufferIn (c : Connection) : (close c)._bufferIn = c._bufferIn := by
  unfold close
  dsimp only
  split_ifs <;> rfl

theorem dataRow_bufferIn {c d : Connection} {data : List Nat} {size : Nat}
    (h : dataRow c data size = some d) : d._bufferIn = c._bufferIn := by
  unfold dataRow at h
  cases hq : c._tasks with
  | nil => rw [hq] at h; exact absurd h (by simp)
  | cons query tasks =>
    rw [hq] at h
    cases hr : readBytes (data.drop 2) ((size + 2 ^ 32 - 2) % 2 ^ 32) with
    | none => simp only [hr] at h; exact absurd h (by simp)
    | some row =>
      simp only [hr, Option.map_some', Option.some.injEq] at h
      subst h
      rfl

theorem rowDescription_bufferIn {c d : Connection} {data : List Nat}
    (h : rowDescription c data = some d) : d._bufferIn = c._bufferIn := by
  unfold rowDescription at h
  cases hq : c._tasks with
  | nil => rw [hq] at h; exact absurd h (by simp)
  | cons query tasks =>
    rw [hq] at h
    cases hb : readBytes data 2 with
    | none => rw [hb] at h; exact absurd h (by simp)
    | some b =>
      rw [hb] at h
      cases hr : rowDescriptionLoop (fromBigEndian b) data 2 (c.queries query)._fields with
      | none => simp only [hr] at h; exact absurd h (by simp)
      | some fields =>
        simp only [hr, Option.map_some', Option.some.injEq] at h
        subst h
        rfl

theorem preparedParametrs_bufferIn {c d : Connection} {data : List Nat} {size : Nat}
    (h : preparedParametrs c data size = some d) : d._bufferIn = c._bufferIn := by
  unfold preparedParametrs at h
  cases hb : readBytes data 2 with
  | none => rw [hb] at h; exact absurd h (by simp)
  | some b =>
    rw [hb] at h
    by_cases h0 : fromBigEndian b = 0
    · simp only [h0, if_true, Option.some.injEq] at h
      subst h
      rfl
    · simp only [h0, if_false] at h
      cases hq : c._tasks with
      | nil => rw [hq] at h; exact absurd h (by simp)
      | cons query tasks =>
        rw [hq] at h
        cases hr : parameterOids (fromBigEndian b) (data.drop 2) with
        | none => simp only [hr] at h; exact absurd h (by simp)
        | some oids =>
          simp only [hr, Option.map_some', Option.some.injEq] at h
          subst h
          rfl

theorem errorOrNoticeResponse_bufferIn {fuel : Nat} {c d : Connection} {data : List Nat}
    {size : Nat} {type : ErrorOrNotice}
    (h : errorOrNoticeResponse fuel c data size type = some d) : d._bufferIn = c._bufferIn := by
  unfold errorOrNoticeResponse at h
  cases hr : errorOrNoticeLoop fuel data size 0 [] [] [] with
  | none => rw [hr] at h; exact absurd h (by simp)
  | some r =>
    rw [hr] at h
    simp only [Option.map_some', Option.some.injEq] at h
    subst h
    split <;> rfl

theorem authentication_bufferIn {md5 : List Nat → List Nat} {c d : Connection}
    {data : List Nat} {r : Bool} (h : authentication md5 c data = some (r, d)) :
    d._bufferIn = c._bufferIn := by
  unfold authentication at h
  cases hb : readBytes data 4 with
  | none => rw [hb] at h; exact absurd h (by simp)
  | some b =>
    rw [hb] at h
    dsimp only at h
    split_ifs at h
    · cases hs : readBytes (data.drop 4) 4 with
      | none => rw [hs] at h; exact absurd h (by simp)
      | some salt =>
        rw [hs] at h
        simp only [Option.some.injEq, Prod.mk.injEq] at h
        obtain ⟨_, h⟩ := h
        subst h
        rfl
    · simp only [Option.some.injEq, Prod.mk.injEq] at h
      obtain ⟨_, h⟩ := h
      subst h
      rfl
    · simp only [Option.some.injEq, Prod.mk.injEq] at h
      obtain ⟨_, h⟩ := h
      subst h
      rfl

theorem parameterStatus_bufferIn {c d : Connection} {data : List Nat}
    (h : parameterStatus c data = some d) : d._bufferIn = c._bufferIn := by
  unfold parameterStatus at h
  dsimp only at h
  split_ifs at h
  all_goals
    simp only [Option.some.injEq] at h
    subst h
    rfl

theorem backendKeyData_bufferIn {c d : Connection} {data : List Nat}
    (h : backendKeyData c data = some d) : d._bufferIn = c._bufferIn := by
  unfold backendKeyData at h
  cases hb : readBytes data 8 with
  | none => rw [hb] at h; exact absurd h (by simp)
  | some b =>
    rw [hb] at h
    simp only [Option.map_some', Option.some.injEq] at h
    subst h
    rfl

theorem dispatch_bufferIn {md5 : List Nat → List Nat} {fuel : Nat} {c d : Connection}
    (e : Event) (h : dispatch md5 fuel c e = some d) : d._bufferIn = c._bufferIn := by
  cases e with
  | frame tag data size =>
    unfold dispatch at h
    dsimp only at h
    revert h
    have same : ∀ {x : Connection}, some c = some x → x._bufferIn = c._bufferIn := by
      intro x h
      simp only [Option.some.injEq] at h
      subst h
      rfl
    cases proto tag <;> dsimp only <;> intro h
    case _DataRow => exact dataRow_bufferIn h
    case _ParameterDescription => exact preparedParametrs_bufferIn h
    case _RowDescription => exact rowDescription_bufferIn h
    case _ReadyForQuery =>
      simp only [Option.some.injEq] at h
      subst h
      exact readyForQuery_bufferIn c data
    case _CommandCompletion => exact same h
    case _ErrorResponse => exact errorOrNoticeResponse_bufferIn h
    case _NoticeResponse => exact errorOrNoticeResponse_bufferIn h
    case _ParameterStatus => exact parameterStatus_bufferIn h
    case _AuthenticationRequest =>
      cases hr : authentication md5 c data with
      | none => rw [hr] at h; exact absurd h (by simp)
      | some r =>
        rw [hr] at h
        simp only [Option.map_some', Option.some.injEq] at h
        subst h
        exact authentication_bufferIn hr
    case _BackendKeyData => exact backendKeyData_bufferIn h
    case _NegotiateProtocolVersion => exact same h
    case _default => exact same h
    case _next => exact same h
  | error m =>
    simp only [dispatch, Option.some.injEq] at h
    subst h
    rfl
  | close =>
    simp only [dispatch, Option.some.injEq] at h
    subst h
    exact close_bufferIn c

theorem dispatchAll_bufferIn {md5 : List Nat → List Nat} {fuel : Nat} (events : List Event) :
    ∀ {c d : Connection}, dispatchAll md5 fuel c events = some d →
      d._bufferIn = c._bufferIn := by
  induction events with
  | nil =>
    intro c d h
    simp only [dispatchAll, Option.some.injEq] at h
    subst h
    rfl
  | cons e es ih =>
    intro c d h
    unfold dispatchAll at h
    cases hd : dispatch md5 fuel c e with
    | none => rw [hd] at h; exact absurd h (by simp)
    | some c1 =>
      rw [hd] at h
      exact (ih h).trans (dispatch_bufferIn e hd)

theorem dispatchAll_append (md5 : List Nat → List Nat) (fuel : Nat) (a b : List Event) :
    ∀ c : Connection, dispatchAll md5 fuel c (a ++ b)
      = (dispatchAll md5 fuel c a).bind fun d => dispatchAll md5 fuel d b := by
  induction a with
  | nil => intro c; rfl
  | cons e es ih =>
    intro c
    have hl : dispatchAll md5 fuel c (e :: (es ++ b))
        = match dispatch md5 fuel c e with
          | none => none
          | some c => dispatchAll md5 fuel c (es ++ b) := rfl
    have hr : dispatchAll md5 fuel c (e :: es)
        = match dispatch md5 fuel c e with
          | none => none
          | some c => dispatchAll md5 fuel c es := rfl
    rw [List.cons_append, hl, hr]
    cases hd : dispatch md5 fuel c e with
    | none => rfl
    | some c1 => exact ih c1

theorem dispatch_payload (md5 : List Nat → List Nat) (fuel : Nat) (c : Connection) (f : Frame)
    (rest : List Nat) (hvalid : f.valid) (hself : f.selfContained)
    (hfuel : f.payload.length < fuel) (hsize : (f.payload ++ rest).length + 2 ≤ 2 ^ 32) :
    dispatch md5 fuel c (.frame f.tag (f.payload ++ rest) f.payload.length)
      = dispatch md5 fuel c (.frame f.tag f.payload f.payload.length) := by
  have h32 : f.payload.length < 2 ^ 32 := by
    rw [List.length_append] at hsize; omega
  unfold Frame.selfContained at hself
  unfold dispatch
  dsimp only
  generalize hp : proto f.tag = label at hself ⊢
  cases label <;> dsimp only at hself ⊢
  case _DataRow => exact dataRow_payload c _ _ hself h32
  case _ParameterDescription => exact preparedParametrs_payload c _ _ _ hself
  case _RowDescription => exact rowDescription_payload c _ _ hself.1 h32 hself.2
  case _ReadyForQuery => rw [readyForQuery_payload c _ _ hself]
  case _ErrorResponse =>
    obtain ⟨fields, hpl, hnul, hv, hc, hm⟩ := hself
    rw [hpl] at hfuel hsize ⊢
    exact errorOrNoticeResponse_payload fuel c fields rest .Error hnul hv hc hm hsize hfuel
  case _NoticeResponse =>
    obtain ⟨fields, hpl, hnul, hv, hc, hm⟩ := hself
    rw [hpl] at hfuel hsize ⊢
    exact errorOrNoticeResponse_payload fuel c fields rest .Notice hnul hv hc hm hsize hfuel
  case _ParameterStatus => exact parameterStatus_payload c _ _ hself.1 hself.2
  case _AuthenticationRequest =>
    rw [authentication_payload md5 c _ _ (hvalid.2.2 (proto_eq_auth f.tag hp)) hself]
  case _BackendKeyData => exact backendKeyData_payload c _ _ hself

/-- The payload pointer of every frame that the loop of `analyzePacket` dispatches points into
the buffer. -/
theorem analyzeLoop_data_le :
    ∀ (fuel : Nat) (check : Bool) (data : List Nat) (pos : Nat) (complete : Bool)
      (r : List Event × List Nat), analyzeLoop fuel check data pos complete = some r →
      ∀ tag d size, Event.frame tag d size ∈ r.1 → d.length ≤ data.length := by
  intro fuel
  induction fuel with
  | zero =>
    intro check data pos complete r h
    simp [analyzeLoop] at h
  | succ fuel ih =>
    intro check data pos complete r h tag d size hmem
    have hnext : ∀ (cmp : Bool) (x : List Event × List Nat),
        (analyzeLoop fuel true data
            ((pos + fromBigEndian ((data.drop (pos + 1)).take 4) + 1) % 2 ^ 32) cmp).map
          (fun r => (Event.frame (data.getD pos 0) (data.drop (pos + MinimumPackageSize))
            ((fromBigEndian ((data.drop (pos + 1)).take 4) + 2 ^ 32 - 4) % 2 ^ 32) :: r.1, r.2))
          = some x →
        ∀ tag d size, Event.frame tag d size ∈ x.1 → d.length ≤ data.length := by
      intro cmp x hx tag d size hm
      cases hr : analyzeLoop fuel true data
          ((pos + fromBigEndian ((data.drop (pos + 1)).take 4) + 1) % 2 ^ 32) cmp with
      | none => rw [hr] at hx; exact absurd hx (by simp)
      | some r' =>
        rw [hr] at hx
        simp only [Option.map_some', Option.some.injEq] at hx
        subst hx
        simp only [List.mem_cons, Event.frame.injEq] at hm
        rcases hm with ⟨-, rfl, -⟩ | hm
        · rw [List.length_drop]; omega
        · exact ih _ _ _ _ r' hr tag d size hm
    have herr : ∀ (m : Message) (buffer : List Nat),
        some ([Event.error m, Event.close], buffer) = some r → d.length ≤ data.length := by
      intro m buffer hx
      simp only [Option.some.injEq] at hx
      subst hx
      simp at hmem
    have hempty : ∀ buffer : List Nat,
        some (([] : List Event), buffer) = some r → d.length ≤ data.length := by
      intro buffer hx
      simp only [Option.some.injEq] at hx
      subst hx
      simp at hmem
    have hauth : ∀ (sz : Nat) (m : Message) (buffer : List Nat),
        some ([Event.frame (data.getD pos 0) (data.drop (pos + MinimumPackageSize)) sz,
          Event.error m, Event.close], buffer) = some r → d.length ≤ data.length := by
      intro sz m buffer hx
      simp only [Option.some.injEq] at hx
      subst hx
      simp only [List.mem_cons, Event.frame.injEq, List.mem_singleton, reduceCtorEq,
        List.not_mem_nil, or_false] at hmem
      obtain ⟨-, rfl, -⟩ := hmem
      rw [List.length_drop]; omega
    unfold analyzeLoop at h
    dsimp only at h
    split_ifs at h
    all_goals first
      | exact herr _ _ h
      | exact hempty _ h
      | skip
    all_goals
      split at h
      all_goals first
        | exact hnext _ r h tag d size hmem
        | exact herr _ _ h
        | exact hempty _ h
        | exact hauth _ _ _ h

theorem expectedTrace_frames :
    ∀ (frames : List Frame) (tag : Nat) (p : List Nat) (n : Nat),
      Event.frame tag p n ∈ expectedTrace frames → n = p.length ∧ (⟨tag, p⟩ : Frame) ∈ frames := by
  intro frames
  induction frames with
  | nil => intro tag p n h; simp [expectedTrace] at h
  | cons f fs ih =>
    intro tag p n h
    have hhead : ∀ {tag p n}, Event.frame tag p n = Event.frame f.tag f.payload f.payload.length →
        n = p.length ∧ (⟨tag, p⟩ : Frame) ∈ f :: fs := by
      intro tag p n he
      simp only [Event.frame.injEq] at he
      obtain ⟨rfl, rfl, rfl⟩ := he
      exact ⟨rfl, List.mem_cons_self _ _⟩
    have hcons : Event.frame tag p n ∈ Event.frame f.tag f.payload f.payload.length
        :: expectedTrace fs → n = p.length ∧ (⟨tag, p⟩ : Frame) ∈ f :: fs := by
      intro hm
      rcases List.mem_cons.mp hm with he | hm
      · exact hhead he
      · exact ⟨(ih tag p n hm).1, List.mem_cons_of_mem _ (ih tag p n hm).2⟩
    unfold expectedTrace at h
    split at h
    · simp at h
    · simp at h
    · split_ifs at h
      · exact hcons h
      · simp only [List.mem_cons, List.mem_singleton, reduceCtorEq, List.not_mem_nil,
          or_false] at h
        exact hhead h
    · exact hcons h

theorem dispatchAll_observed (md5 : List Nat → List Nat) (fuel : Nat) (events : List Event)
    (hdata : ∀ tag d size, Event.frame tag d size ∈ events → d.length + 2 ≤ 2 ^ 32)
    (hobs : ∀ tag p n, Event.frame tag p n ∈ events.map Event.observed →
      n = p.length ∧ Frame.valid ⟨tag, p⟩ ∧ Frame.selfContained ⟨tag, p⟩ ∧ p.length < fuel) :
    ∀ c : Connection,
      dispatchAll md5 fuel c events = dispatchAll md5 fuel c (events.map Event.observed) := by
  induction events with
  | nil => intro c; rfl
  | cons e es ih =>
    intro c
    have hrec := ih (fun tag d size h => hdata tag d size (List.mem_cons_of_mem _ h))
      (fun tag p n h => hobs tag p n (by
        rw [List.map_cons]; exact List.mem_cons_of_mem _ h))
    have hstep : dispatch md5 fuel c e = dispatch md5 fuel c e.observed := by
      cases e with
      | frame tag d size =>
        obtain ⟨hn, hvalid, hself, hfuel⟩ := hobs tag (d.take size) size (by
          rw [List.map_cons]; exact List.mem_cons_self _ _)
        have hd := hdata tag d size (List.mem_cons_self _ _)
        have hsplit : d = d.take size ++ d.drop size := (List.take_append_drop size d).symm
        have h := dispatch_payload md5 fuel c ⟨tag, d.take size⟩ (d.drop size) hvalid hself hfuel
          (by rw [← hsplit]; exact hd)
        simp only at h
        rw [← hsplit, ← hn] at h
        exact h
      | error m => rfl
      | close => rfl
    rw [List.map_cons]
    show (match dispatch md5 fuel c e with
        | none => none
        | some c => dispatchAll md5 fuel c es)
      = match dispatch md5 fuel c e.observed with
        | none => none
        | some c => dispatchAll md5 fuel c (es.map Event.observed)
    rw [hstep]
    cases dispatch md5 fuel c e.observed with
    | none => rfl
    | some c1 => exact hrec c1

theorem analyzePacket_data_le (fuel : Nat) (bufferIn input : List Nat) (events : List Event)
    (buffer : List Nat) (h : analyzePacket fuel bufferIn input = some (events, buffer)) :
    ∀ tag d size, Event.frame tag d size ∈ events → d.length ≤ (bufferIn ++ input).length := by
  intro tag d size hmem
  unfold analyzePacket at h
  dsimp only at h
  split_ifs at h
  · simp only [Option.some.injEq, Prod.mk.injEq] at h
    rw [← h.1] at hmem
    simp at hmem
  · exact analyzeLoop_data_le _ _ _ _ _ _ h tag d size hmem

/-- The reads of a segmentation that no framing guard stops, on frames whose payloads hold what
their handlers read, leave the Connection as the handlers leave it when they are run on the
whole-buffer parse of the frames still to come. -/
theorem connection_reads_good (md5 : List Nat → List Nat) :
    ∀ (fragments : List (List Nat)) (rest : List Frame) (spill fuel : Nat) (c : Connection),
      (∀ f ∈ rest, f.valid) → (∀ f ∈ rest, f.selfContained) →
      (∀ f ∈ rest, f.payload.length < fuel) →
      (encodeFrames rest).length < 2 ^ 31 →
      (∀ g gs, rest = g :: gs → spill < g.encode.length) → (rest = [] → spill = 0) →
      fragments.flatten = (encodeFrames rest).drop spill →
      GoodCuts rest spill fragments →
      rest.length < fuel →
      c._bufferIn = (encodeFrames rest).take spill →
      Connection.analyzePackets md5 fuel c fragments
        = dispatchAll md5 fuel { c with _bufferIn := [] } (expectedTrace rest) := by
  intro fragments
  induction fragments with
  | nil =>
    intro rest spill fuel c _ _ _ _ hspill hspill0 hflat _ _ hb
    cases rest with
    | nil =>
      rw [hspill0 rfl, List.take_zero] at hb
      rw [bufferIn_eta c hb]
      rfl
    | cons g gs =>
      have h1 := hspill g gs rfl
      have h2 := congrArg List.length hflat
      rw [encodeFrames_cons] at h2
      simp at h2
      omega
  | cons fragment more ih =>
    intro rest spill fuel c hvalid hself hpay hsize hspill hspill0 hflat hgood hfuel hb
    have hsp : spill ≤ (encodeFrames rest).length := by
      cases rest with
      | nil => rw [hspill0 rfl]; exact Nat.zero_le _
      | cons g gs =>
        have := hspill g gs rfl
        rw [encodeFrames_cons, List.length_append]
        omega
    rw [List.flatten_cons] at hflat
    have hle : spill + fragment.length ≤ (encodeFrames rest).length := by
      have := congrArg List.length hflat
      rw [List.length_append, List.length_drop] at this
      omega
    have hfrag : (encodeFrames rest).take spill ++ fragment
        = (encodeFrames rest).take (spill + fragment.length) := by
      rw [List.take_add]
      congr 1
      have := congrArg (List.take fragment.length) hflat
      rwa [List.take_left] at this
    have hmore : more.flatten = (encodeFrames rest).drop (spill + fragment.length) := by
      have := congrArg (List.drop fragment.length) hflat
      rw [List.drop_left, List.drop_drop] at this
      rw [this]
    obtain ⟨h5, hC, hgood'⟩ := hgood
    obtain ⟨mid, events, buffer, hsplit, hrun, hev, hbuf, hbound, hs0, havail⟩ :=
      analyzePacket_good rest spill fuel fragment hvalid hsize hfrag hle h5 hC hfuel
    generalize (advance rest (spill + fragment.length)).1 = r at *
    generalize (advance rest (spill + fragment.length)).2.1 = s at *
    have hE : encodeFrames rest = encodeFrames mid ++ encodeFrames r := by
      rw [hsplit, encodeFrames_append]
    have hmidmem : ∀ f ∈ mid, f ∈ rest := by
      intro f hf; rw [hsplit]; exact List.mem_append_left _ hf
    have hrmem : ∀ f ∈ r, f ∈ rest := by
      intro f hf; rw [hsplit]; exact List.mem_append_right _ hf
    have hdata : ∀ tag d size, Event.frame tag d size ∈ events → d.length + 2 ≤ 2 ^ 32 := by
      intro tag d size hm
      have h1 := analyzePacket_data_le fuel _ _ events buffer hrun tag d size hm
      rw [hfrag, List.length_take] at h1
      omega
    have hobs : ∀ tag p n, Event.frame tag p n ∈ events.map Event.observed →
        n = p.length ∧ Frame.valid ⟨tag, p⟩ ∧ Frame.selfContained ⟨tag, p⟩
          ∧ p.length < fuel := by
      intro tag p n hm
      rw [hev] at hm
      obtain ⟨hn, hin⟩ := expectedTrace_frames mid tag p n hm
      exact ⟨hn, hvalid _ (hmidmem _ hin), hself _ (hmidmem _ hin), hpay _ (hmidmem _ hin)⟩
    have hdisp := dispatchAll_observed md5 fuel events hdata hobs { c with _bufferIn := [] }
    rw [hev] at hdisp
    have hstep : Connection.analyzePackets md5 fuel c (fragment :: more)
        = match dispatchAll md5 fuel { c with _bufferIn := [] } events with
          | none => none
          | some d =>
            if Event.close ∈ events then some { d with _bufferIn := buffer }
            else Connection.analyzePackets md5 fuel { d with _bufferIn := buffer } more := by
      rw [Connection.analyzePackets, hb, hrun]
    rw [hstep, hdisp, hsplit, expectedTrace_append]
    by_cases hclose : Event.close ∈ events
    · have hclose' : Event.close ∈ expectedTrace mid := by
        rw [← hev]; exact (close_mem_observed events).mpr hclose
      rw [if_pos hclose'] at hbuf ⊢
      cases hd : dispatchAll md5 fuel { c with _bufferIn := [] } (expectedTrace mid) with
      | none => rfl
      | some d =>
        dsimp only
        rw [if_pos hclose, hbuf, bufferIn_eta d ((dispatchAll_bufferIn _ hd).trans rfl)]
    · have hclose' : Event.close ∉ expectedTrace mid := by
        rw [← hev]; exact fun h => hclose ((close_mem_observed events).mp h)
      rw [if_neg hclose'] at hbuf ⊢
      rw [dispatchAll_append]
      cases hd : dispatchAll md5 fuel { c with _bufferIn := [] } (expectedTrace mid) with
      | none => rfl
      | some d =>
        dsimp only
        rw [if_neg hclose, Option.some_bind]
        have hrec := ih r s fuel { d with _bufferIn := buffer }
          (fun f hf => hvalid f (hrmem f hf)) (fun f hf => hself f (hrmem f hf))
          (fun f hf => hpay f (hrmem f hf))
          (by rw [hE, List.length_append] at hsize; omega) hbound hs0
          (by rw [hmore, havail, hE, List.drop_append]) hgood'
          (by
            have := congrArg List.length hsplit
            rw [List.length_append] at this
            omega)
          hbuf
        rw [hrec]
        have hd0 : d._bufferIn = [] := (dispatchAll_bufferIn _ hd).trans rfl
        have : ({ ({ d with _bufferIn := buffer } : Connection) with _bufferIn := [] }
            : Connection) = d := by
          rw [← bufferIn_eta d hd0]
        rw [this]

/-- C1, as amended. Segmentation independence of the framer on the segmentations that none of
its framing guards stops: for every stream of valid frames, shorter than 2^31 bytes, and every
cut of it into fragments such that every read finds at least five bytes (spill buffer and
fragment together) and every read that completes a CommandComplete frame ends on a frame
boundary, the frames taken through the dispatch table, with their payloads, and the errors and
`close` calls that `analyzePacket` raises are the same as when the whole stream arrives in one
read: the frames in order, up to the first fatal frame.  When in addition the payload of every
frame holds what the handler of its tag reads, the handlers do the same in both cases, and the
Connection ends in the same state, with the same signals emitted and the same bytes written:
the state the handlers produce on the frames in order. -/
theorem segmentation_independence (frames : List Frame) (fragments : List (List Nat))
    (fuel : Nat) (hvalid : ∀ f ∈ frames, f.valid) (hne : frames ≠ [])
    (hsize : (encodeFrames frames).length < 2 ^ 31)
    (hcut : fragments.flatten = encodeFrames frames) (hgood : GoodCuts frames 0 fragments)
    (hfuel : frames.length < fuel) :
    (analyzePackets fuel [] fragments).map (fun r => r.1.map Event.observed)
      = (analyzePackets fuel [] [encodeFrames frames]).map (fun r => r.1.map Event.observed) ∧
    (analyzePackets fuel [] [encodeFrames frames]).map (fun r => r.1.map Event.observed)
      = some (expectedTrace frames) ∧
    ((∀ f ∈ frames, f.selfContained) → (∀ f ∈ frames, f.payload.length < fuel) →
      ∀ (md5 : List Nat → List Nat) (c : Connection), c._bufferIn = [] →
        Connection.analyzePackets md5 fuel c fragments
          = Connection.analyzePackets md5 fuel c [encodeFrames frames] ∧
        Connection.analyzePackets md5 fuel c [encodeFrames frames]
          = dispatchAll md5 fuel c (expectedTrace frames) ∧
        (Connection.analyzePackets md5 fuel c fragments).map (fun d => d.emitted)
          = (Connection.analyzePackets md5 fuel c [encodeFrames frames]).map
              fun d => d.emitted) := by
  have hspill : ∀ g gs, frames = g :: gs → 0 < g.encode.length := by
    intro g gs _
    rw [length_encode]; omega
  have h5 : MinimumPackageSize ≤ (encodeFrames frames).length := by
    cases frames with
    | nil => exact absurd rfl hne
    | cons g gs =>
      rw [encodeFrames_cons, List.length_append, length_encode]
      simp only [MinimumPackageSize]; omega
  have hwholecut : GoodCuts frames 0 [encodeFrames frames] := by
    simp only [GoodCuts, Nat.zero_add, advance_all, and_true, implies_true]
    exact h5
  have hsegmented := analyzePackets_good fragments frames 0 fuel hvalid hsize hspill
    (fun _ => rfl) (by simpa using hcut) hgood hfuel
  have hwhole := analyzePackets_good [encodeFrames frames] frames 0 fuel hvalid hsize hspill
    (fun _ => rfl) (by simp) hwholecut hfuel
  rw [List.take_zero] at hsegmented hwhole
  refine ⟨hsegmented.trans hwhole.symm, hwhole, ?_⟩
  intro hself hpay md5 c hb
  have h1 := connection_reads_good md5 fragments frames 0 fuel c hvalid hself hpay hsize hspill
    (fun _ => rfl) (by simpa using hcut) hgood hfuel (by rw [hb, List.take_zero])
  have h2 := connection_reads_good md5 [encodeFrames frames] frames 0 fuel c hvalid hself hpay
    hsize hspill (fun _ => rfl) (by simp) hwholecut hfuel (by rw [hb, List.take_zero])
  rw [bufferIn_eta c hb] at h1 h2
  exact ⟨h1.trans h2.symm, h2, by rw [h1, h2]⟩

/-! ## Witnesses -/

/-- What a round trip with a fixed wire image says about a stored row made of that image. -/
theorem roundTrip_decode {sysOffset : Int → Int} {oid : Nat} {value : QVariant}
    {decoded : QVariant → Prop} {image : List Nat}
    (h : RoundTrip sysOffset oid value (fun bytes => bytes = image) decoded)
    (query : Query) (hp : query._preparedParametrs = [oid]) (hv : query._bindValues = [value])
    (result : Query) (field : Field) (row : Nat) (hf : result._fields = [field])
    (hty : field._typeOID = oid) (hrow : result._dataRows[row]? = some image) :
    ∃ v, Query.value sysOffset result row 0 = some v ∧ decoded v := by
  obtain ⟨_, bytes, _, _, _, _, hw, hd⟩ := h query hp hv
  subst hw
  exact hd result field row hf hty hrow

/-- C1, witness: a DataRow, a CommandComplete and a ReadyForQuery frame, cut after the seventh
byte, read while the query 0 is in flight: the same frames are dispatched, the row is stored
and the query completes, as in a single read. -/
theorem segmentation_independence_witness :
    (analyzePackets 8 []
        [[0x44, 0, 0, 0, 11, 0, 1],
         [0, 0, 0, 1, 7, 0x43, 0, 0, 0, 6, 0x53, 0, 0x5a, 0, 0, 0, 5, 0x49]]).map
        (fun r => r.1.map Event.observed)
      = (analyzePackets 8 []
          [encodeFrames [⟨DataRow, [0, 1, 0, 0, 0, 1, 7]⟩, ⟨CommandCompletion, [0x53, 0]⟩,
            ⟨ReadyForQuery, [0x49]⟩]]).map (fun r => r.1.map Event.observed) ∧
    (analyzePackets 8 []
        [encodeFrames [⟨DataRow, [0, 1, 0, 0, 0, 1, 7]⟩, ⟨CommandCompletion, [0x53, 0]⟩,
          ⟨ReadyForQuery, [0x49]⟩]]).map (fun r => r.1.map Event.observed)
      = some (expectedTrace [⟨DataRow, [0, 1, 0, 0, 0, 1, 7]⟩, ⟨CommandCompletion, [0x53, 0]⟩,
          ⟨ReadyForQuery, [0x49]⟩]) ∧
    Connection.analyzePackets (fun _ => []) 8 (Query.execSql Connection.ready 0 "select 1")
        [[0x44, 0, 0, 0, 11, 0, 1],
         [0, 0, 0, 1, 7, 0x43, 0, 0, 0, 6, 0x53, 0, 0x5a, 0, 0, 0, 5, 0x49]]
      = Connection.analyzePackets (fun _ => []) 8 (Query.execSql Connection.ready 0 "select 1")
          [encodeFrames [⟨DataRow, [0, 1, 0, 0, 0, 1, 7]⟩, ⟨CommandCompletion, [0x53, 0]⟩,
            ⟨ReadyForQuery, [0x49]⟩]] ∧
    (Connection.analyzePackets (fun _ => []) 8 (Query.execSql Connection.ready 0 "select 1")
        [[0x44, 0, 0, 0, 11, 0, 1],
         [0, 0, 0, 1, 7, 0x43, 0, 0, 0, 6, 0x53, 0, 0x5a, 0, 0, 0, 5, 0x49]]).map
        (fun d => (d.emitted, (d.queries 0)._dataRows, d._tasks))
      = some ([.executeFinished 0], [[0, 0, 0, 1, 7]], []) :=
  have h := segmentation_independence
    [⟨DataRow, [0, 1, 0, 0, 0, 1, 7]⟩, ⟨CommandCompletion, [0x53, 0]⟩, ⟨ReadyForQuery, [0x49]⟩]
    [[0x44, 0, 0, 0, 11, 0, 1], [0, 0, 0, 1, 7, 0x43, 0, 0, 0, 6, 0x53, 0, 0x5a, 0, 0, 0, 5, 0x49]]
    8 (by decide) (by decide) (by decide) (by decide) (by decide) (by decide)
  ⟨h.1, h.2.1,
   (h.2.2
      (by
        intro f hf
        simp only [List.mem_cons, List.mem_singleton, List.not_mem_nil, or_false] at hf
        rcases hf with rfl | rfl | rfl
        · show 2 ≤ ([0, 1, 0, 0, 0, 1, 7] : List Nat).length
          decide
        · show True
          trivial
        · show 1 ≤ ([0x49] : List Nat).length
          decide)
      (by decide) (fun _ => []) (Query.execSql Connection.ready 0 "select 1") (by decide)).1,
   by decide⟩

/-- C2, witness: the values 32767 (INT2), 2147483647 (INT4) and 9223372036854775807 (INT8), the
last one also read back from its stored row. -/
theorem codec_round_trip_integer_kinds_witness :
    RoundTrip (fun _ => 0) _INT2OID (.short 32767)
      (fun bytes => bytes = toBigEndian 4 2 ++ toBigEndian 2 (toUnsigned 16 32767))
      (fun d => d = .short 32767) ∧
    RoundTrip (fun _ => 0) _INT4OID (.int 2147483647)
      (fun bytes => bytes = toBigEndian 4 4 ++ toBigEndian 4 (toUnsigned 32 2147483647))
      (fun d => d = .int 2147483647) ∧
    ∃ v, Query.value (fun _ => 0)
        ⟨true, true, [], "", [⟨"int_8", 0, 0, _INT8OID, 8, -1, 1⟩], [], [],
          [[0, 0, 0, 8, 0x7F, 0xFF, 0xFF, 0xFF, 0xFF, 0xFF, 0xFF, 0xFF]]⟩ 0 0 = some v ∧
      v = .longLong 9223372036854775807 :=
  ⟨(codec_round_trip_integer_kinds (fun _ => 0)).2.1 32767 (by decide) (by decide),
   (codec_round_trip_integer_kinds (fun _ => 0)).2.2.1 _INT4OID (by decide) 2147483647
     (by decide) (by decide),
   roundTrip_decode
     ((codec_round_trip_integer_kinds (fun _ => 0)).2.2.2.1 9223372036854775807 (by decide)
       (by decide))
     ⟨true, true, [], "", [], [_INT8OID], [.longLong 9223372036854775807], []⟩ rfl rfl
     _ _ 0 rfl rfl (by decide)⟩

/-- C3, witness: the time 13:26:44.517, the instant 2024-05-18T10:26:44.517Z as a TIMESTAMP, and
13:26:44.517 at UTC+03 as a TIMETZ. -/
theorem codec_round_trip_time_kinds_witness :
    RoundTrip (fun _ => 10800) _TIMEOID (.time 48404517)
      (fun bytes => bytes = toBigEndian 4 8 ++ toBigEndian 8 (toUnsigned 64 (48404517 * 1000)))
      (fun d => d = .time 48404517) ∧
    RoundTrip (fun _ => 10800) _TIMESTAMPTZOID (.dateTime ⟨2460449, 48404517, 10800⟩)
      (fun bytes => bytes = toBigEndian 4 8 ++ toBigEndian 8 (toUnsigned 64
        (((QDateTime.mk 2460449 48404517 10800).toMSecsSinceEpoch - 946674000000) * 1000)))
      (fun d => ∃ back : QDateTime, d = .dateTime back ∧
        back.toMSecsSinceEpoch = (QDateTime.mk 2460449 48404517 10800).toMSecsSinceEpoch) ∧
    RoundTrip (fun _ => 10800) _TIMETZOID (.dateTime ⟨2415021, 48404517, 10800⟩)
      (fun bytes => bytes = toBigEndian 4 12 ++ (toBigEndian 8 (toUnsigned 64 (48404517 * 1000))
        ++ toBigEndian 4 (toUnsigned 32 (-10800))))
      (fun d => ∃ back : QDateTime, d = .dateTime back ∧ back.time = 48404517 ∧
        back.offsetFromUtc = 10800) :=
  ⟨(codec_round_trip_time_kinds (fun _ => 10800)).1 48404517 (by decide) (by decide),
   (codec_round_trip_time_kinds (fun _ => 10800)).2.1 _TIMESTAMPTZOID (by decide)
     ⟨2460449, 48404517, 10800⟩ (by decide) (by decide),
   (codec_round_trip_time_kinds (fun _ => 10800)).2.2 ⟨2415021, 48404517, 10800⟩ (by decide)
     (by decide) (by decide) (by decide)⟩

/-- C5, witness: a two-column row whose second column is NULL, under a field of OID 23. -/
theorem null_column_is_absent_witness :
    Query.value (fun _ => 0)
        ⟨false, false, [], "", [⟨"a", 0, 0, _BOOLOID, 1, -1, 1⟩, ⟨"b", 0, 0, _INT4OID, 4, -1, 1⟩],
          [], [], [[0, 0, 0, 1, 1, 0xFF, 0xFF, 0xFF, 0xFF]]⟩ 0 ((1 : Nat) : Int)
      = some .invalid :=
  null_column_is_absent (fun _ => 0)
    ⟨false, false, [], "", [⟨"a", 0, 0, _BOOLOID, 1, -1, 1⟩, ⟨"b", 0, 0, _INT4OID, 4, -1, 1⟩],
      [], [], [[0, 0, 0, 1, 1, 0xFF, 0xFF, 0xFF, 0xFF]]⟩ 0 [some [1]] [] (by decide) (by decide)
    (by decide)

/-- C6, witness: the row of a BOOL column, a NULL column and a two-byte TEXT column; column 2
starts at offset 13 and is decoded from its own two bytes. -/
theorem value_column_walk_witness :
    columnOffset [some [1], none, some [0x61, 0x62]] 2 = 13 ∧
    ((encodeColumns [some [1], none, some [0x61, 0x62]]).drop
        (columnOffset [some [1], none, some [0x61, 0x62]] 2)).take [0x61, 0x62].length
      = [0x61, 0x62] ∧
    Query.value (fun _ => 0)
        ⟨false, false, [], "",
          [⟨"a", 0, 0, _BOOLOID, 1, -1, 1⟩, ⟨"b", 0, 0, _INT4OID, 4, -1, 1⟩,
           ⟨"c", 0, 0, _TEXTOID, -1, -1, 1⟩],
          [], [], [encodeColumns [some [1], none, some [0x61, 0x62]]]⟩ 0 ((2 : Nat) : Int)
      = decodeColumn (fun _ => 0) (GotoPointers Label._BYTEA typeLabels _TEXTOID) [0x61, 0x62]
          [0x61, 0x62].length :=
  ⟨by decide,
   (value_column_walk (fun _ => 0)
    ⟨false, false, [], "",
      [⟨"a", 0, 0, _BOOLOID, 1, -1, 1⟩, ⟨"b", 0, 0, _INT4OID, 4, -1, 1⟩,
       ⟨"c", 0, 0, _TEXTOID, -1, -1, 1⟩],
      [], [], [encodeColumns [some [1], none, some [0x61, 0x62]]]⟩ 0 2
    [some [1], none, some [0x61, 0x62]] (by decide) (by decide) (by decide)).2
    [0x61, 0x62] ⟨"c", 0, 0, _TEXTOID, -1, -1, 1⟩ (by decide) (by decide) (by decide)⟩

/-- C8, witness: 13:26:44.517 at UTC+03, whose last four bytes are `FF FF D5 D0`. -/
theorem timetz_offset_negated_both_ways_witness :
    toBigEndian 4 (toUnsigned 32 (-10800)) = [0xFF, 0xFF, 0xD5, 0xD0] ∧
    RoundTrip (fun _ => 0) _TIMETZOID (.dateTime ⟨2415021, 48404517, 10800⟩)
      (fun bytes => bytes.length = 16 ∧
        bytes.drop 12 = toBigEndian 4 (toUnsigned 32 (-10800)) ∧
        toSigned 32 (fromBigEndian (bytes.drop 12)) = -10800)
      (fun d => ∃ back : QDateTime, d = .dateTime back ∧ back.offsetFromUtc = 10800) :=
  ⟨by decide,
   timetz_offset_negated_both_ways (fun _ => 0) ⟨2415021, 48404517, 10800⟩ (by decide)
     (by decide) (by decide) (by decide)⟩

/-- C10, witness: an unknown OID below the largest catalogue OID (26, after a known one) and
one above it (5000). -/
theorem unknown_oid_on_bind_witness :
    ((runBindQuery [] ⟨true, true, [], "", [], [23, 26, 5000],
        [.int 1, .string "x", .int 2], []⟩).error
      = [⟨"", "", "The binding does not support the type OID: " ++ toString 26⟩] ∧
     (runBindQuery [] ⟨true, true, [], "", [], [23, 26, 5000],
        [.int 1, .string "x", .int 2], []⟩).written = []) ∧
    ((runBindQuery [] ⟨true, true, [], "", [], [5000], [.int 2], []⟩).error
      = [⟨"", "", "The binding does not support the type OID: " ++ toString 5000⟩] ∧
     (runBindQuery [] ⟨true, true, [], "", [], [5000], [.int 2], []⟩).written = []) :=
  ⟨unknown_oid_on_bind [] ⟨true, true, [], "", [], [23, 26, 5000],
      [.int 1, .string "x", .int 2], []⟩ 26 (by decide) (by decide) (by decide),
   unknown_oid_on_bind [] ⟨true, true, [], "", [], [5000], [.int 2], []⟩ 5000 (by decide)
     (by decide) (by decide)⟩

/-- C14, witness: two queries are submitted, then a ReadyForQuery frame with status `I`, a call
of `close` and a ReadyForQuery frame with status `T` follow; the two frames complete the two
queries in submission order. -/
theorem completion_order_witness :
    Connection.ready._tasks = [] ∧
    completions (run Connection.ready
      [.addQuery 0, .addQuery 1, .readyForQuery [Idle], .other close,
        .readyForQuery [Transaction]]).emitted = [0, 1] :=
  ⟨by decide,
   ((completion_order Connection.ready
      [.addQuery 0, .addQuery 1, .readyForQuery [Idle], .other close,
        .readyForQuery [Transaction]] (by decide)
      (by
        intro s hs
        simp only [List.mem_cons, List.mem_singleton, List.not_mem_nil, or_false] at hs
        rcases hs with rfl | rfl | rfl | rfl | rfl
        · trivial
        · trivial
        · trivial
        · exact fun c => ⟨(close_keeps c).1, (close_keeps c).2.2⟩
        · trivial)).2 [0, 1]
      [.readyForQuery [Idle], .other close, .readyForQuery [Transaction]] rfl
      (by decide)).trans (by decide)⟩

/-- C16, witness: an ErrorResponse payload with the fields S, V, C and M, followed in the buffer
by a ReadyForQuery frame, handled while query 0 is in flight. -/
theorem error_and_notice_routing_witness :
    (errorOrNoticeResponse 5 (Query.execSql Connection.ready 0 "select")
        (encodeFields [(0x53, [0x45, 0x52, 0x52, 0x4f, 0x52]),
            (ErrorOrNoticeType, [0x45, 0x52, 0x52, 0x4f, 0x52]),
            (ErrorOrNoticeCode, [0x34, 0x32, 0x36, 0x30, 0x31]),
            (ErrorOrNoticeMessage, [0x62, 0x61, 0x64])] ++ [0x5a, 0, 0, 0, 5, 0x45])
        (encodeFields [(0x53, [0x45, 0x52, 0x52, 0x4f, 0x52]),
            (ErrorOrNoticeType, [0x45, 0x52, 0x52, 0x4f, 0x52]),
            (ErrorOrNoticeCode, [0x34, 0x32, 0x36, 0x30, 0x31]),
            (ErrorOrNoticeMessage, [0x62, 0x61, 0x64])]).length .Error).map
        (fun c => (c._tasks, c.emitted))
      = some ([0], [.queryError 0 ⟨"ERROR", "42601", "bad"⟩]) :=
  (congrArg (Option.map fun c => (c._tasks, c.emitted))
    ((error_and_notice_routing (Query.execSql Connection.ready 0 "select")
      [(0x53, [0x45, 0x52, 0x52, 0x4f, 0x52]),
        (ErrorOrNoticeType, [0x45, 0x52, 0x52, 0x4f, 0x52]),
        (ErrorOrNoticeCode, [0x34, 0x32, 0x36, 0x30, 0x31]),
        (ErrorOrNoticeMessage, [0x62, 0x61, 0x64])] [0x5a, 0, 0, 0, 5, 0x45]
      [0x45, 0x52, 0x52, 0x4f, 0x52] [0x34, 0x32, 0x36, 0x30, 0x31] [0x62, 0x61, 0x64] 5
      (by decide) (by unfold fieldIs; decide) (by decide) (by unfold fieldIs; decide)
      (by decide) (by unfold fieldIs; decide) (by decide) (by decide) (by decide)).1 0 []
      (by decide)).1).trans (by decide)

/-- C18, witness: a CommandComplete frame followed by the first three bytes of a ReadyForQuery
frame (fewer than five, so "Data segmentation error"), and a DataRow frame followed by the same
three bytes (kept, no error). -/
theorem failure_after_command_complete_witness :
    (observedRun (analyzePacket 3 [] [0x43, 0, 0, 0, 6, 0x53, 0, 0x5a, 0, 0])).map Prod.fst
      = some [.frame CommandCompletion [0x53, 0] 2,
          .error ⟨"", "", "Data segmentation error"⟩, .close] ∧
    observedRun (analyzePacket 3 [0x44, 0, 0] [0, 11, 0, 1, 0, 0, 0, 1, 7, 0x5a, 0, 0])
      = some ([.frame DataRow [0, 1, 0, 0, 0, 1, 7] 7], [0x5a, 0, 0]) :=
  ⟨((failure_after_command_complete [] [0x43, 0, 0, 0, 6, 0x53, 0, 0x5a, 0, 0]
      [⟨CommandCompletion, [0x53, 0]⟩] [0x5a, 0, 0] [0, 5, 0x49] ⟨ReadyForQuery, [0x49]⟩ 3
      (by decide) (by decide) (by decide) (by decide) (by decide) (by decide) (by decide)
      (by decide) (by decide)).1 ⟨⟨CommandCompletion, [0x53, 0]⟩, by simp, rfl⟩).trans
      (by decide),
   ((failure_after_command_complete [0x44, 0, 0] [0, 11, 0, 1, 0, 0, 0, 1, 7, 0x5a, 0, 0]
      [⟨DataRow, [0, 1, 0, 0, 0, 1, 7]⟩] [0x5a, 0, 0] [0, 5, 0x49] ⟨ReadyForQuery, [0x49]⟩ 3
      (by decide) (by decide) (by decide) (by decide) (by decide) (by decide) (by decide)
      (by decide) (by decide)).2 (by decide)).trans (by decide)⟩

/-- C19, witness: a spill of three bytes and a read that completes a DataRow frame and brings
the first five bytes of a ReadyForQuery frame; and a buffer made of one whole frame. -/
theorem residual_retention_witness :
    observedRun (analyzePacket 3 [0x44, 0, 0] [0, 11, 0, 1, 0, 0, 0, 1, 7, 0x5a, 0, 0, 0, 5])
      = some ([.frame DataRow [0, 1, 0, 0, 0, 1, 7] 7], [0x5a, 0, 0, 0, 5]) ∧
    observedRun (analyzePacket 3 [] [0x5a, 0, 0, 0, 5, 0x49])
      = some ([.frame ReadyForQuery [0x49] 1], []) :=
  ⟨(residual_retention [0x44, 0, 0] [0, 11, 0, 1, 0, 0, 0, 1, 7, 0x5a, 0, 0, 0, 5]
      [⟨DataRow, [0, 1, 0, 0, 0, 1, 7]⟩] [0x5a, 0, 0, 0, 5] 3 (by decide) (by decide)
      (by decide)
      (Or.inr ⟨⟨ReadyForQuery, [0x49]⟩, by decide, [0x49], by decide, by decide, by decide⟩)
      (by decide) (by decide)).trans (by decide),
   (residual_retention [] [0x5a, 0, 0, 0, 5, 0x49] [⟨ReadyForQuery, [0x49]⟩] [] 3 (by decide)
      (by decide) (by decide) (Or.inl rfl) (by decide) (by decide)).trans (by decide)⟩

/-- C20, witness: a row of three columns whose first field has the OID 26, below the largest
catalogue OID, and whose third field has the OID 3802, above it. -/
theorem decode_fallback_unknown_oid_witness :
    Query.value (fun _ => 0)
        ⟨false, false, [], "", [⟨"a", 0, 0, 26, 4, -1, 1⟩, ⟨"b", 0, 0, 23, 4, -1, 1⟩,
          ⟨"c", 0, 0, 3802, -1, -1, 1⟩], [], [],
          [encodeColumns [some [1, 2, 3], none, some [0x7b, 0x7d]]]⟩ 0 0
      = some (.byteArray [1, 2, 3]) ∧
    Query.value (fun _ => 0)
        ⟨false, false, [], "", [⟨"a", 0, 0, 26, 4, -1, 1⟩, ⟨"b", 0, 0, 23, 4, -1, 1⟩,
          ⟨"c", 0, 0, 3802, -1, -1, 1⟩], [], [],
          [encodeColumns [some [1, 2, 3], none, some [0x7b, 0x7d]]]⟩ 0 2
      = some (.byteArray [0x7b, 0x7d]) :=
  ⟨(decode_fallback_unknown_oid (fun _ => 0) _ 0 0 [some [1, 2, 3], none, some [0x7b, 0x7d]]
      [1, 2, 3] ⟨"a", 0, 0, 26, 4, -1, 1⟩ (by decide) (by decide) (by decide) (by decide)
      (by decide)).1,
   (decode_fallback_unknown_oid (fun _ => 0) _ 0 2 [some [1, 2, 3], none, some [0x7b, 0x7d]]
      [0x7b, 0x7d] ⟨"c", 0, 0, 3802, -1, -1, 1⟩ (by decide) (by decide) (by decide) (by decide)
      (by decide)).1⟩

/-- C21, witness: the INT4 parameter 7 as the only parameter of a statement, appended to an
empty buffer as the length 4 and four value bytes. -/
theorem parameter_length_prefix_witness :
    23 ∈ catalogue ∧ (QVariant.int 7).toByteArray.length < 2 ^ 32 ∧
    (∃ k bytes, bytes.length = k ∧ k = 4 ∧
      ∀ (values : List QVariant) (bufferOut : List Nat) (size : Nat),
        ∃ n, bindLoop [23] (QVariant.int 7 :: values) 0 bufferOut size
          = bindLoop [23] values 1 (bufferOut ++ (toBigEndian 4 k ++ bytes)) n) ∧
    (bindLoop [23] [QVariant.int 7] 0 [] 0)._bufferOut = [0, 0, 0, 4, 0, 0, 0, 7] :=
  ⟨by decide, by decide,
   match parameter_length_prefix 23 (.int 7) (by decide) (by decide) with
   | ⟨k, bytes, h1, h2, _, _, h4, _⟩ =>
     ⟨k, bytes, h1, h4 (Or.inl (by decide)),
       fun values bufferOut size => h2 [23] values 0 bufferOut size rfl⟩,
   by decide⟩

/-- C22, witness: the statement `s1` with one INT4 parameter bound to 7; the Bind frame has 27
bytes and its length field holds 26. -/
theorem bind_length_patched_witness :
    ∃ frame,
      runBindQuery [] ⟨true, true, [0x73, 0x31], "select $1", [], [23], [.int 7], []⟩
        = ⟨frame ++ ES_msgs, [], [frame ++ ES_msgs]⟩ ∧
      frame.take 1 = [Bind] ∧ (frame.drop 1).take 4 = toBigEndian 4 (frame.length - 1) ∧
      frame.length - 1 = 26 :=
  match bind_length_patched ⟨true, true, [0x73, 0x31], "select $1", [], [23], [.int 7], []⟩
    (by decide) (by decide) (by decide) (by decide) with
  | ⟨frame, h1, h2, h3, h4⟩ => ⟨frame, h1, h2, h3, h4.trans (by decide)⟩

/-- The startup message for the user `postgres` and the database `Test`, written from an empty
scratch buffer. -/
theorem startup_message_layout_witness :
    (makeStarupMessage { Connection.fresh with
        _user := [0x70, 0x6f, 0x73, 0x74, 0x67, 0x72, 0x65, 0x73]
        _database := [0x54, 0x65, 0x73, 0x74] }).written
      = [[0, 0, 0, 37, 0, 3, 0, 0, 0x75, 0x73, 0x65, 0x72, 0,
          0x70, 0x6f, 0x73, 0x74, 0x67, 0x72, 0x65, 0x73, 0,
          0x64, 0x61, 0x74, 0x61, 0x62, 0x61, 0x73, 0x65, 0, 0x54, 0x65, 0x73, 0x74, 0, 0]] :=
  ((startup_message_layout { Connection.fresh with
        _user := [0x70, 0x6f, 0x73, 0x74, 0x67, 0x72, 0x65, 0x73]
        _database := [0x54, 0x65, 0x73, 0x74] } (by decide)).2.2.1 rfl).trans (by decide)

/-- The password message for user `postgres`, password `postgres` and salt 12 34 56 78, written
from an empty scratch buffer, with a function in the place of `md5` that returns sixteen bytes
made from the sum of its input: `p`, the length 40, `md5`, thirty-two hexadecimal digits and
NUL. -/
theorem password_message_layout_witness :
    (authentication (fun x => (List.range 16).map fun i => (x.sum + i) % 256)
        { Connection.fresh with
          _user := [0x70, 0x6f, 0x73, 0x74, 0x67, 0x72, 0x65, 0x73]
          _password := [0x70, 0x6f, 0x73, 0x74, 0x67, 0x72, 0x65, 0x73] }
        [0, 0, 0, 5, 0x12, 0x34, 0x56, 0x78]).map (fun r => (r.1, r.2.written))
      = some (true, [[0x70, 0x00, 0x00, 0x00, 0x28, 0x6d, 0x64, 0x35, 0x64, 0x34, 0x64, 0x35, 0x64, 0x36,
          0x64, 0x37, 0x64, 0x38, 0x64, 0x39, 0x64, 0x61, 0x64, 0x62, 0x64, 0x63, 0x64, 0x64,
          0x64, 0x65, 0x64, 0x66, 0x65, 0x30, 0x65, 0x31, 0x65, 0x32, 0x65, 0x33, 0x00]]) :=
  (congrArg (Option.map fun r => (r.1, r.2.written))
    (password_message_layout (fun x => (List.range 16).map fun i => (x.sum + i) % 256)
      { Connection.fresh with
        _user := [0x70, 0x6f, 0x73, 0x74, 0x67, 0x72, 0x65, 0x73]
        _password := [0x70, 0x6f, 0x73, 0x74, 0x67, 0x72, 0x65, 0x73] }
      [0x12, 0x34, 0x56, 0x78] [] (fun x => by simp) (by decide)).1).trans (by decide)

/-- C25, witness: a whole handshake (AuthenticationOk, ParameterStatus `a` = `b`,
BackendKeyData 1 and 2, ReadyForQuery) read in one piece. -/
theorem session_follows_frames_witness :
    (∃ c events,
      Connection.acts (fun _ => []) 6 ({ Connection.fresh with connected := true }, [])
        [.read ([0x52, 0, 0, 0, 8, 0, 0, 0, 0] ++ [0x53, 0, 0, 0, 8, 0x61, 0, 0x62, 0]
          ++ [0x4b, 0, 0, 0, 12, 0, 0, 0, 1, 0, 0, 0, 2] ++ [0x5a, 0, 0, 0, 5, 0x49])]
        = some (c, events) ∧
      (c._auth_success = true → (sessionOf events).authenticated = true) ∧
      (c._parametersStatus ≠ [] ↔ (sessionOf events).parameters = true) ∧
      (c._pid, c._key) = (sessionOf events).identity) ∧
    ((Connection.acts (fun _ => []) 6 ({ Connection.fresh with connected := true }, [])
        [.read ([0x52, 0, 0, 0, 8, 0, 0, 0, 0] ++ [0x53, 0, 0, 0, 8, 0x61, 0, 0x62, 0]
          ++ [0x4b, 0, 0, 0, 12, 0, 0, 0, 1, 0, 0, 0, 2] ++ [0x5a, 0, 0, 0, 5, 0x49])]).map
      fun s => (s.1._auth_success, s.1._parametersStatus, s.1._pid, s.1._key, sessionOf s.2))
      = some (true, [("a", "b")], 1, 2, ⟨true, true, (1, 2)⟩) :=
  ⟨match h : Connection.acts (fun _ => []) 6 ({ Connection.fresh with connected := true }, [])
        [.read ([0x52, 0, 0, 0, 8, 0, 0, 0, 0] ++ [0x53, 0, 0, 0, 8, 0x61, 0, 0x62, 0]
          ++ [0x4b, 0, 0, 0, 12, 0, 0, 0, 1, 0, 0, 0, 2] ++ [0x5a, 0, 0, 0, 5, 0x49])] with
    | some (c, events) =>
      ⟨c, events, rfl, session_follows_frames _ _ _ _ c events ⟨rfl, rfl, rfl, rfl⟩ h⟩
    | none => absurd (congrArg Option.isSome h) (by decide),
   by decide⟩

/-- C31, witness: the value 2 bound at index 1 of a query that holds the values 1 and 3, and
three values bound at the indices 0, 1, 2 of a query that holds none. -/
theorem bindValue_inserts_witness :
    (∃ values : List QVariant,
      Query.bindValue (some Connection.ready)
          ⟨true, true, [0x73, 0x31], "select $1, $2, $3", [], [23, 23, 23], [.int 1, .int 3], []⟩
          1 (.qint32 2)
        = some ⟨true, true, [0x73, 0x31], "select $1, $2, $3", [], [23, 23, 23], values, []⟩ ∧
      values.length = 3 ∧ values[1]? = some (.int 2)) ∧
    Query.bindValue (some Connection.ready)
        ⟨true, true, [0x73, 0x31], "select $1, $2, $3", [], [23, 23, 23], [.int 1, .int 3], []⟩
        1 (.qint32 2)
      = some ⟨true, true, [0x73, 0x31], "select $1, $2, $3", [], [23, 23, 23],
          [.int 1, .int 2, .int 3], []⟩ ∧
    Query.bindAll (some Connection.ready)
        ⟨true, true, [0x73, 0x31], "select $1, $2, $3", [], [21, 23, 25], [], []⟩
        (ascending 0 [.qint16 7, .qint32 8, .variant (.string "x")])
      = some ⟨true, true, [0x73, 0x31], "select $1, $2, $3", [], [21, 23, 25],
          [.short 7, .int 8, .string "x"], []⟩ :=
  ⟨match (bindValue_inserts Connection.ready
        ⟨true, true, [0x73, 0x31], "select $1, $2, $3", [], [23, 23, 23], [.int 1, .int 3], []⟩
        1 (.qint32 2) rfl (by decide) (by decide)).1 with
    | ⟨values, h, hlen, hat, _⟩ => ⟨values, h, hlen, hat⟩,
   by decide,
   (bindValue_inserts Connection.ready
      ⟨true, true, [0x73, 0x31], "select $1, $2, $3", [], [23, 23, 23], [.int 1, .int 3], []⟩
      1 (.qint32 2) rfl (by decide) (by decide)).2.2.2
      ⟨true, true, [0x73, 0x31], "select $1, $2, $3", [], [21, 23, 25], [], []⟩
      [.qint16 7, .qint32 8, .variant (.string "x")] rfl rfl⟩

/-- C32, witness: a prepared query with one stored row and one bound value is run again, and
the server sends BindComplete, two DataRow frames and CommandComplete. -/
theorem rows_accumulate_witness :
    ∃ d,
      dispatchAll (fun _ => []) 0
        (Query.exec { Connection.ready with
          queries := Function.update (fun _ => Query.fresh) 0
            ⟨true, true, [0x73, 0x31], "select $1", [⟨"a", 0, 0, 23, 4, -1, 1⟩], [23],
              [.int 7], [[0, 0, 0, 4, 0, 0, 0, 7]]⟩ } 0)
        [.frame BindCompletion [] 0, .frame DataRow [0, 1, 0, 0, 0, 4, 0, 0, 0, 7] 10,
          .frame DataRow [0, 1, 0, 0, 0, 4, 0, 0, 0, 7] 10, .frame CommandCompletion [0x53, 0] 2]
        = some d ∧
      (d.queries 0).rowCount = 3 ∧ (d.queries 0)._bindValues = [.int 7] :=
  match (rows_accumulate (fun _ => []) 0
      { Connection.ready with
        queries := Function.update (fun _ => Query.fresh) 0
          ⟨true, true, [0x73, 0x31], "select $1", [⟨"a", 0, 0, 23, 4, -1, 1⟩], [23],
            [.int 7], [[0, 0, 0, 4, 0, 0, 0, 7]]⟩ } 0
      [.frame BindCompletion [] 0, .frame DataRow [0, 1, 0, 0, 0, 4, 0, 0, 0, 7] 10,
        .frame DataRow [0, 1, 0, 0, 0, 4, 0, 0, 0, 7] 10, .frame CommandCompletion [0x53, 0] 2]
      (by decide) (by decide) (by decide)
      (by
        intro e he
        simp only [List.mem_cons, List.mem_singleton, List.not_mem_nil, or_false] at he
        rcases he with rfl | rfl | rfl | rfl <;> unfold Event.inRun <;> decide)).2.1 with
  | ⟨d, hd, _, hvalues, hcount, _⟩ => ⟨d, hd, hcount.trans (by decide), hvalues.trans (by decide)⟩

end TinyPG
